import Mathlib

/-
Shallow embedding of the libbuffy segmented byte buffer, translated from
src/src/buffer.c of the ckerr/buffy repository, together with proofs about
the embedded operations.

Modelling conventions:
 - machine bytes are Nat values; byte arrays are List Nat;
 - a data pointer plus its capacity is modelled as the List itself, so the
   C field pair (data, size) becomes one field data with size = data.length.
   The only place the C code changes size independently of data is
   page_realloc(page, 0), which is always followed by assigning InitPage,
   so the collapse is invisible;
 - a NULL data pointer is modelled as the empty list.  The only states the
   C code distinguishes by data == NULL have zero capacity, apart from
   user-supplied zero-length reference pages, which no theorem below uses;
 - the process-global allocator is an explicit Alloc argument: ok n says
   whether a malloc or realloc of n data bytes succeeds, okArr n whether a
   realloc of the page-descriptor array to n slots succeeds;
 - callback invocations (the changed callback and the unref hooks) are
   recorded in an event list carried by the buffer; a callback identity is
   a Nat standing for the C function pointer, likewise the user argument;
 - errno and the debug asserts are not part of the state; a C function that
   returns an int error code returns the same Int here;
 - C while loops over the page iterator are written with an explicit fuel
   argument so that every definition is executable; the public wrappers
   pass fuel that provably exceeds the iteration count.
-/

set_option autoImplicit false
set_option maxRecDepth 1000000

/-- One page descriptor, mirroring struct bfy_page of buffer.c.  The C flag
bits READONLY and UNMANAGED are two Bools, the unref hook is an optional
callback identity plus its user argument. -/
structure Page where
  data : List Nat
  read_pos : Nat
  write_pos : Nat
  readonly : Bool
  unmanaged : Bool
  unref_cb : Option Nat
  unref_arg : Nat
deriving DecidableEq

/-- Capacity of the page, the C field bfy_page.size. -/
def Page.size (p : Page) : Nat := p.data.length

/-- Recorded callback invocations, in program order. -/
inductive BufEvent where
  | changed (orig_size n_added n_deleted : Nat)
  | unref (cb : Nat) (data : List Nat) (len : Nat) (arg : Nat)
deriving DecidableEq

/-- The buffer state, mirroring struct bfy_buffer: an aggregated inline page,
an optional overflow page array (whose length is the C field n_pages_alloc),
the live page count n_pages, the cached content length, and the
change-notifier state.  changed_cb is whether a callback is installed;
orig_size, n_added, n_deleted mirror struct bfy_changed_cb_info. -/
structure Buffer where
  page : Page
  pages : Option (List Page)
  n_pages : Nat
  content_len : Nat
  changed_cb : Bool
  orig_size : Nat
  n_added : Nat
  n_deleted : Nat
  changed_coalescing : Nat
  changed_muted : Nat
  events : List BufEvent
deriving DecidableEq

/-- Allocation oracle standing for the process-global allocator vtable. -/
structure Alloc where
  ok : Nat → Bool
  okArr : Nat → Bool

/-- The always-succeeding allocator. -/
def allocAlways : Alloc := ⟨fun _ => true, fun _ => true⟩

/-- The C static InitPage, an all-zero page descriptor. -/
def InitPage : Page := ⟨[], 0, 0, false, false, none, 0⟩

/-- SIZE_MAX for a 64-bit size_t. -/
def SIZE_MAX : Nat := 2 ^ 64 - 1

/-- The live page sequence: pages_cbegin to pages_cend of buffer.c.  When no
overflow array exists this is the single inline page, otherwise the first
n_pages slots of the array. -/
def Buffer.livePages (b : Buffer) : List Page :=
  match b.pages with
  | none => [b.page]
  | some arr => arr.take b.n_pages

/-- buffer_count_pages of buffer.c. -/
def buffer_count_pages (b : Buffer) : Nat := b.livePages.length

/-- Read the live page at index i (a dereference of pages_cbegin + i). -/
def Buffer.getPage (b : Buffer) (i : Nat) : Page := b.livePages.getD i InitPage

/-- Write the live page slot at index i, mirroring a store through a page
pointer obtained from pages_begin. -/
def Buffer.setPage (b : Buffer) (i : Nat) (p : Page) : Buffer :=
  match b.pages with
  | none => { b with page := p }
  | some arr => { b with pages := some (arr.set i p) }

/-- Index of the trailing live page, pages_back / pages_cback of buffer.c. -/
def pages_back_idx (b : Buffer) : Nat := buffer_count_pages b - 1

/-- page_can_realloc of buffer.c. -/
def page_can_realloc (p : Page) : Bool := !p.readonly && !p.unmanaged

/-- page_is_writable of buffer.c. -/
def page_is_writable (p : Page) : Bool := !p.readonly

/-- page_is_recyclable of buffer.c. -/
def page_is_recyclable (p : Page) : Bool := page_is_writable p

/-- page_get_content_len of buffer.c. -/
def page_get_content_len (p : Page) : Nat := p.write_pos - p.read_pos

/-- page_get_space_len of buffer.c. -/
def page_get_space_len (p : Page) : Nat := p.size - p.write_pos

/-- The live bytes of a page, the region from read_pos to write_pos. -/
def page_live_bytes (p : Page) : List Nat := (p.data.take p.write_pos).drop p.read_pos

/-- The flattened content byte sequence of the buffer. -/
def Buffer.content (b : Buffer) : List Nat := (b.livePages.map page_live_bytes).flatten

/-- Well-formedness of a page: cursors are ordered and within capacity. -/
def PageWF (p : Page) : Prop := p.read_pos ≤ p.write_pos ∧ p.write_pos ≤ p.data.length

instance (p : Page) : Decidable (PageWF p) :=
  decidable_of_iff (p.read_pos ≤ p.write_pos ∧ p.write_pos ≤ p.data.length) Iff.rfl

/-- Well-formedness of a buffer: every live page is well formed, the cached
content length equals the walked sum of per-page content lengths, and in
overflow representation the live count fits the array and is positive. -/
def BufferWF (b : Buffer) : Prop :=
  (∀ p ∈ b.livePages, PageWF p) ∧
  b.content_len = (b.livePages.map page_get_content_len).sum ∧
  (b.pages.isSome → (b.n_pages ≤ (b.pages.getD []).length ∧ 1 ≤ b.n_pages)) ∧
  (b.pages.isSome → b.page = InitPage) ∧
  (b.pages = none → b.n_pages ≤ 1)

instance (b : Buffer) : Decidable (BufferWF b) := by
  unfold BufferWF; infer_instance

/-! ## Change notifications (buffer.c lines 222-300) -/

/-- buffer_reset_changed_info: zero the counters and remember the current
content length as orig_size.  In C this reads
bfy_buffer_get_content_len(buf), which returns the cached counter. -/
def buffer_reset_changed_info (b : Buffer) : Buffer :=
  { b with orig_size := b.content_len, n_added := 0, n_deleted := 0 }

/-- bfy_buffer_set_changed_cb. -/
def bfy_buffer_set_changed_cb (b : Buffer) (cb : Bool) : Buffer :=
  buffer_reset_changed_info { b with changed_cb := cb }

/-- buffer_check_changed_cb: emit the accumulated change event when a
callback is installed, the buffer is neither muted nor coalescing, and a
nonzero amount was added or deleted; then reset the counters. -/
def buffer_check_changed_cb (b : Buffer) : Buffer :=
  if !b.changed_cb then b
  else if b.changed_muted ≠ 0 then b
  else if b.changed_coalescing ≠ 0 then b
  else if b.n_added = 0 ∧ b.n_deleted = 0 then b
  else
    buffer_reset_changed_info
      { b with events := b.events ++ [.changed b.orig_size b.n_added b.n_deleted] }

/-- buffer_record_content_added. -/
def buffer_record_content_added (b : Buffer) (n : Nat) : Buffer :=
  let b := { b with content_len := b.content_len + n }
  if b.changed_muted = 0 then
    buffer_check_changed_cb { b with n_added := b.n_added + n }
  else b

/-- buffer_record_content_removed.  The C counter is a size_t; in every use
below n is at most content_len, and Nat subtraction stands for the C
subtraction. -/
def buffer_record_content_removed (b : Buffer) (n : Nat) : Buffer :=
  let b := { b with content_len := b.content_len - n }
  if b.changed_muted = 0 then
    buffer_check_changed_cb { b with n_deleted := b.n_deleted + n }
  else b

/-- bfy_buffer_mute_change_events. -/
def bfy_buffer_mute_change_events (b : Buffer) : Buffer :=
  { b with changed_muted := b.changed_muted + 1 }

/-- bfy_buffer_unmute_change_events. -/
def bfy_buffer_unmute_change_events (b : Buffer) : Buffer :=
  let b := { b with changed_muted := b.changed_muted - 1 }
  if b.changed_muted = 0 then buffer_check_changed_cb b else b

/-- bfy_buffer_begin_coalescing_change_events. -/
def bfy_buffer_begin_coalescing_change_events (b : Buffer) : Buffer :=
  { b with changed_coalescing := b.changed_coalescing + 1 }

/-- bfy_buffer_end_coalescing_change_events. -/
def bfy_buffer_end_coalescing_change_events (b : Buffer) : Buffer :=
  let b := { b with changed_coalescing := b.changed_coalescing - 1 }
  if b.changed_coalescing = 0 then buffer_check_changed_cb b else b

/-! ## Positions (buffer.c lines 369-401) -/

/-- A resolved position, struct bfy_pos. -/
structure Pos where
  page_idx : Nat
  page_pos : Nat
  content_pos : Nat
deriving DecidableEq

/-- The page walk inside buffer_get_pos: it accumulates consumed content in
acc, keeps the still-unresolved remainder in rem, and stops inside the
first page that strictly contains the target. -/
def buffer_get_pos_go : List Page → Nat → Nat → Nat → Pos
  | [], idx, acc, _ => ⟨idx, 0, acc⟩
  | p :: rest, idx, acc, rem =>
    let page_len := page_get_content_len p
    let got := min page_len rem
    if rem - got = 0 ∧ got < page_len then ⟨idx, got, acc + got⟩
    else buffer_get_pos_go rest (idx + 1) (acc + got) (rem - got)

/-- buffer_get_pos of buffer.c. -/
def buffer_get_pos (b : Buffer) (content_pos : Nat) : Pos :=
  if content_pos = 0 then ⟨0, 0, 0⟩
  else if b.content_len ≤ content_pos then
    ⟨buffer_count_pages b, 0, b.content_len⟩
  else buffer_get_pos_go b.livePages 0 0 content_pos

/-- bfy_buffer_get_content_len: returns the cached counter.  The C debug
build asserts that the counter equals the walked total; the assert is not
part of the release semantics and is treated as documentation of the
intended invariant. -/
def bfy_buffer_get_content_len (b : Buffer) : Nat := b.content_len

/-- bfy_buffer_get_space_len: free space of the trailing page. -/
def bfy_buffer_get_space_len (b : Buffer) : Nat :=
  page_get_space_len (b.getPage (pages_back_idx b))

/-! ## Content iterator (buffer.c lines 150-220) -/

/-- The iterator state, struct bfy_iter.  The C field io is a pointer plus a
length; the pointer always equals page data + read_pos + cur.page_pos, so
only the length io_len is carried. -/
structure Iter where
  cur : Pos
  io_len : Nat
  endPos : Pos
deriving DecidableEq

/-- iter_impl_set_io: the io length for the current position, the live
remainder of the current page clipped to the range end. -/
def iter_impl_set_io (b : Buffer) (cur endp : Pos) : Nat :=
  min (page_get_content_len (b.getPage cur.page_idx) - cur.page_pos)
      (endp.content_pos - cur.content_pos)

/-- iter_begin of buffer.c; none when the range is empty. -/
def iter_begin (b : Buffer) (begin_pos endp : Pos) : Option Iter :=
  if endp.content_pos ≤ begin_pos.content_pos then none
  else some ⟨begin_pos, iter_impl_set_io b begin_pos endp, endp⟩

/-- iter_next_page of buffer.c; none when pages or the range are used up. -/
def iter_next_page (b : Buffer) (it : Iter) : Option Iter :=
  let next : Pos := ⟨it.cur.page_idx + 1, 0, it.cur.content_pos + it.io_len⟩
  if buffer_count_pages b ≤ next.page_idx then none
  else if it.endPos.content_pos ≤ next.content_pos then none
  else some ⟨next, iter_impl_set_io b next it.endPos, it.endPos⟩

/-- iter_advance_n_bytes of buffer.c, with fuel for the page-skipping loop. -/
def iter_advance_n_bytes (b : Buffer) : Nat → Iter → Nat → Option Iter
  | 0, _, _ => none
  | fuel + 1, it, n =>
    if it.io_len < n then
      match iter_next_page b it with
      | none => none
      | some it' => iter_advance_n_bytes b fuel it' (n - it.io_len)
    else
      some { it with
             cur := ⟨it.cur.page_idx, it.cur.page_pos + n, it.cur.content_pos + n⟩,
             io_len := it.io_len - n }

/-- The bytes the current io of the iterator points at. -/
def iter_io_bytes (b : Buffer) (it : Iter) : List Nat :=
  let p := b.getPage it.cur.page_idx
  (p.data.drop (p.read_pos + it.cur.page_pos)).take it.io_len

/-! ## Peek (buffer.c lines 414-444) -/

/-- A non-owning slice handed out by peek: the live page index, the absolute
offset of the base pointer inside the page data, and the length. -/
structure Iovec where
  page_idx : Nat
  off : Nat
  len : Nat
deriving DecidableEq

/-- The iovec the C loop stores for the current iterator position. -/
def iovec_of (b : Buffer) (it : Iter) : Iovec :=
  let p := b.getPage it.cur.page_idx
  ⟨it.cur.page_idx, p.read_pos + it.cur.page_pos, it.io_len⟩

/-- The bytes an Iovec designates. -/
def iovec_bytes (b : Buffer) (io : Iovec) : List Nat :=
  ((b.getPage io.page_idx).data.drop io.off).take io.len

/-- The do-while loop body of bfy_buffer_peek_range: count every visited
io, store it when the output array still has room. -/
def peek_loop (b : Buffer) (n_vec : Nat) :
    Nat → Iter → List Iovec → Nat → List Iovec × Nat
  | 0, _, acc, needed => (acc, needed)
  | fuel + 1, it, acc, needed =>
    let needed := needed + 1
    let acc := if acc.length < n_vec then acc ++ [iovec_of b it] else acc
    match iter_next_page b it with
    | none => (acc, needed)
    | some it' => peek_loop b n_vec fuel it' acc needed

/-- bfy_buffer_peek_range: fills at most n_vec iovec slots and returns them
together with the number of iovecs the whole range needs. -/
def bfy_buffer_peek_range (b : Buffer) (begin_at end_at : Nat) (n_vec : Nat) :
    List Iovec × Nat :=
  match iter_begin b (buffer_get_pos b begin_at) (buffer_get_pos b end_at) with
  | none => ([], 0)
  | some it => peek_loop b n_vec (buffer_count_pages b + 1) it [] 0

/-- bfy_buffer_peek. -/
def bfy_buffer_peek (b : Buffer) (len : Nat) (n_vec : Nat) : List Iovec × Nat :=
  bfy_buffer_peek_range b 0 len n_vec

/-- bfy_buffer_peek_all. -/
def bfy_buffer_peek_all (b : Buffer) (n_vec : Nat) : List Iovec × Nat :=
  bfy_buffer_peek b SIZE_MAX n_vec

/-! ## Copyout (buffer.c lines 864-896) -/

/-- The do-while loop of buffer_copyout, appending the bytes of every io. -/
def copyout_loop (b : Buffer) : Nat → Iter → List Nat → List Nat
  | 0, _, acc => acc
  | fuel + 1, it, acc =>
    let acc := acc ++ iter_io_bytes b it
    match iter_next_page b it with
    | none => acc
    | some it' => copyout_loop b fuel it' acc

/-- buffer_copyout: the bytes of the range, in order.  The C function
returns the copied length, which is the length of this list. -/
def buffer_copyout (b : Buffer) (begin_pos endp : Pos) : List Nat :=
  match iter_begin b begin_pos endp with
  | none => []
  | some it => copyout_loop b (buffer_count_pages b + 1) it []

/-- bfy_buffer_copyout_range. -/
def bfy_buffer_copyout_range (b : Buffer) (begin_at end_at : Nat) : List Nat :=
  buffer_copyout b (buffer_get_pos b begin_at) (buffer_get_pos b end_at)

/-- bfy_buffer_copyout. -/
def bfy_buffer_copyout (b : Buffer) (len : Nat) : List Nat :=
  bfy_buffer_copyout_range b 0 len

/-! ## Page memory management (buffer.c lines 302-365) -/

/-- The doubling loop of pick_capacity, with fuel.  The C loop doubles from
mn until it reaches requested; fuel equal to requested always suffices for
mn at least 1.  A start value of 0 loops forever in C and is never reached;
here it burns the fuel and returns mn. -/
def pick_capacity_go : Nat → Nat → Nat → Nat
  | 0, mn, _ => mn
  | fuel + 1, mn, requested =>
    if mn < requested then pick_capacity_go fuel (2 * mn) requested else mn

/-- pick_capacity of buffer.c. -/
def pick_capacity (mn requested : Nat) : Nat :=
  pick_capacity_go requested mn requested

/-- page_realloc of buffer.c.  A requested size of 0 frees the data; a
grow keeps the old bytes and fills the new tail with zeros (unspecified in
C, never read before being written).  Failure returns -1 (errno ENOMEM). -/
def page_realloc (A : Alloc) (p : Page) (requested : Nat) : Int × Page :=
  if requested = 0 then (0, { p with data := [] })
  else
    let new_size := pick_capacity 1024 requested
    if new_size ≤ p.data.length then (0, p)
    else if A.ok new_size then
      (0, { p with data := p.data ++ List.replicate (new_size - p.data.length) 0 })
    else (-1, p)

/-- page_ensure_space_len of buffer.c. -/
def page_ensure_space_len (A : Alloc) (p : Page) (wanted : Nat) : Int × Page :=
  let space := page_get_space_len p
  if wanted ≤ space then (0, p)
  else if page_can_realloc p then page_realloc A p (p.data.length + (wanted - space))
  else (-1, p)

/-- The unref event a released page emits, if it carries a hook. -/
def release_page_events (p : Page) : List BufEvent :=
  match p.unref_cb with
  | some cb => [.unref cb p.data p.data.length p.unref_arg]
  | none => []

/-- page_release of buffer.c: fire the unref hook, free reallocatable
storage, reset the descriptor to InitPage. -/
def page_release (p : Page) (ev : List BufEvent) : Page × List BufEvent :=
  (InitPage, ev ++ release_page_events p)

/-! ## Adding pages (buffer.c lines 446-515) -/

/-- buffer_insert_pages of buffer.c.  An empty virgin buffer receiving one
page adopts it as the inline page.  Otherwise the overflow array is grown
(doubling from 16 slots; on allocation failure the old array is kept), a
live inline page is moved to slot 0 exactly when n_pages is 0, existing
slots from pos on are shifted right, and the new descriptors copied in. -/
def buffer_insert_pages (A : Alloc) (b : Buffer) (pos : Nat)
    (new_pages : List Page) : Int × Buffer :=
  if new_pages.length = 0 then (0, b)
  else if new_pages.length = 1 ∧ b.pages = none ∧ b.page.data = [] then
    let p := new_pages.headD InitPage
    (0, buffer_record_content_added { b with page := p } (page_get_content_len p))
  else
    let cap := (b.pages.getD []).length
    let want := buffer_count_pages b + new_pages.length
    let b :=
      if cap < want then
        let newCap := pick_capacity 16 want
        if A.okArr newCap then
          { b with pages := some ((b.pages.getD []) ++ List.replicate (newCap - cap) InitPage) }
        else b
      else b
    if b.pages = none then (-1, b)
    else
      let b :=
        if b.n_pages = 0 ∧ b.page.data ≠ [] then
          { b with n_pages := 1, pages := some ((b.pages.getD []).set 0 b.page),
                   page := InitPage }
        else b
      let pos := min pos b.n_pages
      let arr := b.pages.getD []
      let arr := ((arr.take pos) ++ new_pages ++ ((arr.drop pos).take (b.n_pages - pos))
                    ++ arr.drop (b.n_pages + new_pages.length)).take arr.length
      let b := { b with pages := some arr, n_pages := b.n_pages + new_pages.length }
      (0, buffer_record_content_added b (new_pages.map page_get_content_len).sum)

/-- buffer_append_pages of buffer.c. -/
def buffer_append_pages (A : Alloc) (b : Buffer) (new_pages : List Page) : Int × Buffer :=
  buffer_insert_pages A b (buffer_count_pages b) new_pages

/-- buffer_prepend_pages of buffer.c. -/
def buffer_prepend_pages (A : Alloc) (b : Buffer) (new_pages : List Page) : Int × Buffer :=
  buffer_insert_pages A b 0 new_pages

/-- buffer_get_usable_back of buffer.c: the trailing page if it passes the
test, else a freshly appended empty page if a fresh page would pass.  The
result of the append is ignored in C, so the returned index is the
trailing slot whether or not the append worked. -/
def buffer_get_usable_back (A : Alloc) (b : Buffer) (test : Page → Bool) :
    Option Nat × Buffer :=
  if test (b.getPage (pages_back_idx b)) then (some (pages_back_idx b), b)
  else if test InitPage then
    let b := (buffer_append_pages A b [InitPage]).2
    (some (pages_back_idx b), b)
  else (none, b)

/-- buffer_get_writable_back of buffer.c. -/
def buffer_get_writable_back (A : Alloc) (b : Buffer) : Option Nat × Buffer :=
  buffer_get_usable_back A b page_is_writable

/-! ## Space (buffer.c lines 543-617) -/

/-- bfy_buffer_peek_space: the free region of the trailing page. -/
def bfy_buffer_peek_space (b : Buffer) : Iovec :=
  let idx := pages_back_idx b
  let p := b.getPage idx
  ⟨idx, p.write_pos, page_get_space_len p⟩

/-- page_make_space_contiguous of buffer.c: slide the live bytes to the
front of the page. -/
def page_make_space_contiguous (p : Page) : Page :=
  if p.read_pos ≠ 0 then
    let content_len := page_get_content_len p
    { p with data := page_live_bytes p ++ p.data.drop content_len,
             read_pos := 0, write_pos := content_len }
  else p

/-- bfy_buffer_ensure_space of buffer.c. -/
def bfy_buffer_ensure_space (A : Alloc) (b : Buffer) (len : Nat) : Int × Buffer :=
  let page := b.getPage (pages_back_idx b)
  if page_is_writable page ∧ len ≤ page_get_space_len page then (0, b)
  else if page_is_writable page ∧ len ≤ page_get_space_len page + page.read_pos then
    (0, b.setPage (pages_back_idx b) (page_make_space_contiguous page))
  else
    match buffer_get_usable_back A b page_can_realloc with
    | (some i, b') =>
      let (r, p') := page_ensure_space_len A (b'.getPage i) len
      (r, b'.setPage i p')
    | (none, b') => (-1, b')

/-- bfy_buffer_reserve_space of buffer.c. -/
def bfy_buffer_reserve_space (A : Alloc) (b : Buffer) (wanted : Nat) : Iovec × Buffer :=
  let b := (bfy_buffer_ensure_space A b wanted).2
  let io := bfy_buffer_peek_space b
  ({ io with len := min io.len wanted }, b)

/-- bfy_buffer_commit_space of buffer.c.  With asserts disabled the commit
is clipped to the available space and the function reports success. -/
def bfy_buffer_commit_space (A : Alloc) (b : Buffer) (len : Nat) : Int × Buffer :=
  match buffer_get_writable_back A b with
  | (some i, b') =>
    let page := b'.getPage i
    let len' := min len (page_get_space_len page)
    let b' := b'.setPage i { page with write_pos := page.write_pos + len' }
    (0, buffer_record_content_added b' len')
  | (none, b') => (if len = 0 then 0 else -1, b')

/-! ## Add (buffer.c lines 619-742) -/

/-- Store bytes into the page data at the given absolute offset, the model
of a memcpy through a pointer into the page. -/
def page_write_bytes (p : Page) (off : Nat) (bytes : List Nat) : Page :=
  { p with data := (p.data.take off ++ bytes ++ p.data.drop (off + bytes.length)).take p.data.length }

/-- Store bytes through an iovec into the designated live page. -/
def buffer_write_at (b : Buffer) (idx off : Nat) (bytes : List Nat) : Buffer :=
  b.setPage idx (page_write_bytes (b.getPage idx) off bytes)

/-- bfy_buffer_add of buffer.c: reserve, memcpy, commit.  The C NULL check
on the reserved base pointer is the empty-data test here. -/
def bfy_buffer_add (A : Alloc) (b : Buffer) (bytes : List Nat) : Int × Buffer :=
  let (io, b₁) := bfy_buffer_reserve_space A b bytes.length
  if io.len < bytes.length then (-1, b₁)
  else if (b₁.getPage io.page_idx).data = [] then (-1, b₁)
  else
    let b₂ := buffer_write_at b₁ io.page_idx io.off bytes
    bfy_buffer_commit_space A b₂ bytes.length

/-- bfy_buffer_add_ch. -/
def bfy_buffer_add_ch (A : Alloc) (b : Buffer) (c : Nat) : Int × Buffer :=
  bfy_buffer_add A b [c]

/-- bfy_buffer_add_readonly: zero-copy append of a READONLY UNMANAGED page
whose live region is the whole data. -/
def bfy_buffer_add_readonly (A : Alloc) (b : Buffer) (bytes : List Nat) : Int × Buffer :=
  buffer_append_pages A b [⟨bytes, 0, bytes.length, true, true, none, 0⟩]

/-- bfy_buffer_add_reference: zero-copy append of an UNMANAGED page carrying
an unref hook. -/
def bfy_buffer_add_reference (A : Alloc) (b : Buffer) (bytes : List Nat)
    (cb : Nat) (arg : Nat) : Int × Buffer :=
  buffer_append_pages A b [⟨bytes, 0, bytes.length, false, true, some cb, arg⟩]

/-- bfy_buffer_add_pagebreak. -/
def bfy_buffer_add_pagebreak (A : Alloc) (b : Buffer) : Int × Buffer :=
  buffer_append_pages A b [InitPage]

/-! ## Drain (buffer.c lines 744-862) -/

/-- The scan loop of buffer_drain_range.  Each visited page is drained
fully (recycled, released, or forgotten), from the front, or from the end;
for a strictly interior intersection the C code slides the tail over the
hole but, by a slip, retracts write_pos by the tail length and never adds
to n_drained; a non-writable interior drain aborts the C process and is
modelled as leaving the page unchanged. -/
def drain_scan_loop (do_release do_recycle : Bool) :
    Nat → Buffer → Iter → Nat → Buffer × Nat
  | 0, b, _, n_drained => (b, n_drained)
  | fuel + 1, b, it, n_drained =>
    let idx := it.cur.page_idx
    let page := b.getPage idx
    let content_len := page_get_content_len page
    let st :=
      if content_len ≤ it.io_len then
        let n := n_drained + content_len
        if do_recycle ∧ page_is_recyclable page then
          (b.setPage idx { page with read_pos := 0, write_pos := 0 }, n)
        else if do_release then
          let (p', ev) := page_release page b.events
          ({ b.setPage idx p' with events := ev }, n)
        else (b.setPage idx InitPage, n)
      else if it.cur.page_pos = 0 then
        (b.setPage idx { page with read_pos := page.read_pos + it.io_len },
         n_drained + it.io_len)
      else if it.cur.page_pos + it.io_len = content_len then
        (b.setPage idx { page with write_pos := page.write_pos - it.io_len },
         n_drained + it.io_len)
      else if page_is_writable page then
        let n_bytes := content_len - (it.cur.page_pos + it.io_len)
        let start := page.read_pos + it.cur.page_pos
        let moved := (page.data.drop (start + it.io_len)).take n_bytes
        let page' := page_write_bytes page start moved
        (b.setPage idx { page' with write_pos := page'.write_pos - n_bytes }, n_drained)
      else (b, n_drained)
    match iter_next_page st.1 it with
    | none => st
    | some it' => drain_scan_loop do_release do_recycle fuel st.1 it' st.2

/-- The compaction walk at the end of buffer_drain_range.  Returns the
in-place slot values after the walk but before the kept pages are copied
forward, the kept non-empty pages in order, the surviving recycle
candidate, and the accumulated events.  A page replaced as candidate is
released (its copy in the local variable is), a dropped page is released
in place. -/
def compact_go (do_release do_recycle : Bool) :
    List Page → Page → List BufEvent → List Page × List Page × Page × List BufEvent
  | [], r, ev => ([], [], r, ev)
  | w :: rest, r, ev =>
    if 0 < page_get_content_len w then
      let t := compact_go do_release do_recycle rest r ev
      (w :: t.1, w :: t.2.1, t.2.2.1, t.2.2.2)
    else if do_recycle ∧ page_is_recyclable w ∧ r.data.length < w.data.length then
      let ev := if do_release then ev ++ release_page_events r else ev
      let t := compact_go do_release do_recycle rest w ev
      (w :: t.1, t.2.1, t.2.2.1, t.2.2.2)
    else if do_release then
      let t := compact_go do_release do_recycle rest r (ev ++ release_page_events w)
      (InitPage :: t.1, t.2.1, t.2.2.1, t.2.2.2)
    else
      let t := compact_go do_release do_recycle rest r ev
      (w :: t.1, t.2.1, t.2.2.1, t.2.2.2)

/-- The compact-and-write-back step of buffer_drain_range: drop dead page
slots, append at most one recycled page, store the new n_pages.  In the
inline representation at most one slot is ever written back; when nothing
is written the slot keeps its in-place value. -/
def buffer_compact (b : Buffer) (do_release do_recycle : Bool) : Buffer :=
  if 0 < buffer_count_pages b then
    let t := compact_go do_release do_recycle b.livePages InitPage b.events
    let slots := t.1
    let kept := t.2.1
    let r := t.2.2.1
    let final := kept ++ (if 0 < r.data.length then [r] else [])
    let b := { b with events := t.2.2.2 }
    match b.pages with
    | none => { b with page := final.headD (slots.headD InitPage), n_pages := final.length }
    | some arr =>
      { b with
        pages := some ((final ++ slots.drop final.length ++ arr.drop b.n_pages).take arr.length),
        n_pages := final.length }
  else b

/-- The scan phase of buffer_drain_range: run the iterator loop and return
the mutated buffer together with n_drained. -/
def drain_scan_stage (b : Buffer) (begin_pos endp : Pos)
    (do_release do_recycle : Bool) : Buffer × Nat :=
  match iter_begin b begin_pos endp with
  | none => (b, 0)
  | some it => drain_scan_loop do_release do_recycle (buffer_count_pages b + 1) b it 0

/-- buffer_drain_range of buffer.c: scan, compact, free an emptied overflow
array, account the removal.  The flag pair stands for the C DRAIN_FLAG
bits: do_release is NORELEASE absent, do_recycle is NORECYCLE absent. -/
def buffer_drain_range (b : Buffer) (begin_pos endp : Pos)
    (do_release do_recycle : Bool) : Nat × Buffer :=
  let st := drain_scan_stage b begin_pos endp do_release do_recycle
  let b := buffer_compact st.1 do_release do_recycle
  let b := if b.n_pages = 0 ∧ b.pages ≠ none then { b with pages := none } else b
  (st.2, buffer_record_content_removed b st.2)

/-- bfy_buffer_drain_range of buffer.c. -/
def bfy_buffer_drain_range (b : Buffer) (begin_at end_at : Nat) : Nat × Buffer :=
  buffer_drain_range b (buffer_get_pos b begin_at) (buffer_get_pos b end_at) true true

/-- bfy_buffer_drain. -/
def bfy_buffer_drain (b : Buffer) (len : Nat) : Nat × Buffer :=
  bfy_buffer_drain_range b 0 len

/-- buffer_drain_all of buffer.c. -/
def buffer_drain_all (b : Buffer) (do_release do_recycle : Bool) : Nat × Buffer :=
  buffer_drain_range b (buffer_get_pos b 0) (buffer_get_pos b SIZE_MAX)
    do_release do_recycle

/-- bfy_buffer_drain_all. -/
def bfy_buffer_drain_all (b : Buffer) : Nat × Buffer :=
  bfy_buffer_drain_range b 0 SIZE_MAX

/-! ## Remove (buffer.c lines 898-1045) -/

/-- buffer_remove of buffer.c: copy the range out, then drain it. -/
def buffer_remove (b : Buffer) (begin_pos endp : Pos) : List Nat × Buffer :=
  let bytes := buffer_copyout b begin_pos endp
  (bytes, (buffer_drain_range b begin_pos endp true true).2)

/-- bfy_buffer_remove_range. -/
def bfy_buffer_remove_range (b : Buffer) (begin_at end_at : Nat) : List Nat × Buffer :=
  buffer_remove b (buffer_get_pos b begin_at) (buffer_get_pos b end_at)

/-- bfy_buffer_remove: copy out and drain the first len bytes, returning
the bytes actually removed. -/
def bfy_buffer_remove (b : Buffer) (len : Nat) : List Nat × Buffer :=
  bfy_buffer_remove_range b 0 len

/-- Big-endian recombination of removed bytes, the ntoh step. -/
def ntoh_val (bs : List Nat) : Nat := bs.foldl (fun acc x => acc * 256 + x) 0

/-- bfy_buffer_remove_ntoh_u32 of buffer.c.  The result carries the four
bytes of the zero-initialized accumulator after the copy (on success the C
return value is their big-endian combination), the ENOMSG error flag (set
when fewer than four bytes were removed), and the buffer afterwards. -/
def bfy_buffer_remove_ntoh_u32 (b : Buffer) : List Nat × Bool × Buffer :=
  let t := bfy_buffer_remove b 4
  (t.1 ++ List.replicate (4 - t.1.length) 0, t.1.length ≠ 4, t.2)

/-- bfy_buffer_remove_buffer of buffer.c: move whole leading page
descriptors, byte-copy a trailing partial page after a page break, then
drain the moved range from the source with release and recycle disabled. -/
def bfy_buffer_remove_buffer (A : Alloc) (b : Buffer) (wanted : Nat) (tgt : Buffer) :
    Nat × Buffer × Buffer :=
  let endp := buffer_get_pos b wanted
  let tgt :=
    if 0 < endp.page_idx ∧ 0 < endp.content_pos then
      (buffer_append_pages A tgt (b.livePages.take endp.page_idx)).2
    else tgt
  let tgt :=
    if 0 < endp.page_pos then
      let page := b.getPage endp.page_idx
      let tgt := (bfy_buffer_add_pagebreak A tgt).2
      (bfy_buffer_add A tgt ((page.data.drop page.read_pos).take endp.page_pos)).2
    else tgt
  let t := buffer_drain_range b (buffer_get_pos b 0) endp false false
  (t.1, t.2, tgt)

/-- bfy_buffer_add_buffer of buffer.c.  Returns the status, the target
afterwards, and the source afterwards. -/
def bfy_buffer_add_buffer (A : Alloc) (tgt src : Buffer) : Int × Buffer × Buffer :=
  let n := bfy_buffer_get_content_len src
  let t := bfy_buffer_remove_buffer A src n tgt
  (if t.1 = n then 0 else -1, t.2.2, t.2.1)

/-! ## Contiguation (buffer.c lines 1047-1085) -/

/-- bfy_buffer_make_contiguous of buffer.c.  The C function returns
buffer_read_begin(buf); the returned pointer is recoverable from the
result as the page-0 read region, so only the buffer is returned here.
The malloc in the slow path is unchecked in C and always succeeds here. -/
def bfy_buffer_make_contiguous (A : Alloc) (b : Buffer) (wanted : Nat) : Buffer :=
  let pos := buffer_get_pos b wanted
  if pos.page_idx = 0 ∨ (pos.page_idx = 1 ∧ pos.page_pos = 0) then b
  else
    let b := bfy_buffer_mute_change_events b
    let space := bfy_buffer_peek_space b
    let b :=
      if pos.content_pos ≤ space.len then
        let bytes := buffer_copyout b (buffer_get_pos b 0) pos
        let b := buffer_write_at b space.page_idx space.off bytes
        let b := (bfy_buffer_commit_space A b bytes.length).2
        (bfy_buffer_drain b bytes.length).2
      else
        let t := buffer_remove b (buffer_get_pos b 0) pos
        (buffer_prepend_pages A t.2 [⟨t.1, 0, t.1.length, false, false, none, 0⟩]).2
    bfy_buffer_unmute_change_events b

/-- bfy_buffer_make_all_contiguous. -/
def bfy_buffer_make_all_contiguous (A : Alloc) (b : Buffer) : Buffer :=
  bfy_buffer_make_contiguous A b SIZE_MAX

/-! ## Life cycle (buffer.c lines 1188-1237) -/

/-- bfy_buffer_init. -/
def bfy_buffer_init : Buffer := ⟨InitPage, none, 0, 0, false, 0, 0, 0, 0, 0, []⟩

/-- bfy_buffer_init_unmanaged: wrap caller-owned writable memory as the
initial page. -/
def bfy_buffer_init_unmanaged (bytes : List Nat) : Buffer :=
  { bfy_buffer_init with page := ⟨bytes, 0, 0, false, true, none, 0⟩ }

/-- bfy_buffer_destruct: drain everything with recycling disabled. -/
def bfy_buffer_destruct (b : Buffer) : Buffer :=
  (buffer_drain_all b true false).2

/-! ## Search (buffer.c lines 1087-1186) -/

/-- The memchr-and-verify walk of buffer_search_iovec over one io: find the
next byte equal to the needle head, compare the needle truncated to the io
remainder, report the offset of the first such hit, or the io length when
none exists. -/
def buffer_search_iovec_go (needle : List Nat) : List Nat → Nat → Nat
  | [], off => off
  | c :: rest, off =>
    if c = needle.headD 0 then
      let len := min needle.length (rest.length + 1)
      if (c :: rest).take len = needle.take len then off
      else buffer_search_iovec_go needle rest (off + 1)
    else buffer_search_iovec_go needle rest (off + 1)

/-- buffer_search_iovec of buffer.c. -/
def buffer_search_iovec (io needle : List Nat) : Nat :=
  buffer_search_iovec_go needle io 0

/-- buffer_contains_at of buffer.c: does the needle match at the iterator
position, following pages as needed.  A zero-length io reports a mismatch,
which makes the matcher stop at an empty page slot. -/
def buffer_contains_at (b : Buffer) : Nat → Iter → List Nat → Bool
  | 0, _, _ => false
  | fuel + 1, it, needle =>
    if it.io_len = 0 then false
    else if needle.length ≤ it.io_len then
      decide ((iter_io_bytes b it).take needle.length = needle)
    else if iter_io_bytes b it ≠ needle.take it.io_len then false
    else
      match iter_next_page b it with
      | none => false
      | some it' => buffer_contains_at b fuel it' (needle.drop it.io_len)

/-- The while loop of buffer_search_range: first-byte scan inside the
current io, full verification at a hit via buffer_contains_at, advance one
byte past a failed hit, move to the next page when the io is exhausted. -/
def search_loop (b : Buffer) (needle : List Nat) : Nat → Iter → Option Nat
  | 0, _ => none
  | fuel + 1, it =>
    if it.cur.content_pos < it.endPos.content_pos then
      let hit := buffer_search_iovec (iter_io_bytes b it) needle
      if hit = it.io_len then
        match iter_next_page b it with
        | some it' => search_loop b needle fuel it'
        | none => none
      else
        match iter_advance_n_bytes b (buffer_count_pages b + 1) it hit with
        | none => none
        | some it' =>
          if buffer_contains_at b (buffer_count_pages b + 1) it' needle then
            some it'.cur.content_pos
          else
            match iter_advance_n_bytes b (buffer_count_pages b + 1) it' 1 with
            | none => none
            | some it'' => search_loop b needle fuel it''
    else none

/-- buffer_search_range of buffer.c.  A found match reports its content
offset; not-found is none, and the C output argument is left unwritten. -/
def buffer_search_range (b : Buffer) (begin_pos endp : Pos) (needle : List Nat) :
    Option Nat :=
  match iter_begin b begin_pos endp with
  | none => none
  | some it => search_loop b needle (b.content_len + buffer_count_pages b + 2) it

/-- bfy_buffer_search_range. -/
def bfy_buffer_search_range (b : Buffer) (begin_at end_at : Nat) (needle : List Nat) :
    Option Nat :=
  buffer_search_range b (buffer_get_pos b begin_at) (buffer_get_pos b end_at) needle

/-- bfy_buffer_search. -/
def bfy_buffer_search (b : Buffer) (len : Nat) (needle : List Nat) : Option Nat :=
  bfy_buffer_search_range b 0 len needle

/-- bfy_buffer_search_all. -/
def bfy_buffer_search_all (b : Buffer) (needle : List Nat) : Option Nat :=
  bfy_buffer_search_range b 0 SIZE_MAX needle

/-! ## Specification-side definitions

These state properties to compare the embedded code against.  They are
phrased independently of the loop structure of buffer.c. -/

/-- Number of live pages that hold content. -/
def nonempty_page_count (b : Buffer) : Nat :=
  (b.livePages.filter fun p => 0 < page_get_content_len p).length

/-- One past the index of the last live page that holds content, 0 when no
page does: trailing empty pages do not count, interior empty ones do. -/
def content_page_extent (b : Buffer) : Nat :=
  b.livePages.length -
    (b.livePages.reverse.takeWhile fun p => page_get_content_len p == 0).length

/-- Clip a requested content offset to the buffer content length. -/
def content_clip (b : Buffer) (q : Nat) : Nat := min q b.content_len

/-- The byte sequence of the content range between two requested offsets. -/
def range_bytes (b : Buffer) (begin_at end_at : Nat) : List Nat :=
  (b.content.drop (content_clip b begin_at)).take
    (content_clip b end_at - content_clip b begin_at)

/-- Reference search: the least index at which the needle occurs inside the
haystack, none when it does not occur. -/
def refFind (hay needle : List Nat) : Option Nat :=
  (List.range (hay.length + 1)).find? fun i => decide (needle <+: hay.drop i)

/-- The scratch page the drain compaction should keep: the first empty
recyclable page of maximal capacity, provided that capacity is positive. -/
def pick_scratch (ps : List Page) : Option Page :=
  let cands := ps.filter fun p => page_is_recyclable p && page_get_content_len p == 0
  let m := (cands.map Page.size).foldr max 0
  if 0 < m then cands.find? fun p => p.size == m else none

/-! ## Concrete buffers used by the claim theorems -/

/-- Claim C1 failing input: an unmanaged 4-byte buffer, one byte added into
it, a zero-length drain, then a read-only one-byte page appended. -/
def c1_buf : Buffer :=
  (bfy_buffer_add_readonly allocAlways
    ((bfy_buffer_drain
      ((bfy_buffer_add allocAlways (bfy_buffer_init_unmanaged [0, 0, 0, 0]) [120]).2)
      0).2)
    [99]).2

/-- Claim C2 failing input: two read-only one-byte pages 97 and 98, then
one byte 100 added into a fresh trailing writable page. -/
def c2_buf : Buffer :=
  (bfy_buffer_add allocAlways
    ((bfy_buffer_add_readonly allocAlways
      ((bfy_buffer_add_readonly allocAlways bfy_buffer_init [97]).2) [98]).2)
    [100]).2

/-- Claim C3 counterexample input: a read-only page 97, a page break, and a
read-only page 98, leaving an empty page slot in the middle. -/
def c3_buf : Buffer :=
  (bfy_buffer_add_readonly allocAlways
    ((bfy_buffer_add_pagebreak allocAlways
      ((bfy_buffer_add_readonly allocAlways bfy_buffer_init [97]).2)).2)
    [98]).2

/-- Claim C5 counterexample input: an unmanaged 4-byte buffer, still empty,
with a read-only one-byte page appended after it. -/
def c5_buf : Buffer :=
  (bfy_buffer_add_readonly allocAlways (bfy_buffer_init_unmanaged [0, 0, 0, 0]) [97]).2

/-- Claim C7 counterexample input: a buffer holding exactly two bytes. -/
def c7_buf : Buffer :=
  (bfy_buffer_add_readonly allocAlways bfy_buffer_init [1, 2]).2

/-- Claim C9 counterexample input: pages 97, an empty page-break slot, and
98, whose flattened content is the two bytes 97 98. -/
def c9_buf : Buffer :=
  (bfy_buffer_add_readonly allocAlways
    ((bfy_buffer_add_pagebreak allocAlways
      ((bfy_buffer_add_readonly allocAlways bfy_buffer_init [97]).2)).2)
    [98]).2

/-- Claim C10 witness input: an 8-byte unmanaged page holding 3 bytes, so
the trailing writable page has 5 bytes of free space. -/
def c10_demo_buf : Buffer :=
  (bfy_buffer_add allocAlways (bfy_buffer_init_unmanaged (List.replicate 8 0)) [97, 98, 99]).2

/-- A 26-byte string for the claim C8 coalescing scenario. -/
def lorem26 : List Nat := List.range 26

/-- Repeated add_readonly of the same bytes, the loop of the C8 scenario. -/
def add_readonly_times (A : Alloc) (bytes : List Nat) : Nat → Buffer → Buffer
  | 0, b => b
  | k + 1, b => add_readonly_times A bytes k (bfy_buffer_add_readonly A b bytes).2

/-- Claim C8 witness input: a two-byte buffer with a change callback set,
so orig_size is 2 and the counters are zero. -/
def c8_demo_buf : Buffer :=
  bfy_buffer_set_changed_cb ((bfy_buffer_add_readonly allocAlways bfy_buffer_init [7, 8]).2) true

/-- Notifier-field agreement between two buffers, used to track that page
insertion only touches the page vector before it accounts the addition. -/
def NotifierEq (b' b : Buffer) : Prop :=
  b'.events = b.events ∧ b'.n_added = b.n_added ∧ b'.n_deleted = b.n_deleted ∧
  b'.changed_coalescing = b.changed_coalescing ∧ b'.changed_muted = b.changed_muted ∧
  b'.changed_cb = b.changed_cb ∧ b'.orig_size = b.orig_size ∧
  b'.content_len = b.content_len

/-- An unmanaged 8-byte buffer with 2 bytes drained from the front and 2
free bytes at the back, exercising the C6 slide case at len = 4. -/
def c6_demo_buf : Buffer :=
  { page := ⟨List.replicate 8 7, 2, 6, false, true, none, 0⟩, pages := none, n_pages := 0,
    content_len := 4, changed_cb := false, orig_size := 0, n_added := 0, n_deleted := 0,
    changed_coalescing := 0, changed_muted := 0, events := [] }


/-! ## Definitions supporting the iterator, drain, peek, destruct and search theories -/

def pageOffSum (b : Buffer) (i : Nat) : Nat :=
  ((b.livePages.take i).map page_get_content_len).sum

def IterOK (b : Buffer) (it : Iter) : Prop :=
  it.cur.page_idx < buffer_count_pages b ∧
  pageOffSum b it.cur.page_idx + it.cur.page_pos = it.cur.content_pos ∧
  it.cur.page_pos ≤ page_get_content_len (b.getPage it.cur.page_idx) ∧
  it.io_len = min (page_get_content_len (b.getPage it.cur.page_idx) - it.cur.page_pos)
                  (it.endPos.content_pos - it.cur.content_pos) ∧
  it.cur.content_pos < it.endPos.content_pos ∧
  it.endPos.content_pos ≤ pageOffSum b (buffer_count_pages b)

def scratch_step (do_release do_recycle : Bool) (r w : Page) : Page :=
  if 0 < page_get_content_len w then r
  else if do_recycle ∧ page_is_recyclable w ∧ r.data.length < w.data.length then w
  else r

def ioVecs (b : Buffer) : Nat → Iter → List Iovec
  | 0, _ => []
  | fuel + 1, it =>
    iovec_of b it ::
      (match iter_next_page b it with
       | none => []
       | some it' => ioVecs b fuel it')

def unref_events (l : List BufEvent) : List BufEvent :=
  l.filter fun e =>
    match e with
    | .unref _ _ _ _ => true
    | _ => false

def c4_demo : Buffer :=
  (bfy_buffer_add_reference allocAlways bfy_buffer_init [1, 2] 9 4).2

def match_at_clip (l needle : List Nat) (j : Nat) : Prop :=
  (l.drop j).take (min needle.length (l.length - j))
    = needle.take (min needle.length (l.length - j))

instance (l needle : List Nat) (j : Nat) : Decidable (match_at_clip l needle j) := by
  unfold match_at_clip
  infer_instance

def SearchOK (b : Buffer) (it : Iter) : Prop :=
  it.cur.page_idx < buffer_count_pages b ∧
  pageOffSum b it.cur.page_idx + it.cur.page_pos = it.cur.content_pos ∧
  it.cur.page_pos ≤ page_get_content_len (b.getPage it.cur.page_idx) ∧
  it.io_len = min (page_get_content_len (b.getPage it.cur.page_idx)
                    - it.cur.page_pos)
                  (it.endPos.content_pos - it.cur.content_pos) ∧
  it.endPos.content_pos ≤ pageOffSum b (buffer_count_pages b)

def c9_hippos : Buffer :=
  (bfy_buffer_add_readonly allocAlways
    ((bfy_buffer_add_readonly allocAlways bfy_buffer_init
        [72, 117, 110, 103, 114, 121, 32, 72, 117, 110, 103, 114, 121, 32]).2)
    [72, 117, 110, 103, 114, 121, 32, 72, 105, 112, 112, 111, 115]).2

/-! ## Claim theorems -/

/-- Claim C1 (code bug): the cached content-length counter is supposed to
equal the walked sum of per-page content lengths at every API boundary,
and the C code asserts exactly that inside bfy_buffer_get_content_len
(buffer.c line 405).  The sequence of public calls behind c1_buf breaks
the invariant: a drain in the inline-page representation stores a stale
n_pages of 1, which makes the next page insertion skip migrating the
inline page into the fresh overflow array, so one byte of content is lost
from the page vector while the cached counter still counts it.  After the
sequence the counter says 2, the pages hold 1 byte, and well-formedness
fails. -/
theorem c1_cached_len_diverges_from_page_sum :
    bfy_buffer_get_content_len c1_buf = 2 ∧
    (c1_buf.livePages.map page_get_content_len).sum = 1 ∧
    c1_buf.content = [99] ∧
    ¬ BufferWF c1_buf := by decide

/-- Claim C2 (code bug): make_contiguous must leave the byte sequence
unchanged, but the trailing-space fast path of bfy_buffer_make_contiguous
copies the prefix into the free space of the trailing page behind that
page's existing live bytes and then drains the original prefix, so the
content 97 98 100 is rotated to 100 97 98: the returned region no longer
starts with the first two original bytes. -/
theorem c2_make_contiguous_reorders_content :
    c2_buf.content = [97, 98, 100] ∧
    (bfy_buffer_make_contiguous allocAlways c2_buf 2).content = [100, 97, 98] ∧
    (bfy_buffer_make_contiguous allocAlways c2_buf 2).content_len = 3 := by decide

/-- Claim C3 counterexample: drain(b, 0) is not a no-op.  On a buffer with
an empty interior page slot it removes 0 bytes yet compacts the page
vector, dropping the empty slot: the buffer state changes and even the
observable zero-capacity peek count drops from 3 to 2. -/
theorem c3_drain_zero_changes_buffer :
    (bfy_buffer_drain c3_buf 0).1 = 0 ∧
    (bfy_buffer_drain c3_buf 0).2 ≠ c3_buf ∧
    (bfy_buffer_peek_all c3_buf 0).2 = 3 ∧
    (bfy_buffer_peek_all (bfy_buffer_drain c3_buf 0).2 0).2 = 2 := by decide

/-- Claim C5 counterexample: peek does emit iovecs for empty pages.  With
an empty unmanaged first page followed by one content byte, the
zero-capacity full peek reports 2 although only 1 page is non-empty, and
the filled vectors are a zero-length one followed by the content one. -/
theorem c5_peek_counts_empty_page :
    (bfy_buffer_peek_all c5_buf 0).2 = 2 ∧
    nonempty_page_count c5_buf = 1 ∧
    (bfy_buffer_peek_all c5_buf 2).1.map Iovec.len = [0, 1] := by decide

/-- Claim C7 counterexample: a fixed-width remove on a short buffer does
not leave the buffer unchanged.  remove_ntoh_u32 on a 2-byte buffer sets
the ENOMSG error, but the two available bytes are drained, leaving the
buffer empty rather than untouched. -/
theorem c7_short_read_drains_buffer :
    (bfy_buffer_remove_ntoh_u32 c7_buf).2.1 = true ∧
    c7_buf.content_len = 2 ∧
    (bfy_buffer_remove_ntoh_u32 c7_buf).2.2.content = [] ∧
    (bfy_buffer_remove_ntoh_u32 c7_buf).2.2.content_len = 0 := by decide

/-- Claim C9 counterexample: search misses a match that spans an empty
page slot.  The content of c9_buf is the two bytes 97 98 and the needle
97 98 occurs at offset 0, but buffer_contains_at stops at the zero-length
io of the empty interior page, so the search reports not-found. -/
theorem c9_search_misses_match_across_empty_page :
    c9_buf.content = [97, 98] ∧
    refFind c9_buf.content [97, 98] = some 0 ∧
    bfy_buffer_search_all c9_buf [97, 98] = none := by decide

/-! ## Structural helper lemmas -/

theorem check_cb_page (b : Buffer) : (buffer_check_changed_cb b).page = b.page := by
  unfold buffer_check_changed_cb buffer_reset_changed_info
  repeat first | rfl | split

theorem check_cb_pages (b : Buffer) : (buffer_check_changed_cb b).pages = b.pages := by
  unfold buffer_check_changed_cb buffer_reset_changed_info
  repeat first | rfl | split

theorem check_cb_n_pages (b : Buffer) : (buffer_check_changed_cb b).n_pages = b.n_pages := by
  unfold buffer_check_changed_cb buffer_reset_changed_info
  repeat first | rfl | split

theorem check_cb_content_len (b : Buffer) :
    (buffer_check_changed_cb b).content_len = b.content_len := by
  unfold buffer_check_changed_cb buffer_reset_changed_info
  repeat first | rfl | split

theorem check_cb_muted (b : Buffer) :
    (buffer_check_changed_cb b).changed_muted = b.changed_muted := by
  unfold buffer_check_changed_cb buffer_reset_changed_info
  repeat first | rfl | split

theorem check_cb_coalescing (b : Buffer) :
    (buffer_check_changed_cb b).changed_coalescing = b.changed_coalescing := by
  unfold buffer_check_changed_cb buffer_reset_changed_info
  repeat first | rfl | split

theorem check_cb_changed_cb (b : Buffer) :
    (buffer_check_changed_cb b).changed_cb = b.changed_cb := by
  unfold buffer_check_changed_cb buffer_reset_changed_info
  repeat first | rfl | split

theorem livePages_ext {b b' : Buffer} (hp : b'.pages = b.pages)
    (hpg : b'.page = b.page) (hn : b'.n_pages = b.n_pages) :
    b'.livePages = b.livePages := by
  unfold Buffer.livePages
  rw [hp, hpg, hn]

theorem check_cb_livePages (b : Buffer) :
    (buffer_check_changed_cb b).livePages = b.livePages :=
  livePages_ext (check_cb_pages b) (check_cb_page b) (check_cb_n_pages b)

theorem record_added_livePages (b : Buffer) (n : Nat) :
    (buffer_record_content_added b n).livePages = b.livePages := by
  unfold buffer_record_content_added
  dsimp only
  split
  · exact (check_cb_livePages _).trans (livePages_ext rfl rfl rfl)
  · exact livePages_ext rfl rfl rfl

theorem record_added_content_len (b : Buffer) (n : Nat) :
    (buffer_record_content_added b n).content_len = b.content_len + n := by
  unfold buffer_record_content_added
  dsimp only
  split
  · exact check_cb_content_len _
  · rfl

theorem record_removed_livePages (b : Buffer) (n : Nat) :
    (buffer_record_content_removed b n).livePages = b.livePages := by
  unfold buffer_record_content_removed
  dsimp only
  split
  · exact (check_cb_livePages _).trans (livePages_ext rfl rfl rfl)
  · exact livePages_ext rfl rfl rfl

theorem record_removed_content_len (b : Buffer) (n : Nat) :
    (buffer_record_content_removed b n).content_len = b.content_len - n := by
  unfold buffer_record_content_removed
  dsimp only
  split
  · exact check_cb_content_len _
  · rfl

theorem count_setPage (b : Buffer) (i : Nat) (p : Page) :
    buffer_count_pages (b.setPage i p) = buffer_count_pages b := by
  unfold buffer_count_pages Buffer.livePages Buffer.setPage
  cases b.pages <;> simp

theorem livePages_setPage (b : Buffer) (i : Nat) (p : Page)
    (hi : i < buffer_count_pages b) :
    (b.setPage i p).livePages = b.livePages.set i p := by
  unfold Buffer.setPage Buffer.livePages
  cases h : b.pages with
  | none =>
    have : i = 0 := by
      have := hi
      unfold buffer_count_pages Buffer.livePages at this
      rw [h] at this
      simpa using this
    simp [this]
  | some arr => simp [List.set_take]

theorem count_pos_of_wf {b : Buffer} (hwf : BufferWF b) : 1 ≤ buffer_count_pages b := by
  rcases hwf with ⟨-, -, harr, -⟩
  unfold buffer_count_pages Buffer.livePages
  cases h : b.pages with
  | none => simp
  | some arr =>
    have := harr (by rw [h]; rfl)
    rw [h] at this
    simp only [Option.getD] at this
    simp [List.length_take]
    omega

theorem getPage_setPage_self (b : Buffer) (i : Nat) (p : Page)
    (hi : i < buffer_count_pages b) :
    (b.setPage i p).getPage i = p := by
  unfold Buffer.getPage
  rw [livePages_setPage b i p hi]
  have hlen : i < b.livePages.length := hi
  rw [List.getD_eq_getElem?_getD, List.getElem?_set_self]
  · simp
  · simpa using hlen

theorem getPage_record_added (b : Buffer) (n : Nat) (i : Nat) :
    (buffer_record_content_added b n).getPage i = b.getPage i := by
  unfold Buffer.getPage
  rw [record_added_livePages]

theorem setPage_content_len (b : Buffer) (i : Nat) (p : Page) :
    (b.setPage i p).content_len = b.content_len := by
  unfold Buffer.setPage
  cases b.pages <;> rfl

/-- Claim C10: on a buffer whose trailing page is writable,
bfy_buffer_commit_space never reports failure; when the requested commit n
exceeds the free space s of the trailing page (asserts disabled), the
commit is clipped to s: the trailing write cursor advances by exactly s,
the cached content length grows by exactly s, and the return value is 0. -/
theorem c10_commit_space_clips_and_succeeds (A : Alloc) (b : Buffer) (n : Nat)
    (hwf : BufferWF b)
    (hw : page_is_writable (b.getPage (pages_back_idx b)) = true) :
    (bfy_buffer_commit_space A b n).1 = 0 ∧
    (page_get_space_len (b.getPage (pages_back_idx b)) < n →
      ((bfy_buffer_commit_space A b n).2.getPage (pages_back_idx b)).write_pos
          = (b.getPage (pages_back_idx b)).write_pos
            + page_get_space_len (b.getPage (pages_back_idx b)) ∧
      (bfy_buffer_commit_space A b n).2.content_len
          = b.content_len + page_get_space_len (b.getPage (pages_back_idx b))) := by
  have hidx : pages_back_idx b < buffer_count_pages b := by
    have := count_pos_of_wf hwf
    unfold pages_back_idx
    omega
  unfold bfy_buffer_commit_space buffer_get_writable_back buffer_get_usable_back
  rw [if_pos hw]
  dsimp only
  refine ⟨rfl, fun hlt => ?_⟩
  have hmin : min n (page_get_space_len (b.getPage (pages_back_idx b)))
      = page_get_space_len (b.getPage (pages_back_idx b)) := by omega
  rw [hmin]
  constructor
  · rw [getPage_record_added, getPage_setPage_self _ _ _ hidx]
  · rw [record_added_content_len, setPage_content_len]

/-- Claim C10 witness: the theorem applied to a concrete 8-byte unmanaged
buffer holding 3 bytes, with a 99-byte commit clipped to the 5 free
bytes. -/
theorem c10_commit_space_witness :
    BufferWF c10_demo_buf ∧
    page_is_writable (c10_demo_buf.getPage (pages_back_idx c10_demo_buf)) = true ∧
    ((bfy_buffer_commit_space allocAlways c10_demo_buf 99).1 = 0 ∧
     (page_get_space_len (c10_demo_buf.getPage (pages_back_idx c10_demo_buf)) < 99 →
       ((bfy_buffer_commit_space allocAlways c10_demo_buf 99).2.getPage
           (pages_back_idx c10_demo_buf)).write_pos
          = (c10_demo_buf.getPage (pages_back_idx c10_demo_buf)).write_pos
            + page_get_space_len (c10_demo_buf.getPage (pages_back_idx c10_demo_buf)) ∧
       (bfy_buffer_commit_space allocAlways c10_demo_buf 99).2.content_len
          = c10_demo_buf.content_len
            + page_get_space_len (c10_demo_buf.getPage (pages_back_idx c10_demo_buf)))) :=
  ⟨by decide, by decide,
   c10_commit_space_clips_and_succeeds allocAlways c10_demo_buf 99 (by decide) (by decide)⟩

theorem insert_one_page_as_record (A : Alloc) (hA : ∀ k, A.okArr k = true)
    (b : Buffer) (p : Page) (pos : Nat) :
    ∃ b', (buffer_insert_pages A b pos [p]).2
            = buffer_record_content_added b' (page_get_content_len p) ∧
          NotifierEq b' b := by
  unfold buffer_insert_pages
  dsimp only
  split
  · simp at *
  · split
    · exact ⟨_, rfl, rfl, rfl, rfl, rfl, rfl, rfl, rfl, rfl⟩
    · simp only [hA, if_true]
      by_cases hcw : (b.pages.getD []).length < buffer_count_pages b + [p].length
      · rw [if_pos hcw]
        split
        · simp_all
        · dsimp only
          by_cases hmv : (({ b with pages := some (b.pages.getD [] ++
              List.replicate (pick_capacity 16 (buffer_count_pages b + [p].length)
                - (b.pages.getD []).length) InitPage) } : Buffer)).n_pages = 0
              ∧ (({ b with pages := some (b.pages.getD [] ++
              List.replicate (pick_capacity 16 (buffer_count_pages b + [p].length)
                - (b.pages.getD []).length) InitPage) } : Buffer)).page.data ≠ []
          · rw [if_pos hmv]
            exact ⟨_, rfl, rfl, rfl, rfl, rfl, rfl, rfl, rfl, rfl⟩
          · rw [if_neg hmv]
            exact ⟨_, rfl, rfl, rfl, rfl, rfl, rfl, rfl, rfl, rfl⟩
      · rw [if_neg hcw]
        split
        · next hnone =>
          exfalso
          have hc0 : (b.pages.getD []).length = 0 := by rw [hnone]; rfl
          have : buffer_count_pages b = 1 := by
            unfold buffer_count_pages Buffer.livePages
            rw [hnone]
            rfl
          omega
        · dsimp only
          by_cases hmv : b.n_pages = 0 ∧ b.page.data ≠ []
          · rw [if_pos hmv]
            exact ⟨_, rfl, rfl, rfl, rfl, rfl, rfl, rfl, rfl, rfl⟩
          · rw [if_neg hmv]
            exact ⟨_, rfl, rfl, rfl, rfl, rfl, rfl, rfl, rfl, rfl⟩

theorem record_added_coalescing (b : Buffer) (n : Nat) (hm : b.changed_muted = 0)
    (hc : b.changed_coalescing ≠ 0) :
    buffer_record_content_added b n
      = { b with content_len := b.content_len + n, n_added := b.n_added + n } := by
  unfold buffer_record_content_added buffer_check_changed_cb
  dsimp only
  rw [if_pos hm]
  split
  · rfl
  · split
    · rfl
    · rfl

theorem add_readonly_fields (A : Alloc) (hA : ∀ k, A.okArr k = true)
    (b : Buffer) (bytes : List Nat) (hm : b.changed_muted = 0)
    (hc : b.changed_coalescing ≠ 0) :
    (bfy_buffer_add_readonly A b bytes).2.events = b.events ∧
    (bfy_buffer_add_readonly A b bytes).2.n_added = b.n_added + bytes.length ∧
    (bfy_buffer_add_readonly A b bytes).2.n_deleted = b.n_deleted ∧
    (bfy_buffer_add_readonly A b bytes).2.changed_coalescing = b.changed_coalescing ∧
    (bfy_buffer_add_readonly A b bytes).2.changed_muted = b.changed_muted ∧
    (bfy_buffer_add_readonly A b bytes).2.changed_cb = b.changed_cb ∧
    (bfy_buffer_add_readonly A b bytes).2.orig_size = b.orig_size := by
  unfold bfy_buffer_add_readonly buffer_append_pages
  obtain ⟨b', heq, hev, hna, hnd, hco, hmu, hcb, hos, hcl⟩ :=
    insert_one_page_as_record A hA b ⟨bytes, 0, bytes.length, true, true, none, 0⟩
      (buffer_count_pages b)
  rw [heq, record_added_coalescing b' _ (hmu.trans hm) (by rw [hco]; exact hc)]
  have hlen : page_get_content_len ⟨bytes, 0, bytes.length, true, true, none, 0⟩
      = bytes.length := rfl
  rw [hlen]
  exact ⟨hev, by rw [hna], hnd, hco, by rw [hmu], hcb, hos⟩

theorem add_readonly_times_fields (A : Alloc) (hA : ∀ k, A.okArr k = true)
    (bytes : List Nat) :
    ∀ (k : Nat) (b : Buffer), b.changed_muted = 0 → b.changed_coalescing ≠ 0 →
      (add_readonly_times A bytes k b).events = b.events ∧
      (add_readonly_times A bytes k b).n_added = b.n_added + k * bytes.length ∧
      (add_readonly_times A bytes k b).n_deleted = b.n_deleted ∧
      (add_readonly_times A bytes k b).changed_coalescing = b.changed_coalescing ∧
      (add_readonly_times A bytes k b).changed_muted = b.changed_muted ∧
      (add_readonly_times A bytes k b).changed_cb = b.changed_cb ∧
      (add_readonly_times A bytes k b).orig_size = b.orig_size := by
  intro k
  induction k with
  | zero => intro b hm hc; simp [add_readonly_times]
  | succ k ih =>
    intro b hm hc
    obtain ⟨hev, hna, hnd, hco, hmu, hcb, hos⟩ := add_readonly_fields A hA b bytes hm hc
    obtain ⟨iev, ina, ind, ico, imu, icb, ios⟩ :=
      ih (bfy_buffer_add_readonly A b bytes).2 (hmu.trans hm) (by rw [hco]; exact hc)
    unfold add_readonly_times
    refine ⟨iev.trans hev, ?_, ind.trans hnd, ico.trans hco, imu.trans hmu,
            icb.trans hcb, ios.trans hos⟩
    rw [ina, hna]
    ring

/-- Claim C8: with a change callback set, buffer_check_changed_cb (the
maybe-emit step run after every mutation) appends exactly one change event
iff mute depth is 0, coalesce depth is 0, and the accumulated added or
deleted count is nonzero; on emission the counter triple is passed and the
counters are then reset with orig_size set to the current content length;
a mutation recorded while muted changes only the content length and is
never counted; and 1024 add_readonly calls of a 26-byte string bracketed
by begin/end coalescing emit exactly one event with n_added = 1024 * 26
and n_deleted = 0. -/
theorem c8_change_notifier_protocol (A : Alloc) (hA : ∀ k, A.okArr k = true) (b : Buffer) :
    (b.changed_cb = true →
      ((buffer_check_changed_cb b).events
        = b.events ++
          (if b.changed_muted = 0 ∧ b.changed_coalescing = 0 ∧
              (0 < b.n_added ∨ 0 < b.n_deleted)
           then [BufEvent.changed b.orig_size b.n_added b.n_deleted] else [])) ∧
      (b.changed_muted = 0 → b.changed_coalescing = 0 →
        (0 < b.n_added ∨ 0 < b.n_deleted) →
        (buffer_check_changed_cb b).n_added = 0 ∧
        (buffer_check_changed_cb b).n_deleted = 0 ∧
        (buffer_check_changed_cb b).orig_size = b.content_len)) ∧
    (∀ n, 0 < b.changed_muted →
      buffer_record_content_added b n = { b with content_len := b.content_len + n }) ∧
    (b.changed_cb = true → b.changed_muted = 0 → b.changed_coalescing = 0 →
      b.n_added = 0 → b.n_deleted = 0 →
      (bfy_buffer_end_coalescing_change_events
        (add_readonly_times A lorem26 1024
          (bfy_buffer_begin_coalescing_change_events b))).events
        = b.events ++ [BufEvent.changed b.orig_size (1024 * 26) 0]) := by
  refine ⟨fun hcb => ⟨?_, ?_⟩, ?_, ?_⟩
  · unfold buffer_check_changed_cb buffer_reset_changed_info
    by_cases hm : b.changed_muted = 0
    · by_cases hc : b.changed_coalescing = 0
      · by_cases hz : b.n_added = 0 ∧ b.n_deleted = 0
        · rw [if_neg (c := b.changed_muted = 0 ∧ b.changed_coalescing = 0 ∧
              (0 < b.n_added ∨ 0 < b.n_deleted)) (by omega)]
          simp [hcb, hm, hc, hz]
        · rw [if_pos (c := b.changed_muted = 0 ∧ b.changed_coalescing = 0 ∧
              (0 < b.n_added ∨ 0 < b.n_deleted)) ⟨hm, hc, by omega⟩]
          simp [hcb, hm, hc, hz]
      · rw [if_neg (c := b.changed_muted = 0 ∧ b.changed_coalescing = 0 ∧
              (0 < b.n_added ∨ 0 < b.n_deleted)) (by tauto)]
        simp [hcb, hm, hc]
    · rw [if_neg (c := b.changed_muted = 0 ∧ b.changed_coalescing = 0 ∧
              (0 < b.n_added ∨ 0 < b.n_deleted)) (by tauto)]
      simp [hcb, hm]
  · intro hm hc hpos
    unfold buffer_check_changed_cb buffer_reset_changed_info
    have hz : ¬(b.n_added = 0 ∧ b.n_deleted = 0) := by omega
    simp [hcb, hm, hc, hz]
  · intro n hm
    unfold buffer_record_content_added
    dsimp only
    rw [if_neg (by omega)]
  · intro hcb hm hc hz1 hz2
    obtain ⟨hev, hna, hnd, hco, hmu, hcbq, hos⟩ :=
      add_readonly_times_fields A hA lorem26 1024
        (bfy_buffer_begin_coalescing_change_events b) hm (by
          unfold bfy_buffer_begin_coalescing_change_events
          dsimp only
          omega)
    have hco' : (add_readonly_times A lorem26 1024
        (bfy_buffer_begin_coalescing_change_events b)).changed_coalescing
        = b.changed_coalescing + 1 := by rw [hco]; rfl
    have hmu' : (add_readonly_times A lorem26 1024
        (bfy_buffer_begin_coalescing_change_events b)).changed_muted
        = b.changed_muted := by rw [hmu]; rfl
    have hcb' : (add_readonly_times A lorem26 1024
        (bfy_buffer_begin_coalescing_change_events b)).changed_cb
        = b.changed_cb := by rw [hcbq]; rfl
    have hna' : (add_readonly_times A lorem26 1024
        (bfy_buffer_begin_coalescing_change_events b)).n_added
        = b.n_added + 1024 * 26 := by rw [hna]; simp [lorem26]; rfl
    have hnd' : (add_readonly_times A lorem26 1024
        (bfy_buffer_begin_coalescing_change_events b)).n_deleted
        = b.n_deleted := by rw [hnd]; rfl
    have hos' : (add_readonly_times A lorem26 1024
        (bfy_buffer_begin_coalescing_change_events b)).orig_size
        = b.orig_size := by rw [hos]; rfl
    have hev' : (add_readonly_times A lorem26 1024
        (bfy_buffer_begin_coalescing_change_events b)).events
        = b.events := by rw [hev]; rfl
    unfold bfy_buffer_end_coalescing_change_events
    dsimp only
    rw [if_pos (by rw [hco']; omega)]
    unfold buffer_check_changed_cb buffer_reset_changed_info
    dsimp only
    rw [if_neg (by rw [hcb', hcb]; simp)]
    rw [if_neg (by rw [hmu', hm]; omega)]
    rw [if_neg (by rw [hco']; omega)]
    rw [if_neg (by rw [hna', hnd', hz1]; omega)]
    dsimp only
    rw [hev', hos', hna', hnd', hz1, hz2]

/-- Claim C8 witness: the protocol theorem applied to a concrete two-byte
buffer with the callback installed. -/
theorem c8_change_notifier_witness :
    c8_demo_buf.changed_cb = true ∧ c8_demo_buf.changed_muted = 0 ∧
    c8_demo_buf.changed_coalescing = 0 ∧ c8_demo_buf.n_added = 0 ∧
    c8_demo_buf.n_deleted = 0 ∧
    (bfy_buffer_end_coalescing_change_events
        (add_readonly_times allocAlways lorem26 1024
          (bfy_buffer_begin_coalescing_change_events c8_demo_buf))).events
      = c8_demo_buf.events ++ [BufEvent.changed c8_demo_buf.orig_size (1024 * 26) 0] :=
  ⟨by decide, by decide, by decide, by decide, by decide,
   (c8_change_notifier_protocol allocAlways (fun _ => rfl) c8_demo_buf).2.2
     (by decide) (by decide) (by decide) (by decide) (by decide)⟩

theorem pick_capacity_go_ge :
    ∀ (fuel mn req : Nat), 1 ≤ mn → req ≤ mn + fuel →
      req ≤ pick_capacity_go fuel mn req := by
  intro fuel
  induction fuel with
  | zero =>
    intro mn req h1 h2
    unfold pick_capacity_go
    omega
  | succ fuel ih =>
    intro mn req h1 h2
    unfold pick_capacity_go
    split
    · exact ih (2 * mn) req (by omega) (by omega)
    · omega

theorem pick_capacity_ge (mn req : Nat) (h1 : 1 ≤ mn) : req ≤ pick_capacity mn req :=
  pick_capacity_go_ge req mn req h1 (by omega)

theorem pick_capacity_go_pow :
    ∀ (fuel t req : Nat), 1 ≤ req → req ≤ 2 ^ t + fuel →
      pick_capacity_go fuel (2 ^ t) req = 2 ^ (max t (Nat.clog 2 req)) := by
  intro fuel
  induction fuel with
  | zero =>
    intro t req h1 h2
    unfold pick_capacity_go
    have hle : req ≤ 2 ^ t := by omega
    have : Nat.clog 2 req ≤ t := (Nat.le_pow_iff_clog_le (by omega)).1 hle
    rw [Nat.max_eq_left this]
  | succ fuel ih =>
    intro t req h1 h2
    unfold pick_capacity_go
    split
    · next hlt =>
      have h2' : req ≤ 2 ^ (t + 1) + fuel := by
        have : 1 ≤ 2 ^ t := Nat.one_le_two_pow
        have : 2 ^ (t + 1) = 2 ^ t + 2 ^ t := by ring
        omega
      have := ih (t + 1) req h1 h2'
      rw [show 2 * 2 ^ t = 2 ^ (t + 1) by ring, this]
      have hgt : t < Nat.clog 2 req := by
        by_contra hle
        push_neg at hle
        have := (Nat.le_pow_iff_clog_le (b := 2) (by omega)).2 hle
        omega
      rw [Nat.max_eq_right (by omega), Nat.max_eq_right (by omega)]
    · next hge =>
      push_neg at hge
      have : Nat.clog 2 req ≤ t := (Nat.le_pow_iff_clog_le (by omega)).1 hge
      rw [Nat.max_eq_left this]

theorem pick_capacity_1024 (req : Nat) (h1 : 1 ≤ req) :
    pick_capacity 1024 req = max 1024 (2 ^ Nat.clog 2 req) := by
  unfold pick_capacity
  have h1024 : (1024 : Nat) = 2 ^ 10 := by norm_num
  rw [h1024, pick_capacity_go_pow req 10 req h1 (by omega)]
  rcases Nat.le_total 10 (Nat.clog 2 req) with h | h
  · rw [Nat.max_eq_right h, Nat.max_eq_right (Nat.pow_le_pow_right (by omega) h)]
  · rw [Nat.max_eq_left h, Nat.max_eq_left (Nat.pow_le_pow_right (by omega) h)]

theorem splice_back_take (G : List Page) (N : Nat) (p : Page) (h : N + 1 ≤ G.length) :
    ((G.take N ++ [p] ++ ((G.drop N).take 0 ++ G.drop (N + 1))).take G.length).take (N + 1)
      = G.take N ++ [p] := by
  rw [List.take_take]
  have hmin : min (N + 1) G.length = N + 1 := by omega
  rw [hmin]
  have hx : (G.take N).length = N := by
    rw [List.length_take]
    omega
  rw [List.take_zero, List.nil_append, List.append_assoc,
      List.take_append_eq_append_take, hx]
  have h1 : (N + 1) - N = 1 := by omega
  rw [h1, List.take_of_length_le (by omega : (G.take N).length ≤ N + 1)]
  simp

theorem getD_snoc_back (X : List Page) (p : Page) (d : Page) :
    (X ++ [p]).getD X.length d = p := by
  rw [List.getD_eq_getElem?_getD, List.getElem?_append_right (le_refl X.length)]
  simp


theorem take_getD (l : List Page) (m i : Nat) (h : i < m) (d : Page) :
    (l.take m).getD i d = l.getD i d := by
  rw [List.getD_eq_getElem?_getD, List.getD_eq_getElem?_getD, List.getElem?_take]
  rw [if_pos h]

theorem splice_getD (G : List Page) (N : Nat) (p : Page) (rest1 rest2 : List Page)
    (h : N + 1 ≤ G.length) :
    ((G.take N ++ [p] ++ rest1 ++ rest2).take G.length).getD N InitPage = p := by
  have hx : (G.take N).length = N := by
    rw [List.length_take]
    omega
  rw [take_getD _ _ _ (by omega)]
  rw [List.append_assoc, List.append_assoc, List.getD_eq_getElem?_getD,
      List.getElem?_append_right (by omega : (G.take N).length ≤ N), hx]
  simp

theorem getPage_back_record (R : Buffer) (m : Nat) (N : Nat) (p : Page)
    (arr' : List Page)
    (hp : R.pages = some arr') (hn : R.n_pages = N + 1)
    (hlen : N + 1 ≤ arr'.length)
    (hget : arr'.getD N InitPage = p) :
    (buffer_record_content_added R m).getPage
        (pages_back_idx (buffer_record_content_added R m)) = p
      ∧ 1 ≤ buffer_count_pages (buffer_record_content_added R m) := by
  constructor
  · rw [getPage_record_added]
    unfold pages_back_idx buffer_count_pages
    rw [record_added_livePages]
    unfold Buffer.getPage Buffer.livePages
    rw [hp, hn]
    have hl : (arr'.take (N + 1)).length = N + 1 := by
      rw [List.length_take]
      omega
    rw [hl]
    have : N + 1 - 1 = N := by omega
    rw [this, take_getD _ _ _ (by omega), hget]
  · unfold buffer_count_pages
    rw [record_added_livePages]
    unfold Buffer.livePages
    rw [hp, hn]
    rw [List.length_take]
    omega

theorem count_some (b : Buffer) (arr : List Page) (hpg : b.pages = some arr)
    (hle : b.n_pages ≤ arr.length) : buffer_count_pages b = b.n_pages := by
  unfold buffer_count_pages Buffer.livePages
  rw [hpg]
  rw [List.length_take]
  omega

theorem append_one_back (A : Alloc) (hA : ∀ k, A.okArr k = true) (b : Buffer) (p : Page)
    (hwf : BufferWF b) :
    (buffer_append_pages A b [p]).2.getPage
        (pages_back_idx (buffer_append_pages A b [p]).2) = p
      ∧ 1 ≤ buffer_count_pages (buffer_append_pages A b [p]).2 := by
  obtain ⟨hpwf, hsum, hover, hinl, hinn⟩ := hwf
  unfold buffer_append_pages buffer_insert_pages
  dsimp only
  split
  · simp at *
  · split
    · next hfp =>
      rcases hfp with ⟨-, hnone, -⟩
      constructor
      · rw [getPage_record_added]
        unfold pages_back_idx buffer_count_pages
        rw [record_added_livePages]
        unfold Buffer.getPage Buffer.livePages
        rw [hnone]
        rfl
      · unfold buffer_count_pages
        rw [record_added_livePages]
        unfold Buffer.livePages
        rw [hnone]
        simp
    · next hfp =>
      cases hpg : b.pages with
      | none =>
        have hdata : b.page.data ≠ [] := by
          intro h2
          exact hfp ⟨rfl, hpg, h2⟩
        have hcnt : buffer_count_pages b = 1 := by
          unfold buffer_count_pages Buffer.livePages
          rw [hpg]
          rfl
        have hn01 : b.n_pages ≤ 1 := hinn hpg
        simp only [Option.getD_none, List.length_nil, List.length_singleton,
          Nat.sub_zero, List.nil_append]
        have hc1 : (0 : Nat) < buffer_count_pages b + 1 := Nat.succ_pos _
        rw [if_pos hc1]
        rw [if_pos (hA (pick_capacity 16 (buffer_count_pages b + 1)))]
        rw [if_neg (by simp)]
        dsimp only
        by_cases hmv : b.n_pages = 0 ∧ b.page.data ≠ []
        · rw [if_pos hmv]
          dsimp only
          simp only [Option.getD_some, hcnt, Nat.min_self]
          refine getPage_back_record _ _ 1 p _ rfl (by simp) ?_ ?_
          · simp only [List.length_take, List.length_append, List.length_drop,
              List.length_set, List.length_replicate, List.length_singleton]
            have h16 : 1 + 1 ≤ pick_capacity 16 (1 + 1) :=
              pick_capacity_ge 16 (1 + 1) (by omega)
            have hd : ([p] : List Page).length = 1 := rfl
            omega
          · refine splice_getD _ 1 p _ _ ?_
            simp only [List.length_set, List.length_replicate]
            exact pick_capacity_ge 16 (1 + 1) (by omega)
        · rw [if_neg hmv]
          dsimp only
          have hn1 : b.n_pages = 1 := by
            rcases Nat.eq_or_lt_of_le hn01 with h | h
            · exact h
            · interval_cases b.n_pages
              exact absurd ⟨rfl, hdata⟩ hmv
          simp only [Option.getD_some, hcnt, hn1, Nat.min_self]
          refine getPage_back_record _ _ 1 p _ rfl (by simp) ?_ ?_
          · simp only [List.length_take, List.length_append, List.length_drop,
              List.length_replicate, List.length_singleton]
            have h16 : 1 + 1 ≤ pick_capacity 16 (1 + 1) :=
              pick_capacity_ge 16 (1 + 1) (by omega)
            have hd : ([p] : List Page).length = 1 := rfl
            omega
          · refine splice_getD _ 1 p _ _ ?_
            simp only [List.length_replicate]
            exact pick_capacity_ge 16 (1 + 1) (by omega)
      | some arr =>
        have hbounds := hover (by rw [hpg]; rfl)
        rw [hpg] at hbounds
        simp only [Option.getD_some] at hbounds
        have hcnt : buffer_count_pages b = b.n_pages := count_some b arr hpg hbounds.1
        have hmv : ¬(b.n_pages = 0 ∧ b.page.data ≠ []) := by
          rintro ⟨h0, -⟩
          omega
        simp only [Option.getD_some, List.length_singleton]
        by_cases hcw : arr.length < buffer_count_pages b + 1
        · rw [if_pos hcw]
          rw [if_pos (hA (pick_capacity 16 (buffer_count_pages b + 1)))]
          rw [if_neg (by simp)]
          dsimp only
          rw [if_neg hmv]
          dsimp only
          simp only [Option.getD_some, hcnt, Nat.min_self]
          have hpk : b.n_pages + 1 ≤ pick_capacity 16 (b.n_pages + 1) :=
            pick_capacity_ge 16 (b.n_pages + 1) (by omega)
          refine getPage_back_record _ _ b.n_pages p _ rfl (by simp) ?_ ?_
          · simp only [List.length_take, List.length_append, List.length_drop,
              List.length_replicate, List.length_singleton]
            have hcw2 : arr.length < b.n_pages + 1 := by omega
            omega
          · refine splice_getD _ b.n_pages p _ _ ?_
            simp only [List.length_append, List.length_replicate]
            omega
        · rw [if_neg hcw]
          rw [if_neg (show ¬(b.pages = none) by simp [hpg])]
          dsimp only
          rw [if_neg hmv]
          simp only [hpg, Option.getD_some, hcnt, Nat.min_self]
          refine getPage_back_record _ _ b.n_pages p _ rfl (by simp) ?_ ?_
          · simp only [List.length_take, List.length_append, List.length_drop,
              List.length_singleton]
            have hd : ([p] : List Page).length = 1 := rfl
            omega
          · exact splice_getD _ b.n_pages p _ _ (by omega)

theorem initPage_wf : PageWF InitPage := by decide

theorem getPage_wf {b : Buffer} (i : Nat) (hwf : BufferWF b) : PageWF (b.getPage i) := by
  obtain ⟨hp, -⟩ := hwf
  unfold Buffer.getPage
  by_cases hi : i < b.livePages.length
  · rw [List.getD_eq_getElem b.livePages InitPage hi]
    exact hp _ (List.getElem_mem hi)
  · rw [List.getD_eq_default b.livePages InitPage (by omega)]
    exact initPage_wf

theorem realloc_cases (A : Alloc) (p : Page) (requested : Nat)
    (hgt : p.data.length < requested) :
    (A.ok (pick_capacity 1024 requested) = true →
      page_realloc A p requested
        = (0, { p with data :=
            p.data ++ List.replicate (pick_capacity 1024 requested - p.data.length) 0 }))
    ∧ (A.ok (pick_capacity 1024 requested) = false →
        page_realloc A p requested = (-1, p)) := by
  have hns : requested ≤ pick_capacity 1024 requested :=
    pick_capacity_ge 1024 requested (by omega)
  unfold page_realloc
  rw [if_neg (by omega : ¬ requested = 0)]
  dsimp only
  rw [if_neg (by omega : ¬ pick_capacity 1024 requested ≤ p.data.length)]
  constructor
  · intro hok
    rw [if_pos hok]
  · intro hok
    rw [if_neg (by simp [hok])]

theorem esl_realloc (A : Alloc) (p : Page) (wanted : Nat)
    (hnot : ¬ wanted ≤ page_get_space_len p) (hcr : page_can_realloc p = true) :
    page_ensure_space_len A p wanted
      = page_realloc A p (p.data.length + (wanted - page_get_space_len p)) := by
  unfold page_ensure_space_len
  dsimp only
  rw [if_neg hnot, if_pos hcr]

theorem esl_space (A : Alloc) (p : Page) (wanted : Nat) (hwf : PageWF p)
    (h0 : (page_ensure_space_len A p wanted).1 = 0) :
    wanted ≤ page_get_space_len (page_ensure_space_len A p wanted).2 := by
  obtain ⟨h1, h2⟩ := hwf
  by_cases hle : wanted ≤ page_get_space_len p
  · unfold page_ensure_space_len
    dsimp only
    rw [if_pos hle]
    exact hle
  · by_cases hcr : page_can_realloc p = true
    · rw [esl_realloc A p wanted hle hcr] at h0 ⊢
      have hgt : p.data.length < p.data.length + (wanted - page_get_space_len p) := by
        unfold page_get_space_len at hle ⊢
        unfold Page.size at *
        omega
      obtain ⟨hcase1, hcase2⟩ := realloc_cases A p _ hgt
      cases hok : A.ok (pick_capacity 1024 (p.data.length + (wanted - page_get_space_len p))) with
      | true =>
        rw [hcase1 hok]
        have hns : p.data.length + (wanted - page_get_space_len p)
            ≤ pick_capacity 1024 (p.data.length + (wanted - page_get_space_len p)) :=
          pick_capacity_ge 1024 _ (by omega)
        unfold page_get_space_len Page.size at *
        simp only [List.length_append, List.length_replicate]
        omega
      | false =>
        rw [hcase2 hok] at h0
        simp at h0
    · unfold page_ensure_space_len at h0
      dsimp only at h0
      rw [if_neg hle, if_neg hcr] at h0
      simp at h0

theorem ensure_fast (A : Alloc) (b : Buffer) (len : Nat)
    (hw : page_is_writable (b.getPage (pages_back_idx b)) = true)
    (hsp : len ≤ page_get_space_len (b.getPage (pages_back_idx b))) :
    bfy_buffer_ensure_space A b len = (0, b) := by
  unfold bfy_buffer_ensure_space
  dsimp only
  rw [if_pos ⟨hw, hsp⟩]

theorem ensure_slide (A : Alloc) (b : Buffer) (len : Nat)
    (hw : page_is_writable (b.getPage (pages_back_idx b)) = true)
    (h1 : ¬ len ≤ page_get_space_len (b.getPage (pages_back_idx b)))
    (h2 : len ≤ page_get_space_len (b.getPage (pages_back_idx b))
            + (b.getPage (pages_back_idx b)).read_pos) :
    bfy_buffer_ensure_space A b len
      = (0, b.setPage (pages_back_idx b)
              (page_make_space_contiguous (b.getPage (pages_back_idx b)))) := by
  unfold bfy_buffer_ensure_space
  dsimp only
  rw [if_neg (fun hc => h1 hc.2), if_pos ⟨hw, h2⟩]

theorem ensure_realloc_back (A : Alloc) (b : Buffer) (len : Nat)
    (hcr : page_can_realloc (b.getPage (pages_back_idx b)) = true)
    (hns : ¬ (page_is_writable (b.getPage (pages_back_idx b)) = true
              ∧ len ≤ page_get_space_len (b.getPage (pages_back_idx b))))
    (hns2 : ¬ (page_is_writable (b.getPage (pages_back_idx b)) = true
               ∧ len ≤ page_get_space_len (b.getPage (pages_back_idx b))
                   + (b.getPage (pages_back_idx b)).read_pos)) :
    bfy_buffer_ensure_space A b len
      = ((page_ensure_space_len A (b.getPage (pages_back_idx b)) len).1,
         b.setPage (pages_back_idx b)
           (page_ensure_space_len A (b.getPage (pages_back_idx b)) len).2) := by
  unfold bfy_buffer_ensure_space
  dsimp only
  rw [if_neg hns, if_neg hns2]
  have hu : buffer_get_usable_back A b page_can_realloc = (some (pages_back_idx b), b) := by
    unfold buffer_get_usable_back
    rw [if_pos hcr]
  rw [hu]

theorem ensure_fresh (A : Alloc) (b : Buffer) (len : Nat)
    (hA : ∀ k, A.okArr k = true) (hwf : BufferWF b)
    (hcr : page_can_realloc (b.getPage (pages_back_idx b)) = false)
    (hns : ¬ (page_is_writable (b.getPage (pages_back_idx b)) = true
              ∧ len ≤ page_get_space_len (b.getPage (pages_back_idx b))))
    (hns2 : ¬ (page_is_writable (b.getPage (pages_back_idx b)) = true
               ∧ len ≤ page_get_space_len (b.getPage (pages_back_idx b))
                   + (b.getPage (pages_back_idx b)).read_pos)) :
    bfy_buffer_ensure_space A b len
      = ((page_ensure_space_len A InitPage len).1,
         (buffer_append_pages A b [InitPage]).2.setPage
           (pages_back_idx (buffer_append_pages A b [InitPage]).2)
           (page_ensure_space_len A InitPage len).2) := by
  unfold bfy_buffer_ensure_space
  dsimp only
  rw [if_neg hns, if_neg hns2]
  have hu : buffer_get_usable_back A b page_can_realloc
      = (some (pages_back_idx (buffer_append_pages A b [InitPage]).2),
         (buffer_append_pages A b [InitPage]).2) := by
    unfold buffer_get_usable_back
    rw [if_neg (by simp [hcr]), if_pos (by rfl)]
  rw [hu]
  dsimp only
  rw [(append_one_back A hA b InitPage hwf).1]

theorem slide_space (p : Page) (hwf : PageWF p) :
    page_get_space_len (page_make_space_contiguous p)
      = page_get_space_len p + p.read_pos := by
  obtain ⟨h1, h2⟩ := hwf
  unfold page_make_space_contiguous
  by_cases hr : p.read_pos ≠ 0
  · rw [if_pos hr]
    unfold page_get_space_len Page.size page_get_content_len page_live_bytes
    dsimp only
    simp only [List.length_append, List.length_drop, List.length_take]
    omega
  · rw [if_neg hr]
    omega

theorem getPage_setPage_back (b : Buffer) (p : Page) (hpos : 1 ≤ buffer_count_pages b) :
    (b.setPage (pages_back_idx b) p).getPage
        (pages_back_idx (b.setPage (pages_back_idx b) p)) = p := by
  have hb : pages_back_idx (b.setPage (pages_back_idx b) p) = pages_back_idx b := by
    unfold pages_back_idx
    rw [count_setPage]
  rw [hb]
  exact getPage_setPage_self b _ p (by unfold pages_back_idx; omega)

theorem can_realloc_writable (p : Page) (h : page_can_realloc p = true) :
    page_is_writable p = true := by
  unfold page_can_realloc at h
  unfold page_is_writable
  cases hro : p.readonly with
  | false => rfl
  | true => rw [hro] at h; simp at h

/-- Claim C6: whenever bfy_buffer_ensure_space returns success, the
trailing page has at least len bytes of free space; when the trailing
page is writable and len exceeds its tail space but fits in tail space
plus the drained prefix, the live content is slid to offset 0 in place
and the state changes in no other way (no allocation); otherwise a
reallocatable trailing page (the existing one when it admits realloc,
else a freshly appended page) is grown to capacity
max 1024 (smallest power of two at least the required size), and the
call fails with -1 exactly when the data allocator refuses.  Page-array
allocations are assumed to succeed (hA): the claim is about the data
allocator, and growing the page index is a separate allocation the claim
does not mention. -/
theorem c6_ensure_space_slide_and_grow (A : Alloc) (b : Buffer) (len : Nat)
    (hA : ∀ k, A.okArr k = true) (hwf : BufferWF b) :
    ((page_is_writable (b.getPage (pages_back_idx b)) = true →
      ¬ len ≤ page_get_space_len (b.getPage (pages_back_idx b)) →
      len ≤ page_get_space_len (b.getPage (pages_back_idx b))
          + (b.getPage (pages_back_idx b)).read_pos →
      bfy_buffer_ensure_space A b len
        = (0, b.setPage (pages_back_idx b)
                (page_make_space_contiguous (b.getPage (pages_back_idx b))))))
    ∧ ((bfy_buffer_ensure_space A b len).1 = 0 →
        len ≤ page_get_space_len
          ((bfy_buffer_ensure_space A b len).2.getPage
            (pages_back_idx (bfy_buffer_ensure_space A b len).2)))
    ∧ (¬ (page_is_writable (b.getPage (pages_back_idx b)) = true
          ∧ len ≤ page_get_space_len (b.getPage (pages_back_idx b))
              + (b.getPage (pages_back_idx b)).read_pos) →
       page_can_realloc (b.getPage (pages_back_idx b)) = true →
       (if A.ok (pick_capacity 1024 ((b.getPage (pages_back_idx b)).data.length
            + (len - page_get_space_len (b.getPage (pages_back_idx b))))) = true
        then (bfy_buffer_ensure_space A b len).1 = 0
             ∧ ((bfy_buffer_ensure_space A b len).2.getPage (pages_back_idx b)).data.length
                 = max 1024 (2 ^ Nat.clog 2 ((b.getPage (pages_back_idx b)).data.length
                     + (len - page_get_space_len (b.getPage (pages_back_idx b)))))
        else (bfy_buffer_ensure_space A b len).1 = -1))
    ∧ (¬ (page_is_writable (b.getPage (pages_back_idx b)) = true
          ∧ len ≤ page_get_space_len (b.getPage (pages_back_idx b))
              + (b.getPage (pages_back_idx b)).read_pos) →
       page_can_realloc (b.getPage (pages_back_idx b)) = false →
       1 ≤ len →
       (if A.ok (pick_capacity 1024 len) = true
        then (bfy_buffer_ensure_space A b len).1 = 0
             ∧ ((bfy_buffer_ensure_space A b len).2.getPage
                  (pages_back_idx (bfy_buffer_ensure_space A b len).2)).data.length
                 = max 1024 (2 ^ Nat.clog 2 len)
        else (bfy_buffer_ensure_space A b len).1 = -1)) := by
  have hpwf := getPage_wf (pages_back_idx b) hwf
  have hpos := count_pos_of_wf hwf
  refine ⟨?_, ?_, ?_, ?_⟩
  · intro hw h1 h2
    exact ensure_slide A b len hw h1 h2
  · intro h0
    by_cases hfast : page_is_writable (b.getPage (pages_back_idx b)) = true
        ∧ len ≤ page_get_space_len (b.getPage (pages_back_idx b))
    · rw [ensure_fast A b len hfast.1 hfast.2]
      exact hfast.2
    · by_cases hslide : page_is_writable (b.getPage (pages_back_idx b)) = true
          ∧ len ≤ page_get_space_len (b.getPage (pages_back_idx b))
              + (b.getPage (pages_back_idx b)).read_pos
      · rw [ensure_slide A b len hslide.1 (fun hc => hfast ⟨hslide.1, hc⟩) hslide.2]
        dsimp only
        rw [getPage_setPage_back b _ hpos]
        rw [slide_space _ hpwf]
        exact hslide.2
      · cases hcr : page_can_realloc (b.getPage (pages_back_idx b)) with
        | true =>
          rw [ensure_realloc_back A b len hcr hfast hslide] at h0 ⊢
          dsimp only at h0 ⊢
          rw [getPage_setPage_back b _ hpos]
          exact esl_space A _ len hpwf h0
        | false =>
          rw [ensure_fresh A b len hA hwf hcr hfast hslide] at h0 ⊢
          dsimp only at h0 ⊢
          rw [getPage_setPage_back _ _ (append_one_back A hA b InitPage hwf).2]
          exact esl_space A _ len initPage_wf h0
  · intro hns2 hcr
    have hns : ¬ (page_is_writable (b.getPage (pages_back_idx b)) = true
        ∧ len ≤ page_get_space_len (b.getPage (pages_back_idx b))) :=
      fun hc => hns2 ⟨hc.1, by omega⟩
    have hwr := can_realloc_writable _ hcr
    have hlengt : ¬ len ≤ page_get_space_len (b.getPage (pages_back_idx b)) :=
      fun hc => hns ⟨hwr, hc⟩
    rw [ensure_realloc_back A b len hcr hns hns2]
    rw [esl_realloc A _ len hlengt hcr]
    have hple := hpwf
    obtain ⟨hp1, hp2⟩ := hple
    have hgt : (b.getPage (pages_back_idx b)).data.length
        < (b.getPage (pages_back_idx b)).data.length
            + (len - page_get_space_len (b.getPage (pages_back_idx b))) := by
      unfold page_get_space_len Page.size at *
      omega
    obtain ⟨hc1, hc2⟩ := realloc_cases A _ _ hgt
    by_cases hok : A.ok (pick_capacity 1024 ((b.getPage (pages_back_idx b)).data.length
        + (len - page_get_space_len (b.getPage (pages_back_idx b))))) = true
    · rw [if_pos hok, hc1 hok]
      dsimp only
      refine ⟨rfl, ?_⟩
      rw [getPage_setPage_self b _ _ (by unfold pages_back_idx; omega)]
      dsimp only
      simp only [List.length_append, List.length_replicate]
      have hgecap : (b.getPage (pages_back_idx b)).data.length
            + (len - page_get_space_len (b.getPage (pages_back_idx b)))
          ≤ pick_capacity 1024 ((b.getPage (pages_back_idx b)).data.length
            + (len - page_get_space_len (b.getPage (pages_back_idx b)))) :=
        pick_capacity_ge 1024 _ (by omega)
      rw [pick_capacity_1024 _ (by omega)] at hgecap ⊢
      omega
    · rw [if_neg hok, hc2 (by simpa using hok)]
  · intro hns2 hcr h1len
    have hns : ¬ (page_is_writable (b.getPage (pages_back_idx b)) = true
        ∧ len ≤ page_get_space_len (b.getPage (pages_back_idx b))) :=
      fun hc => hns2 ⟨hc.1, by omega⟩
    rw [ensure_fresh A b len hA hwf hcr hns hns2]
    have hz : ¬ len ≤ page_get_space_len InitPage := by
      unfold page_get_space_len Page.size InitPage
      simp
      omega
    rw [esl_realloc A InitPage len hz rfl]
    have hreq : InitPage.data.length + (len - page_get_space_len InitPage) = len := by
      unfold page_get_space_len Page.size InitPage
      simp
    rw [hreq]
    have hgt : InitPage.data.length < len := by
      unfold InitPage
      simpa using h1len
    obtain ⟨hc1, hc2⟩ := realloc_cases A InitPage len hgt
    by_cases hok : A.ok (pick_capacity 1024 len) = true
    · rw [if_pos hok, hc1 hok]
      dsimp only
      refine ⟨rfl, ?_⟩
      rw [getPage_setPage_back _ _ (append_one_back A hA b InitPage hwf).2]
      dsimp only
      simp only [List.length_append, List.length_replicate]
      rw [pick_capacity_1024 _ h1len]
      unfold InitPage
      simp
    · rw [if_neg hok, hc2 (by simpa using hok)]


/-- Claim C6 witness: the theorem applied to a concrete drained unmanaged
8-byte buffer with len = 4, which takes the slide path. -/
theorem c6_ensure_space_witness :
    BufferWF c6_demo_buf ∧
    ((page_is_writable (c6_demo_buf.getPage (pages_back_idx c6_demo_buf)) = true →
      ¬ 4 ≤ page_get_space_len (c6_demo_buf.getPage (pages_back_idx c6_demo_buf)) →
      4 ≤ page_get_space_len (c6_demo_buf.getPage (pages_back_idx c6_demo_buf))
          + (c6_demo_buf.getPage (pages_back_idx c6_demo_buf)).read_pos →
      bfy_buffer_ensure_space allocAlways c6_demo_buf 4
        = (0, c6_demo_buf.setPage (pages_back_idx c6_demo_buf)
                (page_make_space_contiguous
                  (c6_demo_buf.getPage (pages_back_idx c6_demo_buf)))))
    ∧ ((bfy_buffer_ensure_space allocAlways c6_demo_buf 4).1 = 0 →
        4 ≤ page_get_space_len
          ((bfy_buffer_ensure_space allocAlways c6_demo_buf 4).2.getPage
            (pages_back_idx (bfy_buffer_ensure_space allocAlways c6_demo_buf 4).2)))
    ∧ (¬ (page_is_writable (c6_demo_buf.getPage (pages_back_idx c6_demo_buf)) = true
          ∧ 4 ≤ page_get_space_len (c6_demo_buf.getPage (pages_back_idx c6_demo_buf))
              + (c6_demo_buf.getPage (pages_back_idx c6_demo_buf)).read_pos) →
       page_can_realloc (c6_demo_buf.getPage (pages_back_idx c6_demo_buf)) = true →
       (if allocAlways.ok (pick_capacity 1024
            ((c6_demo_buf.getPage (pages_back_idx c6_demo_buf)).data.length
            + (4 - page_get_space_len
                (c6_demo_buf.getPage (pages_back_idx c6_demo_buf))))) = true
        then (bfy_buffer_ensure_space allocAlways c6_demo_buf 4).1 = 0
             ∧ ((bfy_buffer_ensure_space allocAlways c6_demo_buf 4).2.getPage
                  (pages_back_idx c6_demo_buf)).data.length
                 = max 1024 (2 ^ Nat.clog 2
                     ((c6_demo_buf.getPage (pages_back_idx c6_demo_buf)).data.length
                     + (4 - page_get_space_len
                         (c6_demo_buf.getPage (pages_back_idx c6_demo_buf)))))
        else (bfy_buffer_ensure_space allocAlways c6_demo_buf 4).1 = -1))
    ∧ (¬ (page_is_writable (c6_demo_buf.getPage (pages_back_idx c6_demo_buf)) = true
          ∧ 4 ≤ page_get_space_len (c6_demo_buf.getPage (pages_back_idx c6_demo_buf))
              + (c6_demo_buf.getPage (pages_back_idx c6_demo_buf)).read_pos) →
       page_can_realloc (c6_demo_buf.getPage (pages_back_idx c6_demo_buf)) = false →
       1 ≤ 4 →
       (if allocAlways.ok (pick_capacity 1024 4) = true
        then (bfy_buffer_ensure_space allocAlways c6_demo_buf 4).1 = 0
             ∧ ((bfy_buffer_ensure_space allocAlways c6_demo_buf 4).2.getPage
                  (pages_back_idx (bfy_buffer_ensure_space allocAlways c6_demo_buf 4).2)).data.length
                 = max 1024 (2 ^ Nat.clog 2 4)
        else (bfy_buffer_ensure_space allocAlways c6_demo_buf 4).1 = -1))) :=
  ⟨by decide,
   c6_ensure_space_slide_and_grow allocAlways c6_demo_buf 4 (fun _ => rfl) (by decide)⟩



/-! Part 1: list slice utilities -/

theorem drop_take_of_le (l : List Nat) (w d k : Nat) (h : d + k ≤ w) :
    ((l.take w).drop d).take k = (l.drop d).take k := by
  rw [List.drop_take]
  rw [List.take_take]
  congr 1
  omega

theorem flatten_drop_take (L : List (List Nat)) :
    ∀ (i o k : Nat), i < L.length → o + k ≤ (L.getD i []).length →
      ((L.flatten.drop (((L.take i).map List.length).sum + o)).take k)
        = (((L.getD i []).drop o).take k) := by
  induction L with
  | nil => intro i o k hi; simp at hi
  | cons x rest ih =>
    intro i o k hi ho
    cases i with
    | zero =>
      simp only [List.take_zero, List.map_nil, List.sum_nil, Nat.zero_add,
        List.getD_cons_zero] at *
      rw [List.flatten_cons, List.drop_append_eq_append_drop,
        List.take_append_eq_append_take]
      have h1 : k - (x.drop o).length = 0 := by
        rw [List.length_drop]
        omega
      have h2 : rest.flatten.drop (o - x.length) = rest.flatten.drop 0 ∨ o - x.length = o - x.length := Or.inr rfl
      rw [h1, List.take_zero, List.append_nil]
    | succ i =>
      simp only [List.take_succ_cons, List.map_cons, List.sum_cons,
        List.getD_cons_succ] at *
      rw [List.flatten_cons, List.drop_append_eq_append_drop]
      have h1 : x.drop (x.length + ((rest.take i).map List.length).sum + o) = [] := by
        apply List.drop_eq_nil_of_le
        omega
      have h2 : x.length + ((rest.take i).map List.length).sum + o - x.length
          = ((rest.take i).map List.length).sum + o := by omega
      rw [h1, h2, List.nil_append]
      exact ih i o k (by simp at hi; omega) ho

/-! Part 2: page offset sums -/

theorem pageOffSum_zero (b : Buffer) : pageOffSum b 0 = 0 := rfl

theorem pageOffSum_succ (b : Buffer) (i : Nat) (hi : i < buffer_count_pages b) :
    pageOffSum b (i + 1) = pageOffSum b i + page_get_content_len (b.getPage i) := by
  unfold pageOffSum Buffer.getPage
  have hlt : i < b.livePages.length := hi
  rw [List.map_take, List.map_take, List.take_succ, List.getElem?_map,
      List.getElem?_eq_getElem hlt]
  simp [List.getD_eq_getElem?_getD, List.getElem?_eq_getElem hlt]

theorem pageOffSum_mono (b : Buffer) (i j : Nat) (h : i ≤ j) :
    pageOffSum b i ≤ pageOffSum b j := by
  unfold pageOffSum
  induction j with
  | zero =>
    have : i = 0 := by omega
    simp [this]
  | succ j ihj =>
    rcases Nat.eq_or_lt_of_le h with he | hl
    · simp [he]
    · have h2 : i ≤ j := by omega
      refine le_trans (ihj h2) ?_
      rw [List.take_succ]
      simp

theorem pageOffSum_total (b : Buffer) :
    pageOffSum b (buffer_count_pages b) = (b.livePages.map page_get_content_len).sum := by
  unfold pageOffSum buffer_count_pages
  rw [List.take_of_length_le (le_refl _)]

theorem pageOffSum_top (b : Buffer) (i : Nat) :
    pageOffSum b i ≤ pageOffSum b (buffer_count_pages b) := by
  by_cases h : i ≤ buffer_count_pages b
  · exact pageOffSum_mono b i _ h
  · unfold pageOffSum buffer_count_pages at *
    rw [List.take_of_length_le (le_refl _),
        List.take_of_length_le (by omega : b.livePages.length ≤ i)]

theorem live_bytes_length (p : Page) (hwf : PageWF p) :
    (page_live_bytes p).length = page_get_content_len p := by
  obtain ⟨h1, h2⟩ := hwf
  unfold page_live_bytes page_get_content_len
  rw [List.length_drop, List.length_take]
  omega

theorem content_length_eq (b : Buffer) (hwf : BufferWF b) :
    b.content.length = pageOffSum b (buffer_count_pages b) := by
  obtain ⟨hp, -⟩ := hwf
  unfold Buffer.content
  rw [pageOffSum_total, List.length_flatten, List.map_map]
  congr 1
  exact List.map_congr_left fun p hmem => live_bytes_length p (hp p hmem)

theorem content_len_eq_total (b : Buffer) (hwf : BufferWF b) :
    b.content_len = pageOffSum b (buffer_count_pages b) := by
  obtain ⟨-, hsum, -⟩ := hwf
  rw [hsum, pageOffSum_total]

theorem livemap_getD (b : Buffer) (i : Nat) (hi : i < b.livePages.length) :
    (b.livePages.map page_live_bytes).getD i [] = page_live_bytes (b.getPage i) := by
  unfold Buffer.getPage
  rw [List.getD_eq_getElem?_getD, List.getD_eq_getElem?_getD, List.getElem?_map,
      List.getElem?_eq_getElem hi]
  rfl

theorem offsum_as_mapped (b : Buffer) (i : Nat) :
    (((b.livePages.map page_live_bytes).take i).map List.length).sum
      = ((b.livePages.take i).map (fun p => (page_live_bytes p).length)).sum := by
  rw [← List.map_take, List.map_map]
  rfl

theorem offsum_as_mapped_wf (b : Buffer) (hwf : BufferWF b) (i : Nat) :
    (((b.livePages.map page_live_bytes).take i).map List.length).sum = pageOffSum b i := by
  obtain ⟨hp, -⟩ := hwf
  rw [offsum_as_mapped]
  unfold pageOffSum
  congr 1
  refine List.map_congr_left fun p hmem => ?_
  exact live_bytes_length p (hp p (List.mem_of_mem_take hmem))

/-! Part 3: iterator geometry -/

theorem iter_io_bytes_eq (b : Buffer) (it : Iter) (hwf : BufferWF b) (hI : IterOK b it) :
    iter_io_bytes b it
      = (b.content.drop it.cur.content_pos).take it.io_len := by
  obtain ⟨hidx, hgeo, hple, hio, hlt, hend⟩ := hI
  have hpwf : PageWF (b.getPage it.cur.page_idx) := getPage_wf _ hwf
  obtain ⟨hr, hw⟩ := hpwf
  unfold iter_io_bytes Buffer.content
  dsimp only
  rw [← hgeo, ← offsum_as_mapped_wf b hwf it.cur.page_idx]
  rw [flatten_drop_take (b.livePages.map page_live_bytes) it.cur.page_idx
        it.cur.page_pos it.io_len (by simpa using hidx)
        (by rw [livemap_getD b _ hidx, live_bytes_length _ (getPage_wf _ hwf)]
            unfold page_get_content_len at hio hple ⊢
            omega)]
  rw [livemap_getD b _ hidx]
  unfold page_live_bytes
  rw [List.drop_drop]
  rw [drop_take_of_le _ _ _ _
        (by unfold page_get_content_len at hio hple
            omega)]

theorem iter_next_none (b : Buffer) (it : Iter) (hI : IterOK b it)
    (hn : iter_next_page b it = none) :
    it.io_len = it.endPos.content_pos - it.cur.content_pos := by
  obtain ⟨hidx, hgeo, hple, hio, hlt, hend⟩ := hI
  unfold iter_next_page at hn
  dsimp only at hn
  by_cases hc : buffer_count_pages b ≤ it.cur.page_idx + 1
  · have hlast : it.cur.page_idx + 1 = buffer_count_pages b := by omega
    have htot : pageOffSum b (it.cur.page_idx + 1) = pageOffSum b (buffer_count_pages b) := by
      rw [hlast]
    rw [pageOffSum_succ b _ hidx] at htot
    omega
  · rw [if_neg hc] at hn
    by_cases hc2 : it.endPos.content_pos ≤ it.cur.content_pos + it.io_len
    · omega
    · rw [if_neg hc2] at hn
      simp at hn

theorem iter_next_ok (b : Buffer) (it it' : Iter) (hI : IterOK b it)
    (hn : iter_next_page b it = some it') :
    IterOK b it' ∧ it'.cur.content_pos = it.cur.content_pos + it.io_len ∧
    it'.cur.page_idx = it.cur.page_idx + 1 ∧ it'.cur.page_pos = 0 ∧
    it'.endPos = it.endPos := by
  obtain ⟨hidx, hgeo, hple, hio, hlt, hend⟩ := hI
  unfold iter_next_page at hn
  dsimp only at hn
  by_cases hc : buffer_count_pages b ≤ it.cur.page_idx + 1
  · rw [if_pos hc] at hn
    simp at hn
  · rw [if_neg hc] at hn
    by_cases hc2 : it.endPos.content_pos ≤ it.cur.content_pos + it.io_len
    · rw [if_pos hc2] at hn
      simp at hn
    · rw [if_neg hc2] at hn
      have he : it' = ⟨⟨it.cur.page_idx + 1, 0, it.cur.content_pos + it.io_len⟩,
          iter_impl_set_io b ⟨it.cur.page_idx + 1, 0, it.cur.content_pos + it.io_len⟩
            it.endPos, it.endPos⟩ := (Option.some.inj hn).symm
      subst he
      have hfull : it.io_len
          = page_get_content_len (b.getPage it.cur.page_idx) - it.cur.page_pos := by
        omega
      refine ⟨⟨by dsimp only; omega, ?_, Nat.zero_le _, rfl, by dsimp only; omega, hend⟩,
              rfl, rfl, rfl, rfl⟩
      dsimp only
      rw [pageOffSum_succ b _ hidx]
      omega

/-! Part 4: copyout tiling -/

theorem copyout_loop_eq (b : Buffer) (hwf : BufferWF b) :
    ∀ (fuel : Nat) (it : Iter) (acc : List Nat), IterOK b it →
      buffer_count_pages b ≤ it.cur.page_idx + fuel →
      copyout_loop b fuel it acc
        = acc ++ (b.content.drop it.cur.content_pos).take
            (it.endPos.content_pos - it.cur.content_pos) := by
  intro fuel
  induction fuel with
  | zero =>
    intro it acc hI hf
    exact absurd hI.1 (by omega)
  | succ fuel ih =>
    intro it acc hI hf
    unfold copyout_loop
    dsimp only
    cases hn : iter_next_page b it with
    | none =>
      have hio := iter_next_none b it hI hn
      rw [iter_io_bytes_eq b it hwf hI, hio]
    | some it' =>
      obtain ⟨hI', hc', hi', hp', he'⟩ := iter_next_ok b it it' hI hn
      dsimp only
      rw [ih it' _ hI' (by omega)]
      rw [iter_io_bytes_eq b it hwf hI, List.append_assoc]
      congr 1
      have hsplit : it.endPos.content_pos - it.cur.content_pos
          = it.io_len + (it.endPos.content_pos - it'.cur.content_pos) := by
        obtain ⟨-, -, -, hio, hlt, -⟩ := hI
        obtain ⟨-, -, -, -, hlt', -⟩ := hI'
        rw [he'] at hlt'
        omega
      rw [hsplit, List.take_add, hc', he']
      congr 1
      rw [List.drop_drop]

/-! Part 5: position resolution -/

theorem get_pos_zero (b : Buffer) : buffer_get_pos b 0 = ⟨0, 0, 0⟩ := by
  unfold buffer_get_pos
  rw [if_pos rfl]

theorem get_pos_over (b : Buffer) (q : Nat) (h0 : q ≠ 0) (hq : b.content_len ≤ q) :
    buffer_get_pos b q = ⟨buffer_count_pages b, 0, b.content_len⟩ := by
  unfold buffer_get_pos
  rw [if_neg h0, if_pos hq]

theorem get_pos_go_zero :
    ∀ (ps : List Page) (idx acc : Nat), 0 < (ps.map page_get_content_len).sum →
      ∃ j, j < ps.length ∧
        buffer_get_pos_go ps idx acc 0 = ⟨idx + j, 0, acc⟩ ∧
        ((ps.take j).map page_get_content_len).sum = 0 ∧
        0 < page_get_content_len (ps.getD j InitPage) := by
  intro ps
  induction ps with
  | nil => intro idx acc h; simp at h
  | cons p rest ih =>
    intro idx acc h
    unfold buffer_get_pos_go
    dsimp only
    simp only [Nat.min_zero, Nat.sub_zero, Nat.add_zero]
    by_cases hL : 0 < page_get_content_len p
    · rw [if_pos ⟨by simp, hL⟩]
      exact ⟨0, by simp, by simp, rfl, by simpa using hL⟩
    · have hL0 : page_get_content_len p = 0 := by omega
      rw [if_neg (by omega)]
      simp only [List.map_cons, List.sum_cons, hL0, Nat.zero_add] at h
      obtain ⟨j, hj, heq, hsum, hlen⟩ := ih (idx + 1) acc h
      refine ⟨j + 1, by simp; omega, ?_, ?_, ?_⟩
      · rw [heq]
        have ha : idx + 1 + j = idx + (j + 1) := by omega
        rw [ha]
      · simp only [List.take_succ_cons, List.map_cons, List.sum_cons, hL0]
        omega
      · simpa using hlen

theorem get_pos_go_spec :
    ∀ (ps : List Page) (rem idx acc : Nat), 0 < rem →
      rem < (ps.map page_get_content_len).sum →
      ∃ j, j < ps.length ∧
        buffer_get_pos_go ps idx acc rem
          = ⟨idx + j, rem - ((ps.take j).map page_get_content_len).sum, acc + rem⟩ ∧
        ((ps.take j).map page_get_content_len).sum ≤ rem ∧
        rem - ((ps.take j).map page_get_content_len).sum
          < page_get_content_len (ps.getD j InitPage) := by
  intro ps
  induction ps with
  | nil => intro rem idx acc h0 h; simp at h
  | cons p rest ih =>
    intro rem idx acc h0 h
    unfold buffer_get_pos_go
    dsimp only
    simp only [List.map_cons, List.sum_cons] at h
    by_cases hlt : rem < page_get_content_len p
    · have hmin : min (page_get_content_len p) rem = rem := by omega
      rw [hmin, if_pos ⟨by omega, by omega⟩]
      refine ⟨0, by simp, by simp, by simp, by simpa using hlt⟩
    · have hmin : min (page_get_content_len p) rem = page_get_content_len p := by omega
      rw [hmin, if_neg (by omega)]
      have hS : ∀ j, (((p :: rest).take (j + 1)).map page_get_content_len).sum
          = page_get_content_len p + ((rest.take j).map page_get_content_len).sum := by
        intro j
        simp
      by_cases heqc : rem = page_get_content_len p
      · have hz : rem - page_get_content_len p = 0 := by omega
        rw [hz]
        obtain ⟨j, hj, hres, hsum, hlen⟩ :=
          get_pos_go_zero rest (idx + 1) (acc + page_get_content_len p) (by omega)
        rw [hres]
        refine ⟨j + 1, by simp; omega, ?_, ?_, ?_⟩
        · rw [hS j]
          have h1 : idx + 1 + j = idx + (j + 1) := by omega
          have h2 : (0 : Nat) = rem - (page_get_content_len p
              + ((rest.take j).map page_get_content_len).sum) := by omega
          have h3 : acc + page_get_content_len p = acc + rem := by omega
          rw [h1, h3, ← h2]
        · rw [hS j]
          omega
        · rw [hS j]
          simp only [List.getD_cons_succ]
          omega
      · have hrem : 0 < rem - page_get_content_len p := by omega
        obtain ⟨j, hj, hres, hsum, hlen⟩ :=
          ih (rem - page_get_content_len p) (idx + 1) (acc + page_get_content_len p)
            hrem (by omega)
        rw [hres]
        refine ⟨j + 1, by simp; omega, ?_, ?_, ?_⟩
        · rw [hS j]
          have h1 : idx + 1 + j = idx + (j + 1) := by omega
          have h2 : rem - page_get_content_len p
                - ((rest.take j).map page_get_content_len).sum
              = rem - (page_get_content_len p
                + ((rest.take j).map page_get_content_len).sum) := by omega
          have h3 : acc + page_get_content_len p + (rem - page_get_content_len p)
              = acc + rem := by omega
          rw [h1, h2, h3]
        · rw [hS j]
          omega
        · rw [hS j]
          simp only [List.getD_cons_succ]
          omega

theorem get_pos_mid (b : Buffer) (hwf : BufferWF b) (q : Nat) (h0 : 0 < q)
    (hq : q < b.content_len) :
    (buffer_get_pos b q).page_idx < buffer_count_pages b ∧
    pageOffSum b (buffer_get_pos b q).page_idx + (buffer_get_pos b q).page_pos = q ∧
    (buffer_get_pos b q).page_pos
      < page_get_content_len (b.getPage (buffer_get_pos b q).page_idx) ∧
    (buffer_get_pos b q).content_pos = q := by
  have hsum : q < (b.livePages.map page_get_content_len).sum := by
    have := content_len_eq_total b hwf
    rw [pageOffSum_total] at this
    omega
  obtain ⟨j, hj, hres, hsle, hslt⟩ := get_pos_go_spec b.livePages q 0 0 h0 hsum
  unfold buffer_get_pos
  rw [if_neg (by omega), if_neg (by omega), hres]
  dsimp only
  simp only [Nat.zero_add]
  refine ⟨by simpa using hj, ?_, ?_, ?_⟩
  · unfold pageOffSum
    omega
  · unfold Buffer.getPage
    exact hslt
  · exact trivial

/-! Part 6a: setPage structure lemmas -/

theorem live_nil_of_len_zero (p : Page) (h : page_get_content_len p = 0) :
    page_live_bytes p = [] := by
  unfold page_get_content_len at h
  unfold page_live_bytes
  apply List.drop_eq_nil_of_le
  rw [List.length_take]
  omega

theorem flatten_live_nil (ps : List Page)
    (h : (ps.map page_get_content_len).sum = 0) :
    (ps.map page_live_bytes).flatten = [] := by
  induction ps with
  | nil => rfl
  | cons p rest ih =>
    simp only [List.map_cons, List.sum_cons] at h
    simp only [List.map_cons, List.flatten_cons]
    rw [live_nil_of_len_zero p (by omega), ih (by omega), List.nil_append]

theorem setPage_pages_none (b : Buffer) (i : Nat) (p : Page) (h : b.pages = none) :
    (b.setPage i p).pages = none := by
  unfold Buffer.setPage
  rw [h]

theorem setPage_pages_some (b : Buffer) (i : Nat) (p : Page) (arr : List Page)
    (h : b.pages = some arr) :
    (b.setPage i p).pages = some (arr.set i p) := by
  unfold Buffer.setPage
  rw [h]

theorem setPage_n_pages (b : Buffer) (i : Nat) (p : Page) :
    (b.setPage i p).n_pages = b.n_pages := by
  unfold Buffer.setPage
  cases b.pages <;> rfl

theorem setPage_page_some (b : Buffer) (i : Nat) (p : Page) (h : b.pages ≠ none) :
    (b.setPage i p).page = b.page := by
  unfold Buffer.setPage
  cases hp : b.pages with
  | none => exact absurd hp h
  | some arr => rfl

theorem getPage_setPage_other (b : Buffer) (i j : Nat) (p : Page)
    (hi : i < buffer_count_pages b) (hne : j ≠ i) :
    (b.setPage i p).getPage j = b.getPage j := by
  unfold Buffer.getPage
  rw [livePages_setPage b i p hi]
  rw [List.getD_eq_getElem?_getD, List.getD_eq_getElem?_getD,
      List.getElem?_set_ne (Ne.symm hne)]

theorem livePages_set_split (b : Buffer) (i : Nat) (hi : i < buffer_count_pages b)
    (p : Page) :
    (b.setPage i p).livePages
      = b.livePages.take i ++ p :: b.livePages.drop (i + 1) := by
  rw [livePages_setPage b i p hi]
  exact List.set_eq_take_cons_drop p hi

theorem livePages_split (b : Buffer) (i : Nat) (hi : i < buffer_count_pages b) :
    b.livePages = b.livePages.take i ++ b.getPage i :: b.livePages.drop (i + 1) := by
  have hi2 : i < b.livePages.length := hi
  have hget : b.getPage i = b.livePages[i] := by
    unfold Buffer.getPage
    rw [List.getD_eq_getElem?_getD, List.getElem?_eq_getElem hi2]
    rfl
  rw [hget, ← List.drop_eq_getElem_cons hi2, List.take_append_drop]

theorem content_set_at (b : Buffer) (i : Nat) (hi : i < buffer_count_pages b)
    (p : Page) (hpre : pageOffSum b i = 0) (hcw : PageWF (b.getPage i)) :
    (b.setPage i p).content
      = page_live_bytes p
          ++ b.content.drop (page_get_content_len (b.getPage i)) := by
  have hpref : ((b.livePages.take i).map page_live_bytes).flatten = [] :=
    flatten_live_nil _ hpre
  have hsplit : (b.livePages.map page_live_bytes).flatten
      = page_live_bytes (b.getPage i)
          ++ ((b.livePages.drop (i + 1)).map page_live_bytes).flatten := by
    conv_lhs => rw [livePages_split b i hi]
    simp only [List.map_append, List.map_cons, List.flatten_append, List.flatten_cons]
    rw [hpref, List.nil_append]
  unfold Buffer.content
  rw [livePages_set_split b i hi p]
  simp only [List.map_append, List.map_cons, List.flatten_append, List.flatten_cons]
  rw [hpref, List.nil_append]
  rw [hsplit, List.drop_append_eq_append_drop]
  rw [List.drop_eq_nil_of_le (Nat.le_of_eq (live_bytes_length _ hcw)),
      live_bytes_length _ hcw, Nat.sub_self, List.drop_zero, List.nil_append]

theorem pageOffSum_setPage_le (b : Buffer) (i k : Nat) (p : Page)
    (hi : i < buffer_count_pages b) (hk : k ≤ i) :
    pageOffSum (b.setPage i p) k = pageOffSum b k := by
  unfold pageOffSum
  rw [livePages_setPage b i p hi]
  congr 2
  rw [List.set_eq_take_cons_drop p (show i < b.livePages.length from hi)]
  rw [List.take_append_of_le_length
        (by rw [List.length_take]
            have he : buffer_count_pages b = b.livePages.length := rfl
            omega)]
  rw [List.take_take]
  congr 1
  omega

theorem pageOffSum_setPage_total (b : Buffer) (i : Nat) (p : Page)
    (hi : i < buffer_count_pages b) :
    pageOffSum (b.setPage i p) (buffer_count_pages (b.setPage i p))
        + page_get_content_len (b.getPage i)
      = pageOffSum b (buffer_count_pages b) + page_get_content_len p := by
  rw [pageOffSum_total (b.setPage i p), pageOffSum_total b]
  rw [livePages_set_split b i hi p]
  conv in b.livePages.map page_get_content_len => rw [livePages_split b i hi]
  simp only [List.map_append, List.map_cons, List.sum_append, List.sum_cons]
  omega

/-! Part 6b: drain scan, front ranges -/

theorem livePages_events (b : Buffer) (ev : List BufEvent) :
    ({ b with events := ev } : Buffer).livePages = b.livePages :=
  livePages_ext rfl rfl rfl

theorem content_events (b : Buffer) (ev : List BufEvent) :
    ({ b with events := ev } : Buffer).content = b.content := by
  unfold Buffer.content
  rw [livePages_events]

theorem count_events (b : Buffer) (ev : List BufEvent) :
    buffer_count_pages ({ b with events := ev } : Buffer) = buffer_count_pages b := by
  unfold buffer_count_pages
  rw [livePages_events]

theorem getPage_events (b : Buffer) (ev : List BufEvent) (i : Nat) :
    ({ b with events := ev } : Buffer).getPage i = b.getPage i := by
  unfold Buffer.getPage
  rw [livePages_events]

theorem pageOffSum_events (b : Buffer) (ev : List BufEvent) (k : Nat) :
    pageOffSum ({ b with events := ev } : Buffer) k = pageOffSum b k := by
  unfold pageOffSum
  rw [livePages_events]

theorem content_split_front (b : Buffer) (idx : Nat) (hi : idx < buffer_count_pages b)
    (hpre : pageOffSum b idx = 0) (hcw : PageWF (b.getPage idx)) :
    b.content = page_live_bytes (b.getPage idx)
        ++ b.content.drop (page_get_content_len (b.getPage idx)) := by
  have hpref : ((b.livePages.take idx).map page_live_bytes).flatten = [] :=
    flatten_live_nil _ hpre
  have hsplit : (b.livePages.map page_live_bytes).flatten
      = page_live_bytes (b.getPage idx)
          ++ ((b.livePages.drop (idx + 1)).map page_live_bytes).flatten := by
    conv_lhs => rw [livePages_split b idx hi]
    simp only [List.map_append, List.map_cons, List.flatten_append, List.flatten_cons]
    rw [hpref, List.nil_append]
  unfold Buffer.content
  rw [hsplit, List.drop_append_eq_append_drop]
  rw [List.drop_eq_nil_of_le (Nat.le_of_eq (live_bytes_length _ hcw)),
      live_bytes_length _ hcw, Nat.sub_self, List.drop_zero, List.nil_append]

theorem scan_step_full (b : Buffer) (idx : Nat) (q : Page)
    (hi : idx < buffer_count_pages b) (hq : page_get_content_len q = 0)
    (hwfq : PageWF q) (hpre : pageOffSum b idx = 0)
    (hwfall : ∀ i, PageWF (b.getPage i)) :
    (b.setPage idx q).content
        = b.content.drop (page_get_content_len (b.getPage idx)) ∧
    buffer_count_pages (b.setPage idx q) = buffer_count_pages b ∧
    (b.setPage idx q).n_pages = b.n_pages ∧
    (b.setPage idx q).content_len = b.content_len ∧
    ((b.setPage idx q).pages = none ↔ b.pages = none) ∧
    (b.pages ≠ none → (b.setPage idx q).page = b.page) ∧
    pageOffSum (b.setPage idx q) (idx + 1) = 0 ∧
    (∀ i, PageWF ((b.setPage idx q).getPage i)) ∧
    pageOffSum (b.setPage idx q) (buffer_count_pages (b.setPage idx q))
        + page_get_content_len (b.getPage idx)
      = pageOffSum b (buffer_count_pages b) := by
  refine ⟨?_, ?_, ?_, ?_, ?_, ?_, ?_, ?_, ?_⟩
  · rw [content_set_at b idx hi q hpre (hwfall idx),
        live_nil_of_len_zero q hq, List.nil_append]
  · rw [count_setPage]
  · rw [setPage_n_pages]
  · rw [setPage_content_len]
  · unfold Buffer.setPage
    cases hp : b.pages <;> simp
  · intro hne
    rw [setPage_page_some b idx q hne]
  · rw [pageOffSum_succ (b.setPage idx q) idx (by rw [count_setPage]; exact hi)]
    rw [pageOffSum_setPage_le b idx idx q hi (le_refl idx)]
    rw [getPage_setPage_self b idx q hi]
    omega
  · intro i
    by_cases hii : i = idx
    · rw [hii, getPage_setPage_self b idx q hi]
      exact hwfq
    · rw [getPage_setPage_other b idx i q hi hii]
      exact hwfall i
  · rw [count_setPage]
    have := pageOffSum_setPage_total b idx q hi
    rw [count_setPage] at this
    omega

theorem drain_front_loop (dr dc : Bool) :
    ∀ (fuel : Nat) (b : Buffer) (it : Iter) (nd : Nat),
      it.cur.page_pos = 0 →
      it.cur.page_idx < buffer_count_pages b →
      pageOffSum b it.cur.page_idx = 0 →
      it.io_len = min (page_get_content_len (b.getPage it.cur.page_idx))
                      (it.endPos.content_pos - it.cur.content_pos) →
      it.cur.content_pos < it.endPos.content_pos →
      it.endPos.content_pos - it.cur.content_pos
          ≤ pageOffSum b (buffer_count_pages b) →
      (∀ i, PageWF (b.getPage i)) →
      buffer_count_pages b ≤ it.cur.page_idx + fuel →
      (drain_scan_loop dr dc fuel b it nd).2
          = nd + (it.endPos.content_pos - it.cur.content_pos) ∧
      (drain_scan_loop dr dc fuel b it nd).1.content
          = b.content.drop (it.endPos.content_pos - it.cur.content_pos) ∧
      buffer_count_pages (drain_scan_loop dr dc fuel b it nd).1
          = buffer_count_pages b ∧
      (drain_scan_loop dr dc fuel b it nd).1.n_pages = b.n_pages ∧
      (drain_scan_loop dr dc fuel b it nd).1.content_len = b.content_len ∧
      ((drain_scan_loop dr dc fuel b it nd).1.pages = none ↔ b.pages = none) ∧
      (b.pages ≠ none → (drain_scan_loop dr dc fuel b it nd).1.page = b.page) := by
  intro fuel
  induction fuel with
  | zero =>
    intro b it nd h1 h2 h3 h4 h5 h6 h7 hf
    omega
  | succ fuel ih =>
    intro b it nd h1 h2 h3 h4 h5 h6 h7 hf
    unfold drain_scan_loop
    dsimp only
    by_cases hfull : page_get_content_len (b.getPage it.cur.page_idx) ≤ it.io_len
    · -- the page is fully inside the range
      have hiolen : it.io_len = page_get_content_len (b.getPage it.cur.page_idx) := by
        omega
      rw [if_pos hfull]
      have main : ∀ (B : Buffer),
          B.content = b.content.drop (page_get_content_len (b.getPage it.cur.page_idx)) →
          buffer_count_pages B = buffer_count_pages b →
          B.n_pages = b.n_pages →
          B.content_len = b.content_len →
          (B.pages = none ↔ b.pages = none) →
          (b.pages ≠ none → B.page = b.page) →
          pageOffSum B (it.cur.page_idx + 1) = 0 →
          (∀ i, PageWF (B.getPage i)) →
          pageOffSum B (buffer_count_pages B)
              + page_get_content_len (b.getPage it.cur.page_idx)
            = pageOffSum b (buffer_count_pages b) →
          (match iter_next_page B it with
            | none => (B, nd + (page_get_content_len (b.getPage it.cur.page_idx)))
            | some it' => drain_scan_loop dr dc fuel B it'
                (nd + (page_get_content_len (b.getPage it.cur.page_idx)))).2
              = nd + (it.endPos.content_pos - it.cur.content_pos) ∧
          (match iter_next_page B it with
            | none => (B, nd + (page_get_content_len (b.getPage it.cur.page_idx)))
            | some it' => drain_scan_loop dr dc fuel B it'
                (nd + (page_get_content_len (b.getPage it.cur.page_idx)))).1.content
              = b.content.drop (it.endPos.content_pos - it.cur.content_pos) ∧
          buffer_count_pages (match iter_next_page B it with
            | none => (B, nd + (page_get_content_len (b.getPage it.cur.page_idx)))
            | some it' => drain_scan_loop dr dc fuel B it'
                (nd + (page_get_content_len (b.getPage it.cur.page_idx)))).1
              = buffer_count_pages b ∧
          (match iter_next_page B it with
            | none => (B, nd + (page_get_content_len (b.getPage it.cur.page_idx)))
            | some it' => drain_scan_loop dr dc fuel B it'
                (nd + (page_get_content_len (b.getPage it.cur.page_idx)))).1.n_pages
              = b.n_pages ∧
          (match iter_next_page B it with
            | none => (B, nd + (page_get_content_len (b.getPage it.cur.page_idx)))
            | some it' => drain_scan_loop dr dc fuel B it'
                (nd + (page_get_content_len (b.getPage it.cur.page_idx)))).1.content_len
              = b.content_len ∧
          ((match iter_next_page B it with
            | none => (B, nd + (page_get_content_len (b.getPage it.cur.page_idx)))
            | some it' => drain_scan_loop dr dc fuel B it'
                (nd + (page_get_content_len (b.getPage it.cur.page_idx)))).1.pages = none
            ↔ b.pages = none) ∧
          (b.pages ≠ none → (match iter_next_page B it with
            | none => (B, nd + (page_get_content_len (b.getPage it.cur.page_idx)))
            | some it' => drain_scan_loop dr dc fuel B it'
                (nd + (page_get_content_len (b.getPage it.cur.page_idx)))).1.page
              = b.page) := by
        intro B hBc hBcnt hBn hBl hBp hBpg hBoff hBwf hBtot
        cases hnx : iter_next_page B it with
        | none =>
          dsimp only
          have hlen : page_get_content_len (b.getPage it.cur.page_idx)
              = it.endPos.content_pos - it.cur.content_pos := by
            unfold iter_next_page at hnx
            dsimp only at hnx
            by_cases hc : buffer_count_pages B ≤ it.cur.page_idx + 1
            · have hc2 : buffer_count_pages b = it.cur.page_idx + 1 := by omega
              have htot : pageOffSum b (buffer_count_pages b)
                  = page_get_content_len (b.getPage it.cur.page_idx) := by
                rw [hc2, pageOffSum_succ b _ h2, h3, Nat.zero_add]
              omega
            · rw [if_neg hc] at hnx
              by_cases hc2 : it.endPos.content_pos
                  ≤ it.cur.content_pos + it.io_len
              · omega
              · rw [if_neg hc2] at hnx
                simp at hnx
          refine ⟨by omega, ?_, hBcnt, hBn, hBl, hBp, hBpg⟩
          rw [hBc, hlen]
        | some it' =>
          dsimp only
          have hguard : ¬ buffer_count_pages B ≤ it.cur.page_idx + 1
              ∧ ¬ it.endPos.content_pos ≤ it.cur.content_pos + it.io_len := by
            unfold iter_next_page at hnx
            dsimp only at hnx
            by_cases hc : buffer_count_pages B ≤ it.cur.page_idx + 1
            · rw [if_pos hc] at hnx
              simp at hnx
            · rw [if_neg hc] at hnx
              by_cases hc2 : it.endPos.content_pos ≤ it.cur.content_pos + it.io_len
              · rw [if_pos hc2] at hnx
                simp at hnx
              · exact ⟨hc, hc2⟩
          have he : it' = ⟨⟨it.cur.page_idx + 1, 0, it.cur.content_pos + it.io_len⟩,
              iter_impl_set_io B
                ⟨it.cur.page_idx + 1, 0, it.cur.content_pos + it.io_len⟩ it.endPos,
              it.endPos⟩ := by
            unfold iter_next_page at hnx
            dsimp only at hnx
            rw [if_neg hguard.1, if_neg hguard.2] at hnx
            exact (Option.some.inj hnx).symm
          obtain ⟨hres2, hresc, hrescnt, hresn, hresl, hresp, hrespg⟩ :=
            ih B it' (nd + page_get_content_len (b.getPage it.cur.page_idx))
              (by rw [he]) (by rw [he]; dsimp only; omega)
              (by rw [he]; dsimp only; exact hBoff)
              (by rw [he]; unfold iter_impl_set_io; dsimp only; rw [Nat.sub_zero])
              (by rw [he]; dsimp only; omega)
              (by rw [he]; dsimp only; omega)
              hBwf
              (by rw [he]; dsimp only; omega)
          refine ⟨?_, ?_, by rwa [hBcnt] at hrescnt, by rwa [hBn] at hresn,
                  by rwa [hBl] at hresl, ?_, ?_⟩
          · rw [hres2, he]
            dsimp only
            omega
          · rw [hresc, hBc, he]
            dsimp only
            rw [List.drop_drop]
            congr 1
            omega
          · rw [hresp, hBp]
          · intro hnn
            rw [hrespg (fun hcontra => hnn (hBp.mp hcontra)), hBpg hnn]
      by_cases hrec : dc = true ∧ page_is_recyclable (b.getPage it.cur.page_idx) = true
      · rw [if_pos hrec]
        dsimp only
        have hstep := scan_step_full b it.cur.page_idx
          ({ b.getPage it.cur.page_idx with read_pos := 0, write_pos := 0 })
          h2 rfl ⟨le_refl 0, Nat.zero_le _⟩ h3 h7
        exact main _ hstep.1 hstep.2.1 hstep.2.2.1 hstep.2.2.2.1 hstep.2.2.2.2.1
          hstep.2.2.2.2.2.1 hstep.2.2.2.2.2.2.1 hstep.2.2.2.2.2.2.2.1
          hstep.2.2.2.2.2.2.2.2
      · rw [if_neg hrec]
        by_cases hrel : dr = true
        · rw [if_pos hrel]
          dsimp only
          have hstep := scan_step_full b it.cur.page_idx InitPage
            h2 rfl initPage_wf h3 h7
          exact main _ hstep.1 hstep.2.1 hstep.2.2.1 hstep.2.2.2.1 hstep.2.2.2.2.1
            hstep.2.2.2.2.2.1 hstep.2.2.2.2.2.2.1 hstep.2.2.2.2.2.2.2.1
            hstep.2.2.2.2.2.2.2.2
        · rw [if_neg hrel]
          have hstep := scan_step_full b it.cur.page_idx InitPage
            h2 rfl initPage_wf h3 h7
          exact main _ hstep.1 hstep.2.1 hstep.2.2.1 hstep.2.2.2.1 hstep.2.2.2.2.1
            hstep.2.2.2.2.2.1 hstep.2.2.2.2.2.2.1 hstep.2.2.2.2.2.2.2.1
            hstep.2.2.2.2.2.2.2.2
    · -- the range ends inside this page: drain from the front and stop
      rw [if_neg hfull, if_pos h1]
      have hioe : it.io_len = it.endPos.content_pos - it.cur.content_pos := by
        omega
      have hlt : it.io_len < page_get_content_len (b.getPage it.cur.page_idx) := by
        omega
      have hn : iter_next_page
          (b.setPage it.cur.page_idx
            ({ b.getPage it.cur.page_idx with
               read_pos := (b.getPage it.cur.page_idx).read_pos + it.io_len })) it
          = none := by
        unfold iter_next_page
        dsimp only
        by_cases hc : buffer_count_pages
            (b.setPage it.cur.page_idx
              ({ b.getPage it.cur.page_idx with
                 read_pos := (b.getPage it.cur.page_idx).read_pos + it.io_len }))
            ≤ it.cur.page_idx + 1
        · rw [if_pos hc]
        · rw [if_neg hc, if_pos (by omega)]
      rw [hn]
      dsimp only
      have hlive : page_live_bytes
          ({ b.getPage it.cur.page_idx with
             read_pos := (b.getPage it.cur.page_idx).read_pos + it.io_len })
          = (page_live_bytes (b.getPage it.cur.page_idx)).drop
              (it.endPos.content_pos - it.cur.content_pos) := by
        unfold page_live_bytes
        dsimp only
        rw [List.drop_drop]
        congr 1
        omega
      refine ⟨by omega, ?_, by rw [count_setPage], by rw [setPage_n_pages],
              by rw [setPage_content_len], ?_, ?_⟩
      · rw [content_set_at b it.cur.page_idx h2 _ h3 (h7 _), hlive]
        conv_rhs => rw [content_split_front b it.cur.page_idx h2 h3 (h7 _)]
        rw [List.drop_append_eq_append_drop]
        congr 1
        rw [live_bytes_length _ (h7 _)]
        have hz : it.endPos.content_pos - it.cur.content_pos
            - page_get_content_len (b.getPage it.cur.page_idx) = 0 := by omega
        rw [hz, List.drop_zero]
      · unfold Buffer.setPage
        cases hp : b.pages <;> simp
      · intro hne
        rw [setPage_page_some _ _ _ hne]

/-! Part 7: compaction -/

theorem compact_go_parts (dr dc : Bool) :
    ∀ (ws : List Page) (r : Page) (ev : List BufEvent),
      (compact_go dr dc ws r ev).1.length = ws.length ∧
      (compact_go dr dc ws r ev).2.1
          = ws.filter (fun p => 0 < page_get_content_len p) ∧
      (compact_go dr dc ws r ev).2.2.1 = ws.foldl (scratch_step dr dc) r ∧
      (∀ w ∈ (compact_go dr dc ws r ev).1, w = InitPage ∨ w ∈ ws) := by
  intro ws
  induction ws with
  | nil =>
    intro r ev
    refine ⟨rfl, rfl, rfl, ?_⟩
    intro w hw
    simp [compact_go] at hw
  | cons w rest ih =>
    intro r ev
    unfold compact_go
    dsimp only
    by_cases h1 : 0 < page_get_content_len w
    · rw [if_pos h1]
      obtain ⟨ihl, ihk, ihc, ihs⟩ := ih r ev
      refine ⟨by simpa using ihl, ?_, ?_, ?_⟩
      · rw [List.filter_cons_of_pos (by simpa using h1)]
        dsimp only
        rw [ihk]
      · dsimp only
        rw [List.foldl_cons]
        unfold scratch_step
        rw [if_pos h1]
        exact ihc
      · intro x hx
        dsimp only at hx
        rcases List.mem_cons.mp hx with hx | hx
        · right
          rw [hx]
          exact List.mem_cons_self w rest
        · rcases ihs x hx with h | h
          · exact Or.inl h
          · exact Or.inr (List.mem_cons_of_mem w h)
    · rw [if_neg h1]
      by_cases h2 : dc = true ∧ page_is_recyclable w = true ∧ r.data.length < w.data.length
      · rw [if_pos h2]
        obtain ⟨ihl, ihk, ihc, ihs⟩ := ih w
          (if dr then ev ++ release_page_events r else ev)
        refine ⟨by simpa using ihl, ?_, ?_, ?_⟩
        · rw [List.filter_cons_of_neg (by simpa using h1)]
          dsimp only
          rw [ihk]
        · dsimp only
          rw [List.foldl_cons]
          unfold scratch_step
          rw [if_neg h1, if_pos h2]
          exact ihc
        · intro x hx
          dsimp only at hx
          rcases List.mem_cons.mp hx with hx | hx
          · right
            rw [hx]
            exact List.mem_cons_self w rest
          · rcases ihs x hx with h | h
            · exact Or.inl h
            · exact Or.inr (List.mem_cons_of_mem w h)
      · rw [if_neg h2]
        by_cases h3 : dr = true
        · rw [if_pos h3]
          obtain ⟨ihl, ihk, ihc, ihs⟩ := ih r (ev ++ release_page_events w)
          refine ⟨by simpa using ihl, ?_, ?_, ?_⟩
          · rw [List.filter_cons_of_neg (by simpa using h1)]
            dsimp only
            rw [ihk]
          · dsimp only
            rw [List.foldl_cons]
            unfold scratch_step
            rw [if_neg h1, if_neg h2]
            exact ihc
          · intro x hx
            dsimp only at hx
            rcases List.mem_cons.mp hx with hx | hx
            · exact Or.inl hx
            · rcases ihs x hx with h | h
              · exact Or.inl h
              · exact Or.inr (List.mem_cons_of_mem w h)
        · rw [if_neg h3]
          obtain ⟨ihl, ihk, ihc, ihs⟩ := ih r ev
          refine ⟨by simpa using ihl, ?_, ?_, ?_⟩
          · rw [List.filter_cons_of_neg (by simpa using h1)]
            dsimp only
            rw [ihk]
          · dsimp only
            rw [List.foldl_cons]
            unfold scratch_step
            rw [if_neg h1, if_neg h2]
            exact ihc
          · intro x hx
            dsimp only at hx
            rcases List.mem_cons.mp hx with hx | hx
            · right
              rw [hx]
              exact List.mem_cons_self w rest
            · rcases ihs x hx with h | h
              · exact Or.inl h
              · exact Or.inr (List.mem_cons_of_mem w h)

theorem scratch_step_len (dr dc : Bool) (r w : Page)
    (h : page_get_content_len r = 0) :
    page_get_content_len (scratch_step dr dc r w) = 0 := by
  unfold scratch_step
  by_cases h1 : 0 < page_get_content_len w
  · rw [if_pos h1]
    exact h
  · rw [if_neg h1]
    by_cases h2 : dc = true ∧ page_is_recyclable w = true ∧ r.data.length < w.data.length
    · rw [if_pos h2]
      omega
    · rw [if_neg h2]
      exact h

theorem fold_len_zero (dr dc : Bool) :
    ∀ (ws : List Page) (r : Page), page_get_content_len r = 0 →
      page_get_content_len (ws.foldl (scratch_step dr dc) r) = 0 := by
  intro ws
  induction ws with
  | nil => intro r h; exact h
  | cons w rest ih =>
    intro r h
    rw [List.foldl_cons]
    exact ih _ (scratch_step_len dr dc r w h)

theorem fold_false (dr : Bool) :
    ∀ (ws : List Page) (r : Page), ws.foldl (scratch_step dr false) r = r := by
  intro ws
  induction ws with
  | nil => intro r; rfl
  | cons w rest ih =>
    intro r
    rw [List.foldl_cons]
    have hs : scratch_step dr false r w = r := by
      unfold scratch_step
      by_cases h1 : 0 < page_get_content_len w
      · rw [if_pos h1]
      · rw [if_neg h1, if_neg (by simp)]
    rw [hs, ih]

theorem fold_cands (dr : Bool) :
    ∀ (ws : List Page) (r : Page),
      ws.foldl (scratch_step dr true) r
        = (ws.filter fun p => page_is_recyclable p && page_get_content_len p == 0).foldl
            (scratch_step dr true) r := by
  intro ws
  induction ws with
  | nil => intro r; rfl
  | cons w rest ih =>
    intro r
    rw [List.foldl_cons]
    by_cases hc : (page_is_recyclable w && page_get_content_len w == 0) = true
    · rw [List.filter_cons, if_pos hc, List.foldl_cons]
      exact ih _
    · rw [List.filter_cons, if_neg hc]
      have hs : scratch_step dr true r w = r := by
        unfold scratch_step
        simp only [Bool.and_eq_true, beq_iff_eq] at hc
        by_cases h1 : 0 < page_get_content_len w
        · rw [if_pos h1]
        · rw [if_neg h1]
          rw [if_neg (by
            rintro ⟨-, hrec2, -⟩
            exact hc ⟨hrec2, by omega⟩)]
      rw [hs]
      exact ih r

theorem foldr_max_mem :
    ∀ (l : List Nat), 0 < l.foldr max 0 → l.foldr max 0 ∈ l := by
  intro l
  induction l with
  | nil => intro h; simp at h
  | cons x rest ih =>
    intro h
    rw [List.foldr_cons]
    rcases Nat.le_total x (rest.foldr max 0) with hle | hle
    · rw [Nat.max_eq_right hle]
      rw [List.foldr_cons] at h
      rw [Nat.max_eq_right hle] at h
      exact List.mem_cons_of_mem x (ih h)
    · rw [Nat.max_eq_left hle]
      exact List.mem_cons_self x rest

theorem fold_firstmax (dr : Bool) :
    ∀ (l : List Page) (r : Page),
      (∀ w ∈ l, page_is_recyclable w = true ∧ page_get_content_len w = 0) →
      (((l.map Page.size).foldr max 0 ≤ r.data.length →
          l.foldl (scratch_step dr true) r = r) ∧
       (r.data.length < (l.map Page.size).foldr max 0 →
          l.foldl (scratch_step dr true) r
            = (l.find? fun p => p.size == (l.map Page.size).foldr max 0).getD
                InitPage)) := by
  intro l
  induction l with
  | nil =>
    intro r hall
    refine ⟨fun h => rfl, fun h => ?_⟩
    simp at h
  | cons x rest ih =>
    intro r hall
    have hx := hall x (List.mem_cons_self x rest)
    have hall' : ∀ w ∈ rest, page_is_recyclable w = true ∧ page_get_content_len w = 0 :=
      fun w hw => hall w (List.mem_cons_of_mem x hw)
    have hszx : Page.size x = x.data.length := rfl
    simp only [List.map_cons, List.foldr_cons]
    constructor
    · intro hle
      rw [List.foldl_cons]
      have hstep : scratch_step dr true r x = r := by
        unfold scratch_step
        rw [if_neg (by omega), if_neg ?hc]
        case hc =>
          rintro ⟨-, -, hlt⟩
          rw [← hszx] at hlt
          omega
      rw [hstep]
      exact (ih r hall').1 (by omega)
    · intro hgt
      rw [List.foldl_cons]
      by_cases hcase : r.data.length < x.data.length
      · have hstep : scratch_step dr true r x = x := by
          unfold scratch_step
          rw [if_neg (by omega), if_pos ⟨rfl, hx.1, hcase⟩]
        rw [hstep]
        by_cases hsub : (rest.map Page.size).foldr max 0 ≤ Page.size x
        · have hM : max (Page.size x) ((rest.map Page.size).foldr max 0)
              = Page.size x := by omega
          rw [hM]
          rw [List.find?_cons_of_pos _ (by simp)]
          simp only [Option.getD_some]
          exact (ih x hall').1 (by rw [← hszx]; omega)
        · have hM : max (Page.size x) ((rest.map Page.size).foldr max 0)
              = (rest.map Page.size).foldr max 0 := by omega
          rw [hM]
          rw [List.find?_cons_of_neg _ (by simp; omega)]
          exact (ih x hall').2 (by rw [hszx] at hsub; omega)
      · have hstep : scratch_step dr true r x = r := by
          unfold scratch_step
          rw [if_neg (by omega), if_neg ?hc]
          case hc =>
            rintro ⟨-, -, hlt⟩
            omega
        rw [hstep]
        have hM : max (Page.size x) ((rest.map Page.size).foldr max 0)
            = (rest.map Page.size).foldr max 0 := by
          rw [hszx]
          omega
        rw [hM]
        rw [List.find?_cons_of_neg _ (by simp; rw [hszx]; omega)]
        exact (ih r hall').2 (by omega)

theorem cands_all (ws : List Page) :
    ∀ w ∈ (ws.filter fun p => page_is_recyclable p && page_get_content_len p == 0),
      page_is_recyclable w = true ∧ page_get_content_len w = 0 := by
  intro w hw
  have := List.of_mem_filter hw
  simp only [Bool.and_eq_true, beq_iff_eq] at this
  exact this

theorem fold_pick_scratch (dr : Bool) (ws : List Page) :
    (pick_scratch ws = none →
      (ws.foldl (scratch_step dr true) InitPage).data.length = 0) ∧
    (∀ p, pick_scratch ws = some p →
      ws.foldl (scratch_step dr true) InitPage = p ∧ 0 < p.data.length) := by
  rw [fold_cands]
  unfold pick_scratch
  dsimp only
  by_cases hm : 0 < (((ws.filter fun p => page_is_recyclable p
      && page_get_content_len p == 0).map Page.size).foldr max 0)
  · rw [if_pos hm]
    constructor
    · intro h
      cases hfind : (ws.filter fun p => page_is_recyclable p
          && page_get_content_len p == 0).find? fun p => p.size
            == ((ws.filter fun p => page_is_recyclable p
              && page_get_content_len p == 0).map Page.size).foldr max 0 with
      | none =>
        have hmem := foldr_max_mem _ hm
        rw [List.mem_map] at hmem
        obtain ⟨q, hq, hqsz⟩ := hmem
        have := List.find?_eq_none.mp hfind q hq
        simp [hqsz] at this
      | some q => rw [hfind] at h; simp at h
    · intro p hp
      have hl0 : (InitPage).data.length
          < (((ws.filter fun p => page_is_recyclable p
              && page_get_content_len p == 0).map Page.size).foldr max 0) := by
        have hz : (InitPage).data.length = 0 := rfl
        omega
      have hfold := (fold_firstmax dr _ InitPage (cands_all ws)).2 hl0
      rw [hp] at hfold
      simp only [Option.getD_some] at hfold
      refine ⟨hfold, ?_⟩
      have hpred := List.find?_some hp
      simp only [beq_iff_eq] at hpred
      have hsz : Page.size p = p.data.length := rfl
      omega
  · rw [if_neg hm]
    constructor
    · intro h
      have hfold := (fold_firstmax dr _ InitPage (cands_all ws)).1 (by omega)
      rw [hfold]
      rfl
    · intro p hp
      simp at hp

theorem flatten_filter_live (ws : List Page) :
    (((ws.filter fun p => 0 < page_get_content_len p).map page_live_bytes)).flatten
      = (ws.map page_live_bytes).flatten := by
  induction ws with
  | nil => rfl
  | cons w rest ih =>
    rw [List.filter_cons]
    by_cases h : 0 < page_get_content_len w
    · rw [if_pos (by simpa using h)]
      simp only [List.map_cons, List.flatten_cons]
      rw [ih]
    · rw [if_neg (by simpa using h)]
      simp only [List.map_cons, List.flatten_cons]
      rw [ih, live_nil_of_len_zero w (by omega), List.nil_append]

theorem kept_bonus (dr dc : Bool) :
    ∀ (ws : List Page) (r : Page),
      (ws.filter fun p => 0 < page_get_content_len p).length
          + (if 0 < (ws.foldl (scratch_step dr dc) r).data.length then 1 else 0)
        ≤ ws.length + (if 0 < r.data.length then 1 else 0) := by
  intro ws
  induction ws with
  | nil => intro r; simp
  | cons w rest ih =>
    intro r
    rw [List.filter_cons, List.foldl_cons]
    by_cases h1 : 0 < page_get_content_len w
    · rw [if_pos (by simpa using h1)]
      have hstep : scratch_step dr dc r w = r := by
        unfold scratch_step
        rw [if_pos h1]
      rw [hstep]
      have := ih r
      simp only [List.length_cons]
      omega
    · rw [if_neg (by simpa using h1)]
      by_cases h2 : dc = true ∧ page_is_recyclable w = true ∧ r.data.length < w.data.length
      · have hstep : scratch_step dr dc r w = w := by
          unfold scratch_step
          rw [if_neg h1, if_pos h2]
        rw [hstep]
        have := ih w
        have hbw : (if 0 < w.data.length then 1 else 0) = 1 := by
          rw [if_pos (by omega)]
        simp only [List.length_cons]
        omega
      · have hstep : scratch_step dr dc r w = r := by
          unfold scratch_step
          rw [if_neg h1, if_neg h2]
        rw [hstep]
        have := ih r
        simp only [List.length_cons]
        omega

theorem content_none (x : Buffer) (h : x.pages = none) :
    x.content = page_live_bytes x.page := by
  unfold Buffer.content Buffer.livePages
  rw [h]
  simp

theorem take_writeback (fin slots tailarr : List Page) (alen : Nat)
    (hle : fin.length ≤ alen) :
    (((fin ++ slots) ++ tailarr).take alen).take fin.length = fin := by
  rw [List.take_take, Nat.min_eq_left hle, List.append_assoc,
      List.take_append_of_le_length (le_refl _), List.take_of_length_le (le_refl _)]

theorem flatten_fin (ws : List Page) (r : Page) (hr : page_get_content_len r = 0) :
    (((ws.filter fun p => 0 < page_get_content_len p)
        ++ (if 0 < r.data.length then [r] else [])).map page_live_bytes).flatten
      = (ws.map page_live_bytes).flatten := by
  rw [List.map_append, List.flatten_append, flatten_filter_live]
  have h : ((if 0 < r.data.length then [r] else []).map page_live_bytes).flatten
      = [] := by
    by_cases hs : 0 < r.data.length
    · rw [if_pos hs]
      simp [live_nil_of_len_zero r hr]
    · rw [if_neg hs]
      rfl
  rw [h, List.append_nil]

theorem fold_mem (dr dc : Bool) :
    ∀ (ws : List Page) (r : Page),
      ws.foldl (scratch_step dr dc) r = r ∨ ws.foldl (scratch_step dr dc) r ∈ ws := by
  intro ws
  induction ws with
  | nil => intro r; exact Or.inl rfl
  | cons w rest ih =>
    intro r
    rw [List.foldl_cons]
    have hsv : scratch_step dr dc r w = r ∨ scratch_step dr dc r w = w := by
      unfold scratch_step
      by_cases h1 : 0 < page_get_content_len w
      · rw [if_pos h1]
        exact Or.inl rfl
      · rw [if_neg h1]
        by_cases h2 : dc = true ∧ page_is_recyclable w = true
            ∧ r.data.length < w.data.length
        · rw [if_pos h2]
          exact Or.inr rfl
        · rw [if_neg h2]
          exact Or.inl rfl
    rcases hsv with h | h
    · rw [h]
      rcases ih r with h2 | h2
      · exact Or.inl h2
      · exact Or.inr (List.mem_cons_of_mem w h2)
    · rw [h]
      rcases ih w with h2 | h2
      · rw [h2]
        exact Or.inr (List.mem_cons_self w rest)
      · exact Or.inr (List.mem_cons_of_mem w h2)

theorem livePages_update3 (x : Buffer) (ev : List BufEvent) (A : List Page) (n : Nat) :
    ({ x with events := ev, pages := some A, n_pages := n } : Buffer).livePages
      = A.take n := by
  unfold Buffer.livePages
  rfl

theorem compact_spec (b : Buffer) (dr dc : Bool) (hpos : 0 < buffer_count_pages b) :
    (buffer_compact b dr dc).content = b.content ∧
    (buffer_compact b dr dc).content_len = b.content_len ∧
    ((buffer_compact b dr dc).pages = none ↔ b.pages = none) ∧
    (b.pages ≠ none → (buffer_compact b dr dc).page = b.page) ∧
    (b.pages = none → (buffer_compact b dr dc).livePages.length = 1) ∧
    (b.pages ≠ none →
      (buffer_compact b dr dc).livePages
          = (b.livePages.filter fun p => 0 < page_get_content_len p)
              ++ (if 0 < ((compact_go dr dc b.livePages InitPage b.events)).2.2.1.data.length
                  then [(compact_go dr dc b.livePages InitPage b.events).2.2.1] else []) ∧
      (buffer_compact b dr dc).n_pages
          = ((b.livePages.filter fun p => 0 < page_get_content_len p)
              ++ (if 0 < ((compact_go dr dc b.livePages InitPage b.events)).2.2.1.data.length
                  then [(compact_go dr dc b.livePages InitPage b.events).2.2.1] else [])).length) := by
  obtain ⟨hslen, hkept, hcand, hslots⟩ :=
    compact_go_parts dr dc b.livePages InitPage b.events
  have hscratch_len : page_get_content_len
      ((compact_go dr dc b.livePages InitPage b.events)).2.2.1 = 0 := by
    rw [hcand]
    exact fold_len_zero dr dc b.livePages InitPage rfl
  unfold buffer_compact
  rw [if_pos hpos]
  dsimp only
  cases hpg : b.pages with
  | none =>
    dsimp only
    have hlive : b.livePages = [b.page] := by
      unfold Buffer.livePages
      rw [hpg]
    refine ⟨?_, rfl, by simp, fun hne => absurd rfl hne, fun _ => rfl,
            fun hne => absurd rfl hne⟩
    rw [content_none _ rfl, content_none b hpg]
    by_cases hc : 0 < page_get_content_len b.page
    · have hk : (compact_go dr dc b.livePages InitPage b.events).2.1 = [b.page] := by
        rw [hkept, hlive]
        rw [List.filter_cons, if_pos (by simpa using hc)]
        rfl
      dsimp only
      rw [hk]
      rfl
    · have hk : (compact_go dr dc b.livePages InitPage b.events).2.1 = [] := by
        rw [hkept, hlive]
        rw [List.filter_cons, if_neg (by simpa using hc)]
        rfl
      rw [live_nil_of_len_zero b.page (by omega)]
      have hq : ∀ (q : Page), q = InitPage ∨ q ∈ b.livePages → page_live_bytes q = [] := by
        intro q hmem
        rcases hmem with h | h
        · rw [h]
          rfl
        · rw [hlive] at h
          simp only [List.mem_singleton] at h
          rw [h]
          exact live_nil_of_len_zero b.page (by omega)
      dsimp only
      apply hq
      rw [hk, List.nil_append]
      by_cases hs : 0 < (compact_go dr dc b.livePages InitPage b.events).2.2.1.data.length
      · rw [if_pos hs, List.headD_cons]
        have hfm := fold_mem dr dc b.livePages InitPage
        rw [← hcand] at hfm
        rcases hfm with h | h
        · exfalso
          rw [h] at hs
          simp [InitPage] at hs
        · exact Or.inr h
      · rw [if_neg hs]
        cases hsl : (compact_go dr dc b.livePages InitPage b.events).1 with
        | nil =>
          have h2 := hslen
          rw [hsl, hlive] at h2
          simp at h2
        | cons s srest =>
          rw [List.headD_nil, List.headD_cons]
          apply hslots
          rw [hsl]
          exact List.mem_cons_self s srest
  | some arr =>
    dsimp only
    have harrlen : buffer_count_pages b ≤ arr.length := by
      unfold buffer_count_pages Buffer.livePages
      rw [hpg]
      dsimp only
      rw [List.length_take]
      omega
    have hbz : (if 0 < (InitPage).data.length then 1 else 0) = 0 := rfl
    have hkb := kept_bonus dr dc b.livePages InitPage
    rw [hbz] at hkb
    have hsl2 : (if 0 < ((compact_go dr dc b.livePages InitPage b.events)).2.2.1.data.length
        then [(compact_go dr dc b.livePages InitPage b.events).2.2.1] else []).length
        = (if 0 < (b.livePages.foldl (scratch_step dr dc) InitPage).data.length
           then 1 else 0) := by
      rw [hcand]
      by_cases hs : 0 < (b.livePages.foldl (scratch_step dr dc) InitPage).data.length
      · rw [if_pos hs, if_pos hs]
        rfl
      · rw [if_neg hs, if_neg hs]
        rfl
    have hfl : ((b.livePages.filter fun p => 0 < page_get_content_len p)
        ++ (if 0 < ((compact_go dr dc b.livePages InitPage b.events)).2.2.1.data.length
            then [(compact_go dr dc b.livePages InitPage b.events).2.2.1] else [])).length
        ≤ arr.length := by
      rw [List.length_append, hsl2]
      have hcl : buffer_count_pages b = b.livePages.length := rfl
      omega
    rw [hkept]
    refine ⟨?_, rfl, by simp, fun _ => rfl, fun hno => absurd hno (by simp),
            fun _ => ⟨?_, rfl⟩⟩
    · unfold Buffer.content
      rw [livePages_update3, take_writeback _ _ _ _ hfl]
      exact flatten_fin b.livePages _ hscratch_len
    · rw [livePages_update3, take_writeback _ _ _ _ hfl]

/-! Part 8: drain assembled -/

theorem record_removed_content (b : Buffer) (m : Nat) :
    (buffer_record_content_removed b m).content = b.content := by
  unfold Buffer.content
  rw [record_removed_livePages]

theorem content_length_clen (b : Buffer) (hwf : BufferWF b) :
    b.content.length = b.content_len := by
  rw [content_length_eq b hwf, ← content_len_eq_total b hwf]

theorem drain_tail_spec (bs : Buffer) (nd : Nat)
    (hcnt : 0 < buffer_count_pages bs) (hpageInit : bs.pages ≠ none → bs.page = InitPage) :
    (buffer_record_content_removed
        (if (buffer_compact bs true true).n_pages = 0
            ∧ (buffer_compact bs true true).pages ≠ none
         then { buffer_compact bs true true with pages := none }
         else buffer_compact bs true true) nd).content = bs.content ∧
    (buffer_record_content_removed
        (if (buffer_compact bs true true).n_pages = 0
            ∧ (buffer_compact bs true true).pages ≠ none
         then { buffer_compact bs true true with pages := none }
         else buffer_compact bs true true) nd).content_len = bs.content_len - nd ∧
    (bs.pages ≠ none →
      (buffer_record_content_removed
        (if (buffer_compact bs true true).n_pages = 0
            ∧ (buffer_compact bs true true).pages ≠ none
         then { buffer_compact bs true true with pages := none }
         else buffer_compact bs true true) nd).livePages
        = (if ((bs.livePages.filter fun p => 0 < page_get_content_len p)
              ++ (pick_scratch bs.livePages).toList).length = 0
           then [InitPage]
           else (bs.livePages.filter fun p => 0 < page_get_content_len p)
              ++ (pick_scratch bs.livePages).toList)) ∧
    (bs.pages = none →
      (buffer_record_content_removed
        (if (buffer_compact bs true true).n_pages = 0
            ∧ (buffer_compact bs true true).pages ≠ none
         then { buffer_compact bs true true with pages := none }
         else buffer_compact bs true true) nd).livePages.length = 1) := by
  obtain ⟨hcc, hcl, hcp, hcpg, hcinl, hcov⟩ := compact_spec bs true true hcnt
  obtain ⟨hslen, hkept, hcand, hslots⟩ :=
    compact_go_parts true true bs.livePages InitPage bs.events
  have hscr := fold_pick_scratch true bs.livePages
  have hscratch : (if 0 < ((compact_go true true bs.livePages InitPage bs.events)).2.2.1.data.length
      then [(compact_go true true bs.livePages InitPage bs.events).2.2.1] else [])
      = (pick_scratch bs.livePages).toList := by
    cases hpick : pick_scratch bs.livePages with
    | none =>
      have h0 := hscr.1 hpick
      rw [← hcand] at h0
      rw [if_neg (by omega)]
      rfl
    | some p =>
      obtain ⟨hfold, hlen⟩ := hscr.2 p hpick
      rw [← hcand] at hfold
      rw [if_pos (by rw [hfold]; omega), hfold]
      rfl
  cases hbp : bs.pages with
  | none =>
    have hnot : ¬ ((buffer_compact bs true true).n_pages = 0
        ∧ (buffer_compact bs true true).pages ≠ none) := by
      rintro ⟨-, hne⟩
      exact hne (hcp.mpr hbp)
    rw [if_neg hnot]
    refine ⟨?_, ?_, fun hne => absurd rfl hne, fun _ => ?_⟩
    · rw [record_removed_content, hcc]
    · rw [record_removed_content_len, hcl]
    · unfold buffer_count_pages at *
      rw [record_removed_livePages]
      exact hcinl hbp
  | some arr =>
    have hne : bs.pages ≠ none := by simp [hbp]
    obtain ⟨hlp, hnp⟩ := hcov hne
    rw [hscratch] at hlp hnp
    by_cases hsw : (buffer_compact bs true true).n_pages = 0
        ∧ (buffer_compact bs true true).pages ≠ none
    · rw [if_pos hsw]
      have hfin0 : ((bs.livePages.filter fun p => 0 < page_get_content_len p)
          ++ (pick_scratch bs.livePages).toList).length = 0 := by
        rw [← hnp]
        exact hsw.1
      refine ⟨?_, ?_, fun _ => ?_, fun hno => absurd hno (by simp [hbp])⟩
      · rw [record_removed_content]
        have h1 : ({ buffer_compact bs true true with pages := none } : Buffer).content
            = page_live_bytes (buffer_compact bs true true).page :=
          content_none _ rfl
        rw [h1, hcpg hne, hpageInit hne]
        have h2 : bs.content = (buffer_compact bs true true).content := hcc.symm
        rw [h2]
        unfold Buffer.content
        rw [hlp, List.eq_nil_of_length_eq_zero hfin0]
        rfl
      · rw [record_removed_content_len]
        rw [show ({ buffer_compact bs true true with pages := none } : Buffer).content_len
            = (buffer_compact bs true true).content_len from rfl, hcl]
      · rw [record_removed_livePages]
        rw [if_pos hfin0]
        have h3 : ({ buffer_compact bs true true with pages := none } : Buffer).livePages
            = [({ buffer_compact bs true true with pages := none } : Buffer).page] := by
          unfold Buffer.livePages
          rfl
        rw [h3]
        rw [show ({ buffer_compact bs true true with pages := none } : Buffer).page
            = (buffer_compact bs true true).page from rfl, hcpg hne, hpageInit hne]
    · rw [if_neg hsw]
      have hfinpos : ((bs.livePages.filter fun p => 0 < page_get_content_len p)
          ++ (pick_scratch bs.livePages).toList).length ≠ 0 := by
        intro h0
        exact hsw ⟨by rw [hnp]; exact h0, fun hcontra => hne (hcp.mp hcontra)⟩
      refine ⟨?_, ?_, fun _ => ?_, fun hno => absurd hno (by simp [hbp])⟩
      · rw [record_removed_content, hcc]
      · rw [record_removed_content_len, hcl]
      · rw [record_removed_livePages, hlp, if_neg hfinpos]

theorem min_drop_content (b : Buffer) (hwf : BufferWF b) (n : Nat) :
    b.content.drop (min n b.content_len) = b.content.drop n := by
  rcases Nat.le_total n b.content_len with h | h
  · rw [Nat.min_eq_left h]
  · have h1 : b.content.drop b.content_len = [] :=
      List.drop_eq_nil_of_le (by rw [content_length_clen b hwf])
    have h2 : b.content.drop n = [] :=
      List.drop_eq_nil_of_le (by rw [content_length_clen b hwf]; omega)
    rw [Nat.min_eq_right h, h1, h2]

theorem get_pos_cpos (b : Buffer) (hwf : BufferWF b) (n : Nat) :
    (buffer_get_pos b n).content_pos = min n b.content_len := by
  by_cases h0 : n = 0
  · subst h0
    rw [get_pos_zero]
    simp
  · by_cases hover : b.content_len ≤ n
    · rw [get_pos_over b n h0 hover]
      dsimp only
      omega
    · have := (get_pos_mid b hwf n (by omega) (by omega)).2.2.2
      omega

theorem drain_stage_front (b : Buffer) (hwf : BufferWF b) (n : Nat) :
    (drain_scan_stage b (buffer_get_pos b 0) (buffer_get_pos b n) true true).2
        = min n b.content_len ∧
    (drain_scan_stage b (buffer_get_pos b 0) (buffer_get_pos b n) true true).1.content
        = b.content.drop n ∧
    buffer_count_pages
        (drain_scan_stage b (buffer_get_pos b 0) (buffer_get_pos b n) true true).1
        = buffer_count_pages b ∧
    (drain_scan_stage b (buffer_get_pos b 0) (buffer_get_pos b n) true true).1.content_len
        = b.content_len ∧
    ((drain_scan_stage b (buffer_get_pos b 0) (buffer_get_pos b n) true true).1.pages = none
        ↔ b.pages = none) ∧
    (b.pages ≠ none →
      (drain_scan_stage b (buffer_get_pos b 0) (buffer_get_pos b n) true true).1.page
        = b.page) := by
  have hecp := get_pos_cpos b hwf n
  have htot := content_len_eq_total b hwf
  unfold drain_scan_stage
  rw [get_pos_zero]
  unfold iter_begin
  dsimp only
  by_cases hz : (buffer_get_pos b n).content_pos ≤ 0
  · rw [if_pos hz]
    dsimp only
    refine ⟨by omega, ?_, rfl, rfl, Iff.rfl, fun _ => rfl⟩
    rcases Nat.eq_zero_or_pos n with hn | hn
    · rw [hn, List.drop_zero]
    · have hc0 : b.content_len = 0 := by omega
      have hnil : b.content = [] :=
        List.eq_nil_of_length_eq_zero (by rw [content_length_clen b hwf, hc0])
      rw [hnil]
      simp
  · rw [if_neg hz]
    dsimp only
    obtain ⟨l1, l2, l3, l4, l5, l6, l7⟩ :=
      drain_front_loop true true (buffer_count_pages b + 1) b
        ⟨⟨0, 0, 0⟩, iter_impl_set_io b ⟨0, 0, 0⟩ (buffer_get_pos b n),
         buffer_get_pos b n⟩ 0
        rfl (count_pos_of_wf hwf) rfl
        (by unfold iter_impl_set_io
            dsimp only
            rw [Nat.sub_zero])
        (by dsimp only; omega)
        (by dsimp only; omega)
        (fun i => getPage_wf i hwf)
        (by dsimp only; omega)
    dsimp only at l1 l2
    refine ⟨by omega, ?_, l3, l5, l6, l7⟩
    rw [l2, Nat.sub_zero, hecp]
    exact min_drop_content b hwf n

theorem drain_range_front_spec (b : Buffer) (hwf : BufferWF b) (n : Nat) :
    (bfy_buffer_drain b n).1 = min n b.content_len ∧
    (bfy_buffer_drain b n).2.content = b.content.drop n ∧
    (bfy_buffer_drain b n).2.content_len = b.content_len - min n b.content_len ∧
    (b.pages ≠ none →
      (bfy_buffer_drain b n).2.livePages
        = (if (((drain_scan_stage b (buffer_get_pos b 0) (buffer_get_pos b n)
                true true).1.livePages.filter fun p => 0 < page_get_content_len p)
              ++ (pick_scratch (drain_scan_stage b (buffer_get_pos b 0)
                  (buffer_get_pos b n) true true).1.livePages).toList).length = 0
           then [InitPage]
           else ((drain_scan_stage b (buffer_get_pos b 0) (buffer_get_pos b n)
                true true).1.livePages.filter fun p => 0 < page_get_content_len p)
              ++ (pick_scratch (drain_scan_stage b (buffer_get_pos b 0)
                  (buffer_get_pos b n) true true).1.livePages).toList)) ∧
    (b.pages = none → (bfy_buffer_drain b n).2.livePages.length = 1) := by
  obtain ⟨s1, s2, s3, s4, s5, s6⟩ := drain_stage_front b hwf n
  obtain ⟨hwfp, hsum, hover, hinl, hinn⟩ := hwf
  have hpinit : (drain_scan_stage b (buffer_get_pos b 0) (buffer_get_pos b n)
      true true).1.pages ≠ none →
      (drain_scan_stage b (buffer_get_pos b 0) (buffer_get_pos b n)
        true true).1.page = InitPage := by
    intro hne
    have hbne : b.pages ≠ none := fun hc => hne (s5.mpr hc)
    rw [s6 hbne]
    apply hinl
    cases hc : b.pages with
    | none => exact absurd hc hbne
    | some arr => rfl
  obtain ⟨t1, t2, t3, t4⟩ :=
    drain_tail_spec
      (drain_scan_stage b (buffer_get_pos b 0) (buffer_get_pos b n) true true).1
      (drain_scan_stage b (buffer_get_pos b 0) (buffer_get_pos b n) true true).2
      (by rw [s3]; exact count_pos_of_wf ⟨hwfp, hsum, hover, hinl, hinn⟩)
      hpinit
  unfold bfy_buffer_drain bfy_buffer_drain_range buffer_drain_range
  dsimp only
  refine ⟨s1, ?_, ?_, ?_, ?_⟩
  · rw [t1, s2]
  · rw [t2, s4, s1]
  · intro hne
    have hne2 : (drain_scan_stage b (buffer_get_pos b 0) (buffer_get_pos b n)
        true true).1.pages ≠ none := fun hc => hne (s5.mp hc)
    exact t3 hne2
  · intro hno
    exact t4 (s5.mpr hno)

/-! Part 8b: copyout and remove -/

theorem buffer_copyout_front (b : Buffer) (hwf : BufferWF b) (endp : Pos)
    (he : endp.content_pos ≤ b.content_len) :
    buffer_copyout b ⟨0, 0, 0⟩ endp = b.content.take endp.content_pos := by
  have htot := content_len_eq_total b hwf
  unfold buffer_copyout iter_begin
  dsimp only
  by_cases hz : endp.content_pos ≤ 0
  · rw [if_pos hz]
    have h0 : endp.content_pos = 0 := by omega
    rw [h0, List.take_zero]
  · rw [if_neg hz]
    dsimp only
    rw [copyout_loop_eq b hwf (buffer_count_pages b + 1)
          ⟨⟨0, 0, 0⟩, iter_impl_set_io b ⟨0, 0, 0⟩ endp, endp⟩ []
          ⟨count_pos_of_wf hwf, rfl, Nat.zero_le _, rfl, by dsimp only; omega,
           by dsimp only; omega⟩
          (by dsimp only; omega)]
    dsimp only
    rw [List.nil_append, List.drop_zero, Nat.sub_zero]

theorem copyout_front (b : Buffer) (hwf : BufferWF b) (len : Nat) :
    bfy_buffer_copyout b len = b.content.take (min len b.content_len) := by
  unfold bfy_buffer_copyout bfy_buffer_copyout_range
  rw [get_pos_zero]
  rw [buffer_copyout_front b hwf (buffer_get_pos b len)
        (by rw [get_pos_cpos b hwf]; omega)]
  rw [get_pos_cpos b hwf]

theorem remove_front_spec (b : Buffer) (hwf : BufferWF b) (len : Nat) :
    (bfy_buffer_remove b len).1 = b.content.take (min len b.content_len) ∧
    (bfy_buffer_remove b len).2 = (bfy_buffer_drain b len).2 := by
  unfold bfy_buffer_remove bfy_buffer_remove_range buffer_remove
    bfy_buffer_drain bfy_buffer_drain_range
  dsimp only
  constructor
  · have := copyout_front b hwf len
    unfold bfy_buffer_copyout bfy_buffer_copyout_range at this
    exact this
  · rfl

/-- Claim C3: drain(b, n) removes exactly the first min(n, content_len)
bytes of content and returns that count; a zero-length drain and a drain
of an empty buffer leave the content byte sequence and length unchanged,
but the compaction still runs: in the overflow representation the
surviving page list is exactly the non-empty pages followed by the
optional recycled scratch page, and in the inline representation exactly
one slot remains. -/
theorem c3_drain_exact_prefix_and_compaction (b : Buffer) (n : Nat) (hwf : BufferWF b) :
    (bfy_buffer_drain b n).1 = min n b.content_len
    ∧ (bfy_buffer_drain b n).2.content = b.content.drop n
    ∧ (bfy_buffer_drain b n).2.content_len = b.content_len - min n b.content_len
    ∧ (n = 0 → (bfy_buffer_drain b n).2.content = b.content
        ∧ (bfy_buffer_drain b n).2.content_len = b.content_len)
    ∧ (b.pages ≠ none →
      (bfy_buffer_drain b n).2.livePages
        = (if (((drain_scan_stage b (buffer_get_pos b 0) (buffer_get_pos b n)
                true true).1.livePages.filter fun p => 0 < page_get_content_len p)
              ++ (pick_scratch (drain_scan_stage b (buffer_get_pos b 0)
                  (buffer_get_pos b n) true true).1.livePages).toList).length = 0
           then [InitPage]
           else ((drain_scan_stage b (buffer_get_pos b 0) (buffer_get_pos b n)
                true true).1.livePages.filter fun p => 0 < page_get_content_len p)
              ++ (pick_scratch (drain_scan_stage b (buffer_get_pos b 0)
                  (buffer_get_pos b n) true true).1.livePages).toList))
    ∧ (b.pages = none → (bfy_buffer_drain b n).2.livePages.length = 1) := by
  obtain ⟨d1, d2, d3, d4, d5⟩ := drain_range_front_spec b hwf n
  refine ⟨d1, d2, d3, ?_, d4, d5⟩
  intro h0
  subst h0
  refine ⟨by rw [d2, List.drop_zero], by rw [d3]; omega⟩

/-- Claim C7: remove_ntoh_u32 on a buffer holding fewer than 4 bytes
reports the short-read error, but the buffer is not left unchanged: the
available bytes are copied out, zero-padded to the full width, and
drained, leaving the buffer empty. -/
theorem c7_short_read_error_yet_drains (b : Buffer) (hwf : BufferWF b) (hshort : b.content_len < 4) :
    (bfy_buffer_remove_ntoh_u32 b).2.1 = true ∧
    (bfy_buffer_remove_ntoh_u32 b).1
        = b.content ++ List.replicate (4 - b.content_len) 0 ∧
    (bfy_buffer_remove_ntoh_u32 b).2.2.content = b.content.drop (min 4 b.content_len) ∧
    (bfy_buffer_remove_ntoh_u32 b).2.2.content = [] ∧
    (bfy_buffer_remove_ntoh_u32 b).2.2.content_len = 0 := by
  obtain ⟨r1, r2⟩ := remove_front_spec b hwf 4
  obtain ⟨d1, d2, d3, d4, d5⟩ := drain_range_front_spec b hwf 4
  have hmin : min 4 b.content_len = b.content_len := by omega
  have htake : b.content.take (min 4 b.content_len) = b.content := by
    rw [hmin]
    exact List.take_of_length_le (by rw [content_length_clen b hwf])
  have hlen1 : (bfy_buffer_remove b 4).1.length = b.content_len := by
    rw [r1, htake, content_length_clen b hwf]
  unfold bfy_buffer_remove_ntoh_u32
  dsimp only
  refine ⟨?_, ?_, ?_, ?_, ?_⟩
  · exact decide_eq_true (by omega)
  · rw [r1, htake]
    rw [show (b.content ++ List.replicate (4 - b.content.length) 0)
        = b.content ++ List.replicate (4 - b.content_len) 0 from by
      rw [content_length_clen b hwf]]
  · rw [r2, d2]
    have h1 : b.content.drop 4 = [] :=
      List.drop_eq_nil_of_le (by rw [content_length_clen b hwf]; omega)
    have h2 : b.content.drop (min 4 b.content_len) = [] :=
      List.drop_eq_nil_of_le (by rw [content_length_clen b hwf]; omega)
    rw [h1, h2]
  · rw [r2, d2]
    exact List.drop_eq_nil_of_le (by rw [content_length_clen b hwf]; omega)
  · rw [r2, d3]
    omega

/-! Part 9: peek -/

theorem peek_loop_eq (b : Buffer) (nv : Nat) :
    ∀ (fuel : Nat) (it : Iter) (acc : List Iovec) (need : Nat),
      (peek_loop b nv fuel it acc need).1
          = (acc ++ ioVecs b fuel it).take (max acc.length nv) ∧
      (peek_loop b nv fuel it acc need).2 = need + (ioVecs b fuel it).length := by
  intro fuel
  induction fuel with
  | zero =>
    intro it acc need
    unfold peek_loop ioVecs
    constructor
    · rw [List.append_nil, List.take_of_length_le (Nat.le_max_left _ _)]
    · rfl
  | succ fuel ih =>
    intro it acc need
    unfold peek_loop ioVecs
    dsimp only
    cases hn : iter_next_page b it with
    | none =>
      dsimp only
      constructor
      · by_cases hc : acc.length < nv
        · rw [if_pos hc, Nat.max_eq_right (Nat.le_of_lt hc)]
          rw [List.take_of_length_le (by
            rw [List.length_append, List.length_cons, List.length_nil]
            omega)]
        · rw [if_neg hc, Nat.max_eq_left (by omega)]
          rw [List.take_append_of_le_length (le_refl _),
              List.take_of_length_le (le_refl _)]
      · simp
    | some it' =>
      dsimp only
      obtain ⟨ih1, ih2⟩ := ih it'
        (if acc.length < nv then acc ++ [iovec_of b it] else acc) (need + 1)
      constructor
      · rw [ih1]
        by_cases hc : acc.length < nv
        · rw [if_pos hc]
          rw [List.length_append, List.length_cons, List.length_nil]
          rw [Nat.max_eq_right (by omega : acc.length + 1 ≤ nv),
              Nat.max_eq_right (Nat.le_of_lt hc)]
          rw [List.append_assoc, List.singleton_append]
        · rw [if_neg hc]
          rw [Nat.max_eq_left (by omega)]
          rw [List.take_append_of_le_length (le_refl _),
              List.take_append_of_le_length (le_refl _)]
      · rw [ih2, List.length_cons]
        omega

theorem ioVecs_flatten (b : Buffer) (hwf : BufferWF b) :
    ∀ (fuel : Nat) (it : Iter), IterOK b it →
      buffer_count_pages b ≤ it.cur.page_idx + fuel →
      ((ioVecs b fuel it).map (iovec_bytes b)).flatten
        = (b.content.drop it.cur.content_pos).take
            (it.endPos.content_pos - it.cur.content_pos) := by
  intro fuel
  induction fuel with
  | zero =>
    intro it hI hf
    exact absurd hI.1 (by omega)
  | succ fuel ih =>
    intro it hI hf
    unfold ioVecs
    have hhead : iovec_bytes b (iovec_of b it) = iter_io_bytes b it := rfl
    cases hn : iter_next_page b it with
    | none =>
      have hio := iter_next_none b it hI hn
      simp only [List.map_cons, List.map_nil, List.flatten_cons, List.flatten_nil,
        List.append_nil]
      rw [hhead, iter_io_bytes_eq b it hwf hI, hio]
    | some it' =>
      obtain ⟨hI', hc', hi', hp', he'⟩ := iter_next_ok b it it' hI hn
      simp only [List.map_cons, List.flatten_cons]
      rw [hhead, ih it' hI' (by omega)]
      rw [iter_io_bytes_eq b it hwf hI]
      have hsplit : it.endPos.content_pos - it.cur.content_pos
          = it.io_len + (it.endPos.content_pos - it'.cur.content_pos) := by
        obtain ⟨-, -, -, hio, hlt, -⟩ := hI
        obtain ⟨-, -, -, -, hlt', -⟩ := hI'
        rw [he'] at hlt'
        omega
      rw [hsplit, List.take_add, hc', he']
      congr 1
      rw [List.drop_drop]

theorem ioVecs_bounds (b : Buffer) (hwf : BufferWF b) :
    ∀ (fuel : Nat) (it : Iter), IterOK b it →
      ∀ io ∈ ioVecs b fuel it,
        (b.getPage io.page_idx).read_pos ≤ io.off ∧
        io.off + io.len ≤ (b.getPage io.page_idx).write_pos := by
  intro fuel
  induction fuel with
  | zero =>
    intro it hI io hio
    simp [ioVecs] at hio
  | succ fuel ih =>
    intro it hI io hio
    unfold ioVecs at hio
    rcases List.mem_cons.mp hio with h | h
    · obtain ⟨hidx, hgeo, hple, hioe, hlt, hend⟩ := hI
      obtain ⟨hr, hw⟩ := getPage_wf (b := b) it.cur.page_idx hwf
      rw [h]
      unfold iovec_of
      dsimp only
      constructor
      · omega
      · unfold page_get_content_len at hioe hple
        omega
    · cases hn : iter_next_page b it with
      | none =>
        rw [hn] at h
        simp at h
      | some it' =>
        rw [hn] at h
        obtain ⟨hI', -, -, -, -⟩ := iter_next_ok b it it' hI hn
        exact ih it' hI' io h

theorem extent_spec (l : List Page) :
    (∀ p ∈ l.drop (l.length
        - (l.reverse.takeWhile fun q => page_get_content_len q == 0).length),
      page_get_content_len p = 0) ∧
    ((l.length - (l.reverse.takeWhile fun q => page_get_content_len q == 0).length
        = 0)
      ∨ 0 < page_get_content_len (l.getD (l.length
          - (l.reverse.takeWhile fun q => page_get_content_len q == 0).length - 1)
          InitPage)) ∧
    (l.reverse.takeWhile fun q => page_get_content_len q == 0).length ≤ l.length := by
  induction l using List.reverseRecOn with
  | nil =>
    exact ⟨fun p hp => absurd hp (by simp), Or.inl rfl, Nat.le_refl 0⟩
  | append_singleton l a ih =>
    obtain ⟨ih1, ih2, ih3⟩ := ih
    rw [List.reverse_append, List.reverse_singleton, List.singleton_append,
      List.takeWhile_cons]
    by_cases ha : page_get_content_len a = 0
    · rw [if_pos (by simp [ha])]
      rw [List.length_cons, List.length_append, List.length_singleton]
      have hlen : l.length + 1
            - ((l.reverse.takeWhile fun q => page_get_content_len q == 0).length + 1)
          = l.length
            - (l.reverse.takeWhile fun q => page_get_content_len q == 0).length := by
        omega
      rw [hlen]
      refine ⟨?_, ?_, by omega⟩
      · intro p hp
        rw [List.drop_append_eq_append_drop] at hp
        rcases List.mem_append.mp hp with h | h
        · exact ih1 p h
        · have h2 : p ∈ [a] := List.mem_of_mem_drop h
          rw [List.mem_singleton] at h2
          rw [h2]
          exact ha
      · rcases ih2 with h | h
        · exact Or.inl h
        · right
          have hll : 0 < l.length := by
            by_contra h0
            have hnil : l = [] := List.eq_nil_of_length_eq_zero (by omega)
            subst hnil
            exact absurd h (by decide)
          rw [List.getD_append]
          · exact h
          · omega
    · rw [if_neg (by simp [ha])]
      rw [List.length_nil, List.length_append, List.length_singleton, Nat.sub_zero]
      refine ⟨?_, ?_, Nat.zero_le _⟩
      · intro p hp
        rw [List.drop_eq_nil_of_le (by rw [List.length_append]; simp)] at hp
        exact absurd hp (by simp)
      · right
        rw [Nat.add_sub_cancel]
        rw [List.getD_eq_getElem?_getD, List.getElem?_append_right (Nat.le_refl _),
          Nat.sub_self]
        simp only [List.getElem?_cons_zero, Option.getD_some]
        omega

theorem extent_facts (b : Buffer) :
    pageOffSum b (content_page_extent b)
        = pageOffSum b (buffer_count_pages b) ∧
    (∀ m, m < content_page_extent b →
      pageOffSum b m < pageOffSum b (buffer_count_pages b)) ∧
    content_page_extent b ≤ buffer_count_pages b := by
  obtain ⟨h1, h2, h3⟩ := extent_spec b.livePages
  have hxc : content_page_extent b ≤ buffer_count_pages b := by
    unfold content_page_extent buffer_count_pages
    omega
  have hF1 : pageOffSum b (content_page_extent b)
      = pageOffSum b (buffer_count_pages b) := by
    rw [pageOffSum_total]
    unfold pageOffSum
    conv_rhs => rw [← List.take_append_drop (content_page_extent b) b.livePages]
    rw [List.map_append, List.sum_append]
    have hz : ((b.livePages.drop (content_page_extent b)).map
        page_get_content_len).sum = 0 := by
      apply List.sum_eq_zero
      intro x hx
      rw [List.mem_map] at hx
      obtain ⟨p, hp, hpx⟩ := hx
      rw [← hpx]
      exact h1 p hp
    omega
  refine ⟨hF1, ?_, hxc⟩
  intro m hm
  have hx0 : content_page_extent b ≠ 0 := by omega
  have hlast : 0 < page_get_content_len
      (b.getPage (content_page_extent b - 1)) := by
    rcases h2 with h | h
    · exact absurd h hx0
    · exact h
  have hsucc := pageOffSum_succ b (content_page_extent b - 1) (by omega)
  rw [show content_page_extent b - 1 + 1 = content_page_extent b from by omega]
    at hsucc
  have hmono := pageOffSum_mono b m (content_page_extent b - 1) (by omega)
  omega

theorem ioVecs_len_pages (b : Buffer) :
    ∀ (fuel : Nat) (it : Iter), IterOK b it →
      it.endPos.content_pos = pageOffSum b (buffer_count_pages b) →
      it.cur.page_pos = 0 →
      buffer_count_pages b ≤ it.cur.page_idx + fuel →
      pageOffSum b (it.cur.page_idx + (ioVecs b fuel it).length)
          = pageOffSum b (buffer_count_pages b) ∧
      (∀ j, j + 1 < (ioVecs b fuel it).length →
        pageOffSum b (it.cur.page_idx + j + 1)
          < pageOffSum b (buffer_count_pages b)) ∧
      1 ≤ (ioVecs b fuel it).length := by
  intro fuel
  induction fuel with
  | zero =>
    intro it hI hend hpp hf
    exact absurd hI.1 (by omega)
  | succ fuel ih =>
    intro it hI hend hpp hf
    unfold ioVecs
    cases hn : iter_next_page b it with
    | none =>
      obtain ⟨hidx, hgeo, hple, hio, hlt, hhi⟩ := hI
      rw [List.length_cons, List.length_nil]
      refine ⟨?_, fun j hj => absurd hj (by omega), Nat.le_refl 1⟩
      rw [Nat.zero_add]
      unfold iter_next_page at hn
      dsimp only at hn
      by_cases hc : buffer_count_pages b ≤ it.cur.page_idx + 1
      · have hle1 := pageOffSum_mono b (buffer_count_pages b)
          (it.cur.page_idx + 1) hc
        have hle2 := pageOffSum_top b (it.cur.page_idx + 1)
        omega
      · rw [if_neg hc] at hn
        by_cases hc2 : it.endPos.content_pos ≤ it.cur.content_pos + it.io_len
        · have hsucc := pageOffSum_succ b it.cur.page_idx hidx
          have htop := pageOffSum_top b (it.cur.page_idx + 1)
          omega
        · rw [if_neg hc2] at hn
          simp at hn
    | some it' =>
      dsimp only
      obtain ⟨hI', hc', hi', hp', he'⟩ := iter_next_ok b it it' hI hn
      have hend' : it'.endPos.content_pos
          = pageOffSum b (buffer_count_pages b) := by
        rw [he']
        exact hend
      obtain ⟨r1, r2, r3⟩ := ih it' hI' hend' hp' (by omega)
      rw [List.length_cons]
      have hcg : it'.cur.page_idx + (ioVecs b fuel it').length
          = it.cur.page_idx + ((ioVecs b fuel it').length + 1) := by
        omega
      refine ⟨by rw [← hcg]; exact r1, ?_, by omega⟩
      intro j hj
      cases j with
      | zero =>
        obtain ⟨hidx', hgeo', hple', hio', hlt', hhi'⟩ := hI'
        rw [hp', Nat.add_zero] at hgeo'
        rw [hend'] at hlt'
        rw [show it.cur.page_idx + 0 + 1 = it'.cur.page_idx from by omega]
        omega
      | succ j' =>
        have := r2 j' (by omega)
        rw [show it.cur.page_idx + (j' + 1) + 1
            = it'.cur.page_idx + j' + 1 from by omega]
        exact this

theorem peek_all_count_extent (b : Buffer) (hwf : BufferWF b)
    (hsz : b.content_len ≤ SIZE_MAX) :
    (bfy_buffer_peek_all b 0).2 = content_page_extent b := by
  have htot := content_len_eq_total b hwf
  obtain ⟨hF1, hF2, hF3⟩ := extent_facts b
  have hpm : buffer_get_pos b SIZE_MAX
      = ⟨buffer_count_pages b, 0, b.content_len⟩ :=
    get_pos_over b SIZE_MAX (by decide) hsz
  unfold bfy_buffer_peek_all bfy_buffer_peek bfy_buffer_peek_range
  rw [get_pos_zero, hpm]
  unfold iter_begin
  dsimp only
  by_cases hc0 : b.content_len ≤ 0
  · rw [if_pos hc0]
    dsimp only
    have hx0 : content_page_extent b = 0 := by
      by_contra hne
      have := hF2 0 (by omega)
      rw [pageOffSum_zero] at this
      omega
    rw [hx0]
  · rw [if_neg hc0]
    dsimp only
    have hIO : IterOK b ⟨⟨0, 0, 0⟩,
        iter_impl_set_io b ⟨0, 0, 0⟩ ⟨buffer_count_pages b, 0, b.content_len⟩,
        ⟨buffer_count_pages b, 0, b.content_len⟩⟩ :=
      ⟨count_pos_of_wf hwf, rfl, Nat.zero_le _, rfl, by dsimp only; omega,
       by dsimp only; omega⟩
    obtain ⟨-, p0n⟩ := peek_loop_eq b 0 (buffer_count_pages b + 1)
      ⟨⟨0, 0, 0⟩,
       iter_impl_set_io b ⟨0, 0, 0⟩ ⟨buffer_count_pages b, 0, b.content_len⟩,
       ⟨buffer_count_pages b, 0, b.content_len⟩⟩ [] 0
    rw [p0n, Nat.zero_add]
    obtain ⟨g1, g2, g3⟩ := ioVecs_len_pages b (buffer_count_pages b + 1)
      ⟨⟨0, 0, 0⟩,
       iter_impl_set_io b ⟨0, 0, 0⟩ ⟨buffer_count_pages b, 0, b.content_len⟩,
       ⟨buffer_count_pages b, 0, b.content_len⟩⟩ hIO
      (by dsimp only; omega) rfl (by dsimp only; omega)
    dsimp only at g1 g2
    simp only [Nat.zero_add] at g1 g2
    have hx1 : 1 ≤ content_page_extent b := by
      by_contra hne
      have hx0 : content_page_extent b = 0 := by omega
      rw [hx0, pageOffSum_zero] at hF1
      omega
    by_cases hcmp : (ioVecs b (buffer_count_pages b + 1)
        ⟨⟨0, 0, 0⟩,
         iter_impl_set_io b ⟨0, 0, 0⟩ ⟨buffer_count_pages b, 0, b.content_len⟩,
         ⟨buffer_count_pages b, 0, b.content_len⟩⟩).length < content_page_extent b
    · have := hF2 _ hcmp
      omega
    · by_cases hcmp2 : content_page_extent b < (ioVecs b (buffer_count_pages b + 1)
          ⟨⟨0, 0, 0⟩,
           iter_impl_set_io b ⟨0, 0, 0⟩ ⟨buffer_count_pages b, 0, b.content_len⟩,
           ⟨buffer_count_pages b, 0, b.content_len⟩⟩).length
      · have hg2 := g2 (content_page_extent b - 1) (by omega)
        rw [show content_page_extent b - 1 + 1 = content_page_extent b
          from by omega] at hg2
        omega
      · omega

theorem peek_range_spec (b : Buffer) (hwf : BufferWF b) (begin_at end_at nv : Nat) :
    (bfy_buffer_peek_range b begin_at end_at nv).2
        = (bfy_buffer_peek_range b begin_at end_at 0).2 ∧
    (bfy_buffer_peek_range b begin_at end_at nv).1
        = (bfy_buffer_peek_range b begin_at end_at
            ((bfy_buffer_peek_range b begin_at end_at 0).2)).1.take nv ∧
    (bfy_buffer_peek_range b begin_at end_at
        ((bfy_buffer_peek_range b begin_at end_at 0).2)).1.length
        = (bfy_buffer_peek_range b begin_at end_at 0).2 ∧
    (((bfy_buffer_peek_range b begin_at end_at
        ((bfy_buffer_peek_range b begin_at end_at 0).2)).1.map
          (iovec_bytes b)).flatten) = range_bytes b begin_at end_at ∧
    (∀ io ∈ (bfy_buffer_peek_range b begin_at end_at
        ((bfy_buffer_peek_range b begin_at end_at 0).2)).1,
      (b.getPage io.page_idx).read_pos ≤ io.off ∧
      io.off + io.len ≤ (b.getPage io.page_idx).write_pos) ∧
    (0 < min begin_at b.content_len →
      min begin_at b.content_len < min end_at b.content_len →
      0 < ((bfy_buffer_peek_range b begin_at end_at
        ((bfy_buffer_peek_range b begin_at end_at 0).2)).1.headD
          ⟨0, 0, 0⟩).len) := by
  have htoteq := content_len_eq_total b hwf
  have hBc : (buffer_get_pos b begin_at).content_pos
      = min begin_at b.content_len := get_pos_cpos b hwf begin_at
  have hEc : (buffer_get_pos b end_at).content_pos
      = min end_at b.content_len := get_pos_cpos b hwf end_at
  have hrb : range_bytes b begin_at end_at
      = (b.content.drop (min begin_at b.content_len)).take
          (min end_at b.content_len - min begin_at b.content_len) := rfl
  unfold bfy_buffer_peek_range
  by_cases hEB : min end_at b.content_len ≤ min begin_at b.content_len
  · have hib : iter_begin b (buffer_get_pos b begin_at)
        (buffer_get_pos b end_at) = none := by
      unfold iter_begin
      rw [if_pos (by omega)]
    rw [hib]
    refine ⟨rfl, by rw [List.take_nil], rfl, ?_, by intro io hio; simp at hio,
      fun h1 h2 => absurd h2 (by omega)⟩
    rw [hrb]
    rw [show min end_at b.content_len - min begin_at b.content_len = 0
      from by omega]
    rw [List.take_zero]
    rfl
  · have hfacts : (buffer_get_pos b begin_at).page_idx < buffer_count_pages b ∧
        pageOffSum b (buffer_get_pos b begin_at).page_idx
            + (buffer_get_pos b begin_at).page_pos
          = min begin_at b.content_len ∧
        (buffer_get_pos b begin_at).page_pos
          ≤ page_get_content_len (b.getPage (buffer_get_pos b begin_at).page_idx) ∧
        (0 < min begin_at b.content_len →
          (buffer_get_pos b begin_at).page_pos
            < page_get_content_len
                (b.getPage (buffer_get_pos b begin_at).page_idx)) := by
      by_cases hb0 : begin_at = 0
      · subst hb0
        rw [get_pos_zero b]
        refine ⟨count_pos_of_wf hwf, ?_, ?_, ?_⟩
        · dsimp only
          rw [pageOffSum_zero]
          omega
        · dsimp only
          omega
        · intro h
          rw [Nat.zero_min] at h
          omega
      · have hblt : begin_at < b.content_len := by omega
        obtain ⟨f1, f2, f3, f4⟩ := get_pos_mid b hwf begin_at (by omega) hblt
        refine ⟨f1, ?_, by omega, fun _ => f3⟩
        rw [show min begin_at b.content_len = begin_at from by omega]
        exact f2
    obtain ⟨hidx0, hgeo0, hple0, hstrict0⟩ := hfacts
    have hib : iter_begin b (buffer_get_pos b begin_at) (buffer_get_pos b end_at)
        = some ⟨buffer_get_pos b begin_at,
            iter_impl_set_io b (buffer_get_pos b begin_at)
              (buffer_get_pos b end_at),
            buffer_get_pos b end_at⟩ := by
      unfold iter_begin
      rw [if_neg (by omega)]
    rw [hib]
    dsimp only
    have hIO : IterOK b ⟨buffer_get_pos b begin_at,
        iter_impl_set_io b (buffer_get_pos b begin_at) (buffer_get_pos b end_at),
        buffer_get_pos b end_at⟩ :=
      ⟨hidx0,
       by dsimp only; rw [hBc]; exact hgeo0,
       hple0,
       rfl,
       by dsimp only; omega,
       by dsimp only; omega⟩
    have hfuel : buffer_count_pages b
        ≤ (⟨buffer_get_pos b begin_at,
            iter_impl_set_io b (buffer_get_pos b begin_at) (buffer_get_pos b end_at),
            buffer_get_pos b end_at⟩ : Iter).cur.page_idx
          + (buffer_count_pages b + 1) := by
      dsimp only
      omega
    obtain ⟨pv, pn⟩ := peek_loop_eq b nv (buffer_count_pages b + 1)
      ⟨buffer_get_pos b begin_at,
       iter_impl_set_io b (buffer_get_pos b begin_at) (buffer_get_pos b end_at),
       buffer_get_pos b end_at⟩ [] 0
    obtain ⟨p0v, p0n⟩ := peek_loop_eq b 0 (buffer_count_pages b + 1)
      ⟨buffer_get_pos b begin_at,
       iter_impl_set_io b (buffer_get_pos b begin_at) (buffer_get_pos b end_at),
       buffer_get_pos b end_at⟩ [] 0
    have hVlen := p0n
    rw [Nat.zero_add] at hVlen pn
    obtain ⟨pfv, pfn⟩ := peek_loop_eq b
      ((ioVecs b (buffer_count_pages b + 1)
        ⟨buffer_get_pos b begin_at,
         iter_impl_set_io b (buffer_get_pos b begin_at) (buffer_get_pos b end_at),
         buffer_get_pos b end_at⟩).length)
      (buffer_count_pages b + 1)
      ⟨buffer_get_pos b begin_at,
       iter_impl_set_io b (buffer_get_pos b begin_at) (buffer_get_pos b end_at),
       buffer_get_pos b end_at⟩ [] 0
    rw [hVlen]
    have hfull : (peek_loop b
        ((ioVecs b (buffer_count_pages b + 1)
          ⟨buffer_get_pos b begin_at,
           iter_impl_set_io b (buffer_get_pos b begin_at) (buffer_get_pos b end_at),
           buffer_get_pos b end_at⟩).length)
        (buffer_count_pages b + 1)
        ⟨buffer_get_pos b begin_at,
         iter_impl_set_io b (buffer_get_pos b begin_at) (buffer_get_pos b end_at),
         buffer_get_pos b end_at⟩ [] 0).1
        = ioVecs b (buffer_count_pages b + 1)
          ⟨buffer_get_pos b begin_at,
           iter_impl_set_io b (buffer_get_pos b begin_at) (buffer_get_pos b end_at),
           buffer_get_pos b end_at⟩ := by
      rw [pfv]
      simp only [List.nil_append, List.length_nil, Nat.zero_max]
      rw [List.take_of_length_le (le_refl _)]
    refine ⟨by rw [pn], ?_, ?_, ?_, ?_, ?_⟩
    · rw [pv, hfull]
      simp only [List.nil_append, List.length_nil, Nat.zero_max]
    · rw [hfull]
    · rw [hfull]
      rw [ioVecs_flatten b hwf _ _ hIO hfuel]
      dsimp only
      rw [hBc, hEc, hrb]
    · intro io hio
      rw [hfull] at hio
      exact ioVecs_bounds b hwf _ _ hIO io hio
    · intro hpos hlt
      rw [hfull]
      unfold ioVecs
      rw [List.headD_cons]
      unfold iovec_of
      dsimp only
      unfold iter_impl_set_io
      have hst := hstrict0 hpos
      rw [hBc, hEc]
      omega

theorem peek_front_spec (b : Buffer) (hwf : BufferWF b) (len nv : Nat) :
    (bfy_buffer_peek b len nv).2 = (bfy_buffer_peek b len 0).2 ∧
    (bfy_buffer_peek b len nv).1
        = (bfy_buffer_peek b len ((bfy_buffer_peek b len 0).2)).1.take nv ∧
    (bfy_buffer_peek b len ((bfy_buffer_peek b len 0).2)).1.length
        = (bfy_buffer_peek b len 0).2 ∧
    (((bfy_buffer_peek b len ((bfy_buffer_peek b len 0).2)).1.map
        (iovec_bytes b)).flatten) = range_bytes b 0 len ∧
    (∀ io ∈ (bfy_buffer_peek b len ((bfy_buffer_peek b len 0).2)).1,
      (b.getPage io.page_idx).read_pos ≤ io.off ∧
      io.off + io.len ≤ (b.getPage io.page_idx).write_pos) := by
  have htot := content_len_eq_total b hwf
  have hecp := get_pos_cpos b hwf len
  have hrb : range_bytes b 0 len = b.content.take (min len b.content_len) := by
    unfold range_bytes content_clip
    rw [Nat.min_eq_left (Nat.zero_le _), List.drop_zero, Nat.sub_zero]
  unfold bfy_buffer_peek bfy_buffer_peek_range
  rw [get_pos_zero]
  unfold iter_begin
  dsimp only
  by_cases hz : (buffer_get_pos b len).content_pos ≤ 0
  · rw [if_pos hz]
    dsimp only
    refine ⟨rfl, by rw [List.take_nil], rfl, ?_, by intro io hio; simp at hio⟩
    rw [hrb]
    have h0 : min len b.content_len = 0 := by omega
    rw [h0, List.take_zero]
    rfl
  · rw [if_neg hz]
    dsimp only
    have hIO : IterOK b ⟨⟨0, 0, 0⟩,
        iter_impl_set_io b ⟨0, 0, 0⟩ (buffer_get_pos b len), buffer_get_pos b len⟩ :=
      ⟨count_pos_of_wf hwf, rfl, Nat.zero_le _, rfl, by dsimp only; omega,
       by dsimp only; omega⟩
    have hfuel : buffer_count_pages b
        ≤ (⟨⟨0, 0, 0⟩, iter_impl_set_io b ⟨0, 0, 0⟩ (buffer_get_pos b len),
            buffer_get_pos b len⟩ : Iter).cur.page_idx + (buffer_count_pages b + 1) := by
      dsimp only
      omega
    obtain ⟨pv, pn⟩ := peek_loop_eq b nv (buffer_count_pages b + 1)
      ⟨⟨0, 0, 0⟩, iter_impl_set_io b ⟨0, 0, 0⟩ (buffer_get_pos b len),
       buffer_get_pos b len⟩ [] 0
    obtain ⟨p0v, p0n⟩ := peek_loop_eq b 0 (buffer_count_pages b + 1)
      ⟨⟨0, 0, 0⟩, iter_impl_set_io b ⟨0, 0, 0⟩ (buffer_get_pos b len),
       buffer_get_pos b len⟩ [] 0
    have hVlen := p0n
    rw [Nat.zero_add] at hVlen pn
    obtain ⟨pfv, pfn⟩ := peek_loop_eq b
      ((ioVecs b (buffer_count_pages b + 1)
        ⟨⟨0, 0, 0⟩, iter_impl_set_io b ⟨0, 0, 0⟩ (buffer_get_pos b len),
         buffer_get_pos b len⟩).length)
      (buffer_count_pages b + 1)
      ⟨⟨0, 0, 0⟩, iter_impl_set_io b ⟨0, 0, 0⟩ (buffer_get_pos b len),
       buffer_get_pos b len⟩ [] 0
    rw [hVlen]
    refine ⟨by rw [pn], ?_, ?_, ?_, ?_⟩
    · rw [pv, pfv]
      simp only [List.nil_append, List.length_nil, Nat.zero_max]
      rw [List.take_of_length_le (le_refl _)]
    · rw [pfv]
      simp only [List.nil_append, List.length_nil, Nat.zero_max]
      rw [List.take_of_length_le (le_refl _)]
    · rw [pfv]
      simp only [List.nil_append, List.length_nil, Nat.zero_max]
      rw [List.take_of_length_le (le_refl _)]
      rw [ioVecs_flatten b hwf _ _ hIO hfuel]
      dsimp only
      rw [List.drop_zero, Nat.sub_zero, hecp, hrb]
    · intro io hio
      rw [pfv] at hio
      simp only [List.nil_append, List.length_nil, Nat.zero_max] at hio
      rw [List.take_of_length_le (le_refl _)] at hio
      exact ioVecs_bounds b hwf _ _ hIO io hio

/-- Claim C5: for every well-formed buffer and content range, peek returns
the iovec count the whole range needs, independent of the output capacity,
and fills the first nv of those iovecs; the full iovec list tiles the
range in order, each entry staying inside its page live region; for a
nonzero range start the walk begins strictly inside a page that holds
content, so empty pages before the start are skipped, while an empty page
inside the walked range produces a counted zero-length iovec; hence the
whole-buffer zero-capacity count equals the content page extent of the
buffer, which exceeds the non-empty page count when an empty page
precedes content. -/
theorem c5_peek_count_and_tiling (b : Buffer) (hwf : BufferWF b)
    (hsz : b.content_len ≤ SIZE_MAX) (begin_at end_at nv : Nat) :
    ((bfy_buffer_peek_range b begin_at end_at nv).2
        = (bfy_buffer_peek_range b begin_at end_at 0).2 ∧
    (bfy_buffer_peek_range b begin_at end_at nv).1
        = (bfy_buffer_peek_range b begin_at end_at
            ((bfy_buffer_peek_range b begin_at end_at 0).2)).1.take nv ∧
    (bfy_buffer_peek_range b begin_at end_at
        ((bfy_buffer_peek_range b begin_at end_at 0).2)).1.length
        = (bfy_buffer_peek_range b begin_at end_at 0).2 ∧
    (((bfy_buffer_peek_range b begin_at end_at
        ((bfy_buffer_peek_range b begin_at end_at 0).2)).1.map
          (iovec_bytes b)).flatten) = range_bytes b begin_at end_at ∧
    (∀ io ∈ (bfy_buffer_peek_range b begin_at end_at
        ((bfy_buffer_peek_range b begin_at end_at 0).2)).1,
      (b.getPage io.page_idx).read_pos ≤ io.off ∧
      io.off + io.len ≤ (b.getPage io.page_idx).write_pos) ∧
    (0 < min begin_at b.content_len →
      min begin_at b.content_len < min end_at b.content_len →
      0 < ((bfy_buffer_peek_range b begin_at end_at
        ((bfy_buffer_peek_range b begin_at end_at 0).2)).1.headD
          ⟨0, 0, 0⟩).len)) ∧
    (bfy_buffer_peek_all b 0).2 = content_page_extent b ∧
    ((bfy_buffer_peek_all c5_buf 0).2 = content_page_extent c5_buf ∧
     nonempty_page_count c5_buf < (bfy_buffer_peek_all c5_buf 0).2) :=
  ⟨peek_range_spec b hwf begin_at end_at nv,
   peek_all_count_extent b hwf hsz, by decide, by decide⟩

/-! Part 10: destruct and unref events -/

theorem flatten_map_nil_of (f : Page → List BufEvent) :
    ∀ (l : List Page), (∀ w ∈ l, f w = []) → ((l.map f).flatten = []) := by
  intro l
  induction l with
  | nil => intro h; rfl
  | cons x rest ih =>
    intro h
    simp only [List.map_cons, List.flatten_cons]
    rw [h x (List.mem_cons_self x rest), ih (fun w hw => h w (List.mem_cons_of_mem x hw)),
        List.nil_append]

theorem relmap_split (f : Page → List BufEvent) (b : Buffer) (i : Nat)
    (hi : i < buffer_count_pages b) :
    (b.livePages.map f).flatten
      = ((b.livePages.take i).map f).flatten ++ f (b.getPage i)
          ++ ((b.livePages.drop (i + 1)).map f).flatten := by
  conv_lhs => rw [livePages_split b i hi]
  simp only [List.map_append, List.map_cons, List.flatten_append, List.flatten_cons]
  rw [List.append_assoc]

theorem relmap_set_split (f : Page → List BufEvent) (b : Buffer) (i : Nat)
    (hi : i < buffer_count_pages b) (q : Page) :
    (((b.setPage i q).livePages).map f).flatten
      = ((b.livePages.take i).map f).flatten ++ f q
          ++ ((b.livePages.drop (i + 1)).map f).flatten := by
  rw [livePages_set_split b i hi q]
  simp only [List.map_append, List.map_cons, List.flatten_append, List.flatten_cons]
  rw [List.append_assoc]

theorem getPage_out_of_range (b : Buffer) (i : Nat)
    (hi : buffer_count_pages b ≤ i) : b.getPage i = InitPage := by
  unfold Buffer.getPage
  exact List.getD_eq_default _ _ hi

theorem len_zero_of_suffix_zero (b : Buffer) (idx : Nat)
    (hid : idx < buffer_count_pages b)
    (htotal : pageOffSum b (buffer_count_pages b)
      = pageOffSum b idx + page_get_content_len (b.getPage idx)) :
    ∀ j, idx < j → page_get_content_len (b.getPage j) = 0 := by
  intro j hj
  by_cases hjc : j < buffer_count_pages b
  · have h1 : pageOffSum b (idx + 1)
        = pageOffSum b idx + page_get_content_len (b.getPage idx) :=
      pageOffSum_succ b idx hid
    have h2 : pageOffSum b (j + 1)
        = pageOffSum b j + page_get_content_len (b.getPage j) :=
      pageOffSum_succ b j hjc
    have h3 : pageOffSum b (idx + 1) ≤ pageOffSum b j :=
      pageOffSum_mono b _ _ (by omega)
    have h4 : pageOffSum b (j + 1) ≤ pageOffSum b (buffer_count_pages b) :=
      pageOffSum_top b _
    omega
  · rw [getPage_out_of_range b j (by omega)]
    rfl

theorem len_zero_of_total_zero (b : Buffer)
    (h : pageOffSum b (buffer_count_pages b) = 0) :
    ∀ i, page_get_content_len (b.getPage i) = 0 := by
  intro i
  by_cases hi : i < buffer_count_pages b
  · have h1 := pageOffSum_succ b i hi
    have h2 := pageOffSum_top b (i + 1)
    omega
  · rw [getPage_out_of_range b i (by omega)]
    rfl

theorem prefix_take_init (b : Buffer) (idx : Nat)
    (hpre : ∀ j, j < idx → b.getPage j = InitPage) :
    ∀ w ∈ b.livePages.take idx, w = InitPage := by
  intro w hw
  obtain ⟨j, hj, hEq⟩ := List.getElem_of_mem hw
  have hjl : j < b.livePages.length := by
    have := hj
    rw [List.length_take] at this
    omega
  have hji : j < idx := by
    have := hj
    rw [List.length_take] at this
    omega
  rw [List.getElem_take] at hEq
  have hg : b.getPage j = w := by
    unfold Buffer.getPage
    rw [List.getD_eq_getElem _ _ hjl]
    exact hEq
  rw [← hg]
  exact hpre j hji

theorem mem_livePages_getPage (b : Buffer) (w : Page) (hw : w ∈ b.livePages) :
    ∃ i, i < buffer_count_pages b ∧ b.getPage i = w := by
  obtain ⟨j, hj, hEq⟩ := List.getElem_of_mem hw
  refine ⟨j, hj, ?_⟩
  unfold Buffer.getPage
  rw [List.getD_eq_getElem _ _ hj]
  exact hEq

theorem unref_events_append (l1 l2 : List BufEvent) :
    unref_events (l1 ++ l2) = unref_events l1 ++ unref_events l2 := by
  unfold unref_events
  rw [List.filter_append]

theorem unref_events_flatten_releases (l : List Page) :
    unref_events ((l.map release_page_events).flatten)
      = (l.map release_page_events).flatten := by
  unfold unref_events
  rw [List.filter_eq_self]
  intro e he
  rw [List.mem_flatten] at he
  obtain ⟨ll, hll, hel⟩ := he
  rw [List.mem_map] at hll
  obtain ⟨p, -, hp⟩ := hll
  rw [← hp] at hel
  unfold release_page_events at hel
  cases hcb : p.unref_cb with
  | none =>
    rw [hcb] at hel
    exact absurd hel (List.not_mem_nil e)
  | some cb =>
    rw [hcb] at hel
    rcases List.mem_cons.mp hel with h | h
    · rw [h]
    · exact absurd h (List.not_mem_nil e)

theorem check_changed_events_cases (z : Buffer) :
    (buffer_check_changed_cb z).events = z.events ∨
    ∃ o a d, (buffer_check_changed_cb z).events = z.events ++ [.changed o a d] := by
  unfold buffer_check_changed_cb
  split
  · exact Or.inl rfl
  split
  · exact Or.inl rfl
  split
  · exact Or.inl rfl
  split
  · exact Or.inl rfl
  · exact Or.inr ⟨z.orig_size, z.n_added, z.n_deleted, rfl⟩

theorem record_removed_events_cases (x : Buffer) (m : Nat) :
    (buffer_record_content_removed x m).events = x.events ∨
    ∃ o a d, (buffer_record_content_removed x m).events = x.events ++ [.changed o a d] := by
  unfold buffer_record_content_removed
  dsimp only
  split
  · exact check_changed_events_cases _
  · exact Or.inl rfl

theorem unref_events_record_removed (x : Buffer) (m : Nat) :
    unref_events (buffer_record_content_removed x m).events
      = unref_events x.events := by
  rcases record_removed_events_cases x m with h | ⟨o, a, d, h⟩
  · rw [h]
  · rw [h, unref_events_append]
    have : unref_events [BufEvent.changed o a d] = [] := rfl
    rw [this, List.append_nil]

theorem compact_go_events :
    ∀ (ws : List Page) (r : Page) (ev : List BufEvent),
      (∀ w ∈ ws, page_get_content_len w = 0) →
      (compact_go true false ws r ev).2.2.2
        = ev ++ (ws.map release_page_events).flatten := by
  intro ws
  induction ws with
  | nil =>
    intro r ev hall
    simp [compact_go]
  | cons w rest ih =>
    intro r ev hall
    unfold compact_go
    dsimp only
    rw [if_neg (by
      have := hall w (List.mem_cons_self w rest)
      omega)]
    rw [if_neg (by simp)]
    rw [if_pos rfl]
    dsimp only
    rw [ih r (ev ++ release_page_events w)
          (fun x hx => hall x (List.mem_cons_of_mem w hx))]
    simp [List.append_assoc]

theorem compact_events_empty (R : Buffer) (hcnt : 0 < buffer_count_pages R)
    (hall : ∀ w ∈ R.livePages, page_get_content_len w = 0) :
    (buffer_compact R true false).events
      = R.events ++ (R.livePages.map release_page_events).flatten := by
  unfold buffer_compact
  rw [if_pos hcnt]
  have hgo := compact_go_events R.livePages InitPage R.events hall
  cases hp : R.pages with
  | none =>
    dsimp only
    exact hgo
  | some arr =>
    dsimp only
    exact hgo

theorem destruct_scan_loop :
    ∀ (fuel : Nat) (b : Buffer) (it : Iter) (nd : Nat),
      it.cur.page_pos = 0 →
      it.cur.page_idx < buffer_count_pages b →
      (∀ j, j < it.cur.page_idx → b.getPage j = InitPage) →
      pageOffSum b it.cur.page_idx = 0 →
      it.io_len = min (page_get_content_len (b.getPage it.cur.page_idx))
                      (it.endPos.content_pos - it.cur.content_pos) →
      it.cur.content_pos < it.endPos.content_pos →
      it.endPos.content_pos
          = it.cur.content_pos + pageOffSum b (buffer_count_pages b) →
      (∀ i, PageWF (b.getPage i)) →
      buffer_count_pages b ≤ it.cur.page_idx + fuel →
      (drain_scan_loop true false fuel b it nd).1.events
          ++ ((((drain_scan_loop true false fuel b it nd).1.livePages).map
                release_page_events).flatten)
        = b.events ++ ((b.livePages.map release_page_events).flatten) ∧
      (∀ i, page_get_content_len
          ((drain_scan_loop true false fuel b it nd).1.getPage i) = 0) ∧
      buffer_count_pages (drain_scan_loop true false fuel b it nd).1
          = buffer_count_pages b ∧
      (drain_scan_loop true false fuel b it nd).1.n_pages = b.n_pages ∧
      ((drain_scan_loop true false fuel b it nd).1.pages = none ↔ b.pages = none) := by
  intro fuel
  induction fuel with
  | zero =>
    intro b it nd h1 h2 hpre h3 h4 h5 h6 h7 hf
    omega
  | succ fuel ih =>
    intro b it nd h1 h2 hpre h3 h4 h5 h6 h7 hf
    unfold drain_scan_loop
    dsimp only
    have hlen_le : page_get_content_len (b.getPage it.cur.page_idx)
        ≤ pageOffSum b (buffer_count_pages b) := by
      have hs := pageOffSum_succ b it.cur.page_idx h2
      have ht := pageOffSum_top b (it.cur.page_idx + 1)
      omega
    have hfull : page_get_content_len (b.getPage it.cur.page_idx) ≤ it.io_len := by
      omega
    have hio : it.io_len = page_get_content_len (b.getPage it.cur.page_idx) := by
      omega
    rw [if_pos hfull]
    have main : ∀ (B : Buffer) (nd2 : Nat),
        B.events ++ (((B.livePages).map release_page_events).flatten)
          = b.events ++ ((b.livePages.map release_page_events).flatten) →
        (∀ j, j < it.cur.page_idx + 1 → B.getPage j = InitPage) →
        pageOffSum B (it.cur.page_idx + 1) = 0 →
        buffer_count_pages B = buffer_count_pages b →
        B.n_pages = b.n_pages →
        (B.pages = none ↔ b.pages = none) →
        (∀ i, PageWF (B.getPage i)) →
        pageOffSum B (buffer_count_pages B)
            + page_get_content_len (b.getPage it.cur.page_idx)
          = pageOffSum b (buffer_count_pages b) →
        (match iter_next_page B it with
          | none => (B, nd2)
          | some it' => drain_scan_loop true false fuel B it' nd2).1.events
            ++ ((((match iter_next_page B it with
              | none => (B, nd2)
              | some it' =>
                  drain_scan_loop true false fuel B it' nd2).1.livePages).map
                    release_page_events).flatten)
          = b.events ++ ((b.livePages.map release_page_events).flatten) ∧
        (∀ i, page_get_content_len ((match iter_next_page B it with
          | none => (B, nd2)
          | some it' => drain_scan_loop true false fuel B it' nd2).1.getPage i)
            = 0) ∧
        buffer_count_pages (match iter_next_page B it with
          | none => (B, nd2)
          | some it' => drain_scan_loop true false fuel B it' nd2).1
          = buffer_count_pages b ∧
        (match iter_next_page B it with
          | none => (B, nd2)
          | some it' => drain_scan_loop true false fuel B it' nd2).1.n_pages
          = b.n_pages ∧
        ((match iter_next_page B it with
          | none => (B, nd2)
          | some it' => drain_scan_loop true false fuel B it' nd2).1.pages = none
          ↔ b.pages = none) := by
      intro B nd2 hEv hBpre hBoff hBcnt hBn hBp hBwf hBtot
      cases hnx : iter_next_page B it with
      | none =>
        dsimp only
        have htot0 : pageOffSum B (buffer_count_pages B) = 0 := by
          unfold iter_next_page at hnx
          dsimp only at hnx
          by_cases hc : buffer_count_pages B ≤ it.cur.page_idx + 1
          · have hcc : buffer_count_pages B = it.cur.page_idx + 1 := by omega
            rw [hcc]
            exact hBoff
          · rw [if_neg hc] at hnx
            by_cases hc2 : it.endPos.content_pos ≤ it.cur.content_pos + it.io_len
            · omega
            · rw [if_neg hc2] at hnx
              simp at hnx
        exact ⟨hEv, len_zero_of_total_zero B htot0, hBcnt, hBn, hBp⟩
      | some it' =>
        dsimp only
        have hguard : ¬ buffer_count_pages B ≤ it.cur.page_idx + 1
            ∧ ¬ it.endPos.content_pos ≤ it.cur.content_pos + it.io_len := by
          unfold iter_next_page at hnx
          dsimp only at hnx
          by_cases hc : buffer_count_pages B ≤ it.cur.page_idx + 1
          · rw [if_pos hc] at hnx
            simp at hnx
          · rw [if_neg hc] at hnx
            by_cases hc2 : it.endPos.content_pos ≤ it.cur.content_pos + it.io_len
            · rw [if_pos hc2] at hnx
              simp at hnx
            · exact ⟨hc, hc2⟩
        have he : it' = ⟨⟨it.cur.page_idx + 1, 0, it.cur.content_pos + it.io_len⟩,
            iter_impl_set_io B
              ⟨it.cur.page_idx + 1, 0, it.cur.content_pos + it.io_len⟩ it.endPos,
            it.endPos⟩ := by
          unfold iter_next_page at hnx
          dsimp only at hnx
          rw [if_neg hguard.1, if_neg hguard.2] at hnx
          exact (Option.some.inj hnx).symm
        obtain ⟨r1, r2, r3, r4, r5⟩ :=
          ih B it' nd2
            (by rw [he])
            (by rw [he]; dsimp only; omega)
            (by rw [he]; dsimp only; exact hBpre)
            (by rw [he]; dsimp only; exact hBoff)
            (by rw [he]; unfold iter_impl_set_io; dsimp only; rw [Nat.sub_zero])
            (by rw [he]; dsimp only; omega)
            (by rw [he]; dsimp only; omega)
            hBwf
            (by rw [he]; dsimp only; omega)
        refine ⟨?_, r2, by rwa [hBcnt] at r3, by rwa [hBn] at r4, ?_⟩
        · rw [r1, hEv]
        · rw [r5, hBp]
    rw [if_neg (show ¬((false : Bool) = true
          ∧ page_is_recyclable (b.getPage it.cur.page_idx) = true) by simp)]
    rw [if_pos (show (true : Bool) = true from rfl)]
    dsimp only
    have hstep := scan_step_full b it.cur.page_idx InitPage h2 rfl initPage_wf h3 h7
    have hpre_nil : ((b.livePages.take it.cur.page_idx).map release_page_events).flatten
        = [] := by
      refine flatten_map_nil_of _ _ ?_
      intro w hw
      rw [prefix_take_init b it.cur.page_idx hpre w hw]
      rfl
    have hsplitb : (b.livePages.map release_page_events).flatten
        = release_page_events (b.getPage it.cur.page_idx)
          ++ (((b.livePages.drop (it.cur.page_idx + 1)).map release_page_events).flatten) := by
      rw [relmap_split release_page_events b it.cur.page_idx h2, hpre_nil, List.nil_append]
    have hsplitB : (((b.setPage it.cur.page_idx InitPage).livePages).map
          release_page_events).flatten
        = (((b.livePages.drop (it.cur.page_idx + 1)).map release_page_events).flatten) := by
      rw [relmap_set_split release_page_events b it.cur.page_idx h2 InitPage, hpre_nil]
      rw [show release_page_events InitPage = [] from rfl]
      rw [List.nil_append, List.nil_append]
    have hcons : ({ b.setPage it.cur.page_idx InitPage with
          events := b.events ++ release_page_events (b.getPage it.cur.page_idx) }
            : Buffer).events
        ++ (((({ b.setPage it.cur.page_idx InitPage with
            events := b.events ++ release_page_events (b.getPage it.cur.page_idx) }
              : Buffer).livePages).map release_page_events).flatten)
      = b.events ++ ((b.livePages.map release_page_events).flatten) := by
      show (b.events ++ release_page_events (b.getPage it.cur.page_idx))
          ++ ((((b.setPage it.cur.page_idx InitPage).livePages).map
                release_page_events).flatten)
        = b.events ++ ((b.livePages.map release_page_events).flatten)
      rw [hsplitB, hsplitb, List.append_assoc]
    have hBpre : ∀ j, j < it.cur.page_idx + 1 →
        ({ b.setPage it.cur.page_idx InitPage with
          events := b.events ++ release_page_events (b.getPage it.cur.page_idx) }
            : Buffer).getPage j = InitPage := by
      intro j hj
      rw [getPage_events]
      by_cases hji : j = it.cur.page_idx
      · rw [hji]
        exact getPage_setPage_self b _ InitPage h2
      · rw [getPage_setPage_other b _ j InitPage h2 hji]
        exact hpre j (by omega)
    have hBoff : pageOffSum ({ b.setPage it.cur.page_idx InitPage with
          events := b.events ++ release_page_events (b.getPage it.cur.page_idx) }
            : Buffer) (it.cur.page_idx + 1) = 0 := by
      rw [pageOffSum_events]
      exact hstep.2.2.2.2.2.2.1
    have hBcnt : buffer_count_pages ({ b.setPage it.cur.page_idx InitPage with
          events := b.events ++ release_page_events (b.getPage it.cur.page_idx) }
            : Buffer) = buffer_count_pages b := by
      rw [count_events]
      exact hstep.2.1
    have hBwf : ∀ i, PageWF (({ b.setPage it.cur.page_idx InitPage with
          events := b.events ++ release_page_events (b.getPage it.cur.page_idx) }
            : Buffer).getPage i) := by
      intro i
      rw [getPage_events]
      exact hstep.2.2.2.2.2.2.2.1 i
    have hBtot : pageOffSum ({ b.setPage it.cur.page_idx InitPage with
          events := b.events ++ release_page_events (b.getPage it.cur.page_idx) }
            : Buffer)
          (buffer_count_pages ({ b.setPage it.cur.page_idx InitPage with
            events := b.events ++ release_page_events (b.getPage it.cur.page_idx) }
              : Buffer))
          + page_get_content_len (b.getPage it.cur.page_idx)
        = pageOffSum b (buffer_count_pages b) := by
      rw [count_events, pageOffSum_events]
      exact hstep.2.2.2.2.2.2.2.2
    exact main _ _ hcons hBpre hBoff hBcnt hstep.2.2.1 hstep.2.2.2.2.1 hBwf hBtot

theorem destruct_events (b : Buffer) (hwf : BufferWF b)
    (hsz : b.content_len ≤ SIZE_MAX) :
    unref_events (bfy_buffer_destruct b).events
      = unref_events b.events ++ ((b.livePages.map release_page_events).flatten) := by
  have hsm : SIZE_MAX ≠ 0 := by decide
  have hp0 : buffer_get_pos b 0 = ⟨0, 0, 0⟩ := get_pos_zero b
  have hpm : buffer_get_pos b SIZE_MAX = ⟨buffer_count_pages b, 0, b.content_len⟩ :=
    get_pos_over b SIZE_MAX hsm hsz
  have hform : (bfy_buffer_destruct b).events
      = (buffer_record_content_removed
          (if (buffer_compact (drain_scan_stage b (buffer_get_pos b 0)
                  (buffer_get_pos b SIZE_MAX) true false).1 true false).n_pages = 0
              ∧ (buffer_compact (drain_scan_stage b (buffer_get_pos b 0)
                  (buffer_get_pos b SIZE_MAX) true false).1 true false).pages ≠ none
           then { buffer_compact (drain_scan_stage b (buffer_get_pos b 0)
                  (buffer_get_pos b SIZE_MAX) true false).1 true false with pages := none }
           else buffer_compact (drain_scan_stage b (buffer_get_pos b 0)
                  (buffer_get_pos b SIZE_MAX) true false).1 true false)
          (drain_scan_stage b (buffer_get_pos b 0)
            (buffer_get_pos b SIZE_MAX) true false).2).events := rfl
  rw [hform, hp0, hpm]
  have hscan : ((drain_scan_stage b ⟨0, 0, 0⟩ ⟨buffer_count_pages b, 0, b.content_len⟩
          true false).1.events
        ++ ((((drain_scan_stage b ⟨0, 0, 0⟩ ⟨buffer_count_pages b, 0, b.content_len⟩
            true false).1.livePages).map release_page_events).flatten)
        = b.events ++ ((b.livePages.map release_page_events).flatten)) ∧
      (∀ i, page_get_content_len ((drain_scan_stage b ⟨0, 0, 0⟩
          ⟨buffer_count_pages b, 0, b.content_len⟩ true false).1.getPage i) = 0) ∧
      buffer_count_pages (drain_scan_stage b ⟨0, 0, 0⟩
          ⟨buffer_count_pages b, 0, b.content_len⟩ true false).1
        = buffer_count_pages b := by
    unfold drain_scan_stage
    by_cases hc0 : b.content_len = 0
    · have hib : iter_begin b ⟨0, 0, 0⟩ ⟨buffer_count_pages b, 0, b.content_len⟩
          = none := by
        unfold iter_begin
        rw [if_pos (by dsimp only; omega)]
      rw [hib]
      dsimp only
      refine ⟨rfl, ?_, rfl⟩
      apply len_zero_of_total_zero
      have := content_len_eq_total b hwf
      omega
    · have hib : iter_begin b ⟨0, 0, 0⟩ ⟨buffer_count_pages b, 0, b.content_len⟩
          = some ⟨⟨0, 0, 0⟩,
              iter_impl_set_io b ⟨0, 0, 0⟩ ⟨buffer_count_pages b, 0, b.content_len⟩,
              ⟨buffer_count_pages b, 0, b.content_len⟩⟩ := by
        unfold iter_begin
        rw [if_neg (by dsimp only; omega)]
      rw [hib]
      dsimp only
      have hl := destruct_scan_loop (buffer_count_pages b + 1) b
        ⟨⟨0, 0, 0⟩,
          iter_impl_set_io b ⟨0, 0, 0⟩ ⟨buffer_count_pages b, 0, b.content_len⟩,
          ⟨buffer_count_pages b, 0, b.content_len⟩⟩ 0
        rfl (count_pos_of_wf hwf) (fun j hj => absurd hj (by dsimp only; omega)) rfl
        (by unfold iter_impl_set_io; dsimp only; rw [Nat.sub_zero])
        (by dsimp only; omega)
        (by dsimp only; rw [Nat.zero_add]; exact content_len_eq_total b hwf)
        (fun i => getPage_wf i hwf)
        (by omega)
      exact ⟨hl.1, hl.2.1, hl.2.2.1⟩
  have hcntS : 0 < buffer_count_pages (drain_scan_stage b ⟨0, 0, 0⟩
      ⟨buffer_count_pages b, 0, b.content_len⟩ true false).1 := by
    rw [hscan.2.2]
    exact count_pos_of_wf hwf
  have hmem : ∀ w ∈ (drain_scan_stage b ⟨0, 0, 0⟩
      ⟨buffer_count_pages b, 0, b.content_len⟩ true false).1.livePages,
      page_get_content_len w = 0 := by
    intro w hw
    obtain ⟨i, hi, hg⟩ := mem_livePages_getPage _ w hw
    rw [← hg]
    exact hscan.2.1 i
  have hev_bc := compact_events_empty
    (drain_scan_stage b ⟨0, 0, 0⟩ ⟨buffer_count_pages b, 0, b.content_len⟩ true false).1
    hcntS hmem
  rw [unref_events_record_removed]
  have hite : (if (buffer_compact (drain_scan_stage b ⟨0, 0, 0⟩
          ⟨buffer_count_pages b, 0, b.content_len⟩ true false).1 true false).n_pages = 0
        ∧ (buffer_compact (drain_scan_stage b ⟨0, 0, 0⟩
          ⟨buffer_count_pages b, 0, b.content_len⟩ true false).1 true false).pages ≠ none
      then { buffer_compact (drain_scan_stage b ⟨0, 0, 0⟩
          ⟨buffer_count_pages b, 0, b.content_len⟩ true false).1 true false
          with pages := none }
      else buffer_compact (drain_scan_stage b ⟨0, 0, 0⟩
          ⟨buffer_count_pages b, 0, b.content_len⟩ true false).1 true false).events
      = (buffer_compact (drain_scan_stage b ⟨0, 0, 0⟩
          ⟨buffer_count_pages b, 0, b.content_len⟩ true false).1 true false).events := by
    split
    · rfl
    · rfl
  rw [hite, hev_bc, hscan.1, unref_events_append, unref_events_flatten_releases]

/-! Part 11: search -/

theorem match_at_clip_cons (c : Nat) (rest needle : List Nat) (j : Nat) :
    match_at_clip (c :: rest) needle (j + 1) ↔ match_at_clip rest needle j := by
  unfold match_at_clip
  rw [List.drop_succ_cons]
  rw [show (c :: rest).length - (j + 1) = rest.length - j from by
    rw [List.length_cons]; omega]

theorem search_go_spec (needle : List Nat) (hk : needle ≠ []) :
    ∀ (l : List Nat) (off : Nat),
      ∃ r, buffer_search_iovec_go needle l off = off + r ∧ r ≤ l.length ∧
        (∀ j, j < r → ¬ match_at_clip l needle j) ∧
        (r < l.length → match_at_clip l needle r) := by
  intro l
  induction l with
  | nil =>
    intro off
    exact ⟨0, rfl, Nat.le_refl 0, fun j hj => absurd hj (by omega),
      fun h => absurd h (by simp)⟩
  | cons c rest ih =>
    intro off
    unfold buffer_search_iovec_go
    by_cases hc : c = needle.headD 0
    · rw [if_pos hc]
      dsimp only
      by_cases hm : (c :: rest).take (min needle.length (rest.length + 1))
          = needle.take (min needle.length (rest.length + 1))
      · rw [if_pos hm]
        refine ⟨0, rfl, Nat.zero_le _, fun j hj => absurd hj (by omega), fun h => ?_⟩
        unfold match_at_clip
        rw [List.drop_zero]
        rw [show (c :: rest).length - 0 = rest.length + 1 from by simp]
        exact hm
      · rw [if_neg hm]
        obtain ⟨r, hr, hrle, hmin, hcand⟩ := ih (off + 1)
        refine ⟨r + 1, by rw [hr]; omega, by rw [List.length_cons]; omega, ?_, ?_⟩
        · intro j hj
          cases j with
          | zero =>
            intro hmac
            apply hm
            unfold match_at_clip at hmac
            rw [List.drop_zero] at hmac
            rw [show (c :: rest).length - 0 = rest.length + 1 from by simp] at hmac
            exact hmac
          | succ j =>
            intro hmac
            exact hmin j (by omega) ((match_at_clip_cons c rest needle j).mp hmac)
        · intro hlt
          have hr2 : r < rest.length := by
            rw [List.length_cons] at hlt
            omega
          exact (match_at_clip_cons c rest needle r).mpr (hcand hr2)
    · rw [if_neg hc]
      obtain ⟨r, hr, hrle, hmin, hcand⟩ := ih (off + 1)
      refine ⟨r + 1, by rw [hr]; omega, by rw [List.length_cons]; omega, ?_, ?_⟩
      · intro j hj
        cases j with
        | zero =>
          intro hmac
          apply hc
          unfold match_at_clip at hmac
          rw [List.drop_zero] at hmac
          obtain ⟨h0, t, hnd⟩ : ∃ h0 t, needle = h0 :: t := by
            cases needle with
            | nil => exact absurd rfl hk
            | cons a b => exact ⟨a, b, rfl⟩
          rw [hnd] at hmac ⊢
          obtain ⟨m, hmm⟩ : ∃ m,
              min (h0 :: t).length ((c :: rest).length - 0) = m + 1 := by
            refine ⟨min (h0 :: t).length ((c :: rest).length - 0) - 1, ?_⟩
            rw [List.length_cons, List.length_cons]
            omega
          rw [hmm, List.take_succ_cons, List.take_succ_cons] at hmac
          have h1 : c = h0 := by
            have h2 := congrArg (fun l => l.headD 0) hmac
            simpa using h2
          exact h1
        | succ j =>
          intro hmac
          exact hmin j (by omega) ((match_at_clip_cons c rest needle j).mp hmac)
      · intro hlt
        have hr2 : r < rest.length := by
          rw [List.length_cons] at hlt
          omega
        exact (match_at_clip_cons c rest needle r).mpr (hcand hr2)

theorem search_iovec_spec (l needle : List Nat) (hk : needle ≠ []) :
    buffer_search_iovec l needle ≤ l.length ∧
    (∀ j, j < buffer_search_iovec l needle → ¬ match_at_clip l needle j) ∧
    (buffer_search_iovec l needle < l.length →
      match_at_clip l needle (buffer_search_iovec l needle)) := by
  obtain ⟨r, hr, h1, h2, h3⟩ := search_go_spec needle hk l 0
  unfold buffer_search_iovec
  rw [hr, Nat.zero_add]
  exact ⟨h1, h2, h3⟩

theorem io_bytes_length (b : Buffer) (it : Iter) (hwf : BufferWF b)
    (hI : IterOK b it) : (iter_io_bytes b it).length = it.io_len := by
  rw [iter_io_bytes_eq b it hwf hI]
  rw [List.length_take, List.length_drop]
  have hlen := content_length_eq b hwf
  obtain ⟨hidx, hgeo, hple, hio, hlt, hend⟩ := hI
  omega

theorem iter_next_cases (b : Buffer) (it it' : Iter)
    (hn : iter_next_page b it = some it') :
    it' = ⟨⟨it.cur.page_idx + 1, 0, it.cur.content_pos + it.io_len⟩,
        min (page_get_content_len (b.getPage (it.cur.page_idx + 1)))
            (it.endPos.content_pos - (it.cur.content_pos + it.io_len)),
        it.endPos⟩ ∧
    it.cur.page_idx + 1 < buffer_count_pages b ∧
    it.cur.content_pos + it.io_len < it.endPos.content_pos := by
  unfold iter_next_page at hn
  dsimp only at hn
  by_cases hc : buffer_count_pages b ≤ it.cur.page_idx + 1
  · rw [if_pos hc] at hn
    simp at hn
  · rw [if_neg hc] at hn
    by_cases hc2 : it.endPos.content_pos ≤ it.cur.content_pos + it.io_len
    · rw [if_pos hc2] at hn
      simp at hn
    · rw [if_neg hc2] at hn
      refine ⟨?_, by omega, by omega⟩
      rw [(Option.some.inj hn).symm]
      unfold iter_impl_set_io
      dsimp only
      rw [Nat.sub_zero]

theorem iter_next_none_cases (b : Buffer) (it : Iter)
    (hn : iter_next_page b it = none) :
    buffer_count_pages b ≤ it.cur.page_idx + 1
      ∨ it.endPos.content_pos ≤ it.cur.content_pos + it.io_len := by
  unfold iter_next_page at hn
  dsimp only at hn
  by_cases hc : buffer_count_pages b ≤ it.cur.page_idx + 1
  · exact Or.inl hc
  · rw [if_neg hc] at hn
    by_cases hc2 : it.endPos.content_pos ≤ it.cur.content_pos + it.io_len
    · exact Or.inr hc2
    · rw [if_neg hc2] at hn
      simp at hn

theorem iter_advance_le (b : Buffer) (fuel : Nat) (it : Iter) (n : Nat)
    (hn : n ≤ it.io_len) (hf : 0 < fuel) :
    iter_advance_n_bytes b fuel it n
      = some ⟨⟨it.cur.page_idx, it.cur.page_pos + n, it.cur.content_pos + n⟩,
          it.io_len - n, it.endPos⟩ := by
  cases fuel with
  | zero => omega
  | succ fuel =>
    unfold iter_advance_n_bytes
    rw [if_neg (by omega)]

theorem refFind_none_iff (hay needle : List Nat) (hk : needle ≠ []) :
    refFind hay needle = none ↔ ∀ i, ¬ needle <+: hay.drop i := by
  unfold refFind
  rw [List.find?_eq_none]
  constructor
  · intro h i
    by_cases hi : i < hay.length + 1
    · have := h i (List.mem_range.mpr hi)
      simpa using this
    · intro hpre
      rw [List.drop_eq_nil_of_le (by omega)] at hpre
      exact hk (List.prefix_nil.mp hpre)
  · intro h x hx
    simpa using h x

theorem refFind_some_min (hay needle : List Nat) (m : Nat)
    (h : refFind hay needle = some m) :
    (needle <+: hay.drop m) ∧ ∀ j, j < m → ¬ needle <+: hay.drop j := by
  unfold refFind at h
  rw [List.find?_eq_some] at h
  obtain ⟨hp, as, bs, heq, hall⟩ := h
  have hlen : (List.range (hay.length + 1)).length = as.length + (bs.length + 1) := by
    rw [heq, List.length_append, List.length_cons]
  rw [List.length_range] at hlen
  have hasl : as.length < (List.range (hay.length + 1)).length := by
    rw [List.length_range]
    omega
  have hm : m = as.length := by
    have e1 : (List.range (hay.length + 1))[as.length]? = some as.length :=
      List.getElem?_range (by omega)
    rw [heq] at e1
    rw [List.getElem?_append_right (Nat.le_refl as.length)] at e1
    rw [Nat.sub_self] at e1
    have e2 : (m :: bs)[0]? = some m := by
      rw [List.getElem?_cons_zero]
    rw [e2] at e1
    exact Option.some.inj e1
  refine ⟨by simpa using hp, ?_⟩
  intro j hj
  have hjl : j < as.length := by omega
  have e1 : (List.range (hay.length + 1))[j]? = some j :=
    List.getElem?_range (by omega)
  rw [heq] at e1
  rw [List.getElem?_append_left hjl, List.getElem?_eq_getElem hjl] at e1
  have e4 : as.get ⟨j, hjl⟩ = j := Option.some.inj e1
  have hjas : j ∈ as := by
    rw [← e4]
    exact List.get_mem as j hjl
  have := hall j hjas
  simpa using this

theorem refFind_eq_of (hay needle : List Nat) (hk : needle ≠ []) (m : Nat)
    (hocc : needle <+: hay.drop m) (hmin : ∀ j, j < m → ¬ needle <+: hay.drop j) :
    refFind hay needle = some m := by
  cases h : refFind hay needle with
  | none => exact absurd hocc ((refFind_none_iff hay needle hk).mp h m)
  | some j =>
    obtain ⟨hj1, hj2⟩ := refFind_some_min hay needle j h
    have h1 : ¬ j < m := fun hcc => hmin j hcc hj1
    have h2 : ¬ m < j := fun hcc => hj2 m hcc hocc
    rw [show j = m from by omega]

theorem take_split_iff (l X : List Nat) (n io : Nat) (hio : io ≤ n) :
    l = X.take n ↔ (l.take io = X.take io ∧ l.drop io = (X.drop io).take (n - io)) := by
  constructor
  · intro h
    subst h
    constructor
    · rw [List.take_take, show min io n = io from by omega]
    · rw [List.drop_take]
  · intro hh
    obtain ⟨h1, h2⟩ := hh
    have h3 : X.take io ++ (X.drop io).take (n - io) = X.take n := by
      rw [← List.take_add, show io + (n - io) = n from by omega]
    conv_lhs => rw [(List.take_append_drop io l).symm]
    rw [h1, h2, h3]

theorem occ_to_cand (b : Buffer) (hwf : BufferWF b) (it : Iter) (hI : IterOK b it)
    (needle : List Nat) (j : Nat)
    (hj1 : it.cur.content_pos ≤ j) (hj2 : j < it.cur.content_pos + it.io_len)
    (hocc : needle <+: ((b.content.take it.endPos.content_pos).drop j)) :
    match_at_clip (iter_io_bytes b it) needle (j - it.cur.content_pos) := by
  have hbytes := iter_io_bytes_eq b it hwf hI
  have hioblen := io_bytes_length b it hwf hI
  have hclen := content_length_eq b hwf
  obtain ⟨hidx, hgeo, hple, hio, hlt, hend⟩ := hI
  unfold match_at_clip
  rw [hioblen, hbytes]
  rw [List.drop_take, List.drop_drop]
  rw [List.take_take]
  rw [List.drop_take] at hocc
  rw [List.prefix_iff_eq_take] at hocc
  rw [List.take_take] at hocc
  set kk := needle.length
  rw [show it.cur.content_pos + (j - it.cur.content_pos) = j from by omega]
  rw [show min (min kk (it.io_len - (j - it.cur.content_pos)))
        (it.io_len - (j - it.cur.content_pos))
      = min kk (it.io_len - (j - it.cur.content_pos)) from by omega]
  have hkm : needle.take (min kk (it.io_len - (j - it.cur.content_pos)))
      = (b.content.drop j).take (min kk (it.io_len - (j - it.cur.content_pos))) := by
    conv_lhs => rw [hocc]
    rw [List.take_take]
    congr 1
    omega
  rw [hkm]

theorem getPage_mem (b : Buffer) (i : Nat) (hi : i < buffer_count_pages b) :
    b.getPage i ∈ b.livePages := by
  unfold Buffer.getPage
  rw [List.getD_eq_getElem _ _ hi]
  exact List.getElem_mem hi

theorem contains_at_iff (b : Buffer) (hwf : BufferWF b)
    (hne : ∀ p ∈ b.livePages, 0 < page_get_content_len p) :
    ∀ (fuel : Nat) (it : Iter) (needle : List Nat), needle ≠ [] →
      IterOK b it →
      it.cur.page_pos < page_get_content_len (b.getPage it.cur.page_idx) →
      buffer_count_pages b ≤ it.cur.page_idx + fuel →
      (buffer_contains_at b fuel it needle = true
        ↔ needle = ((b.content.drop it.cur.content_pos).take
              (it.endPos.content_pos - it.cur.content_pos)).take needle.length) := by
  intro fuel
  induction fuel with
  | zero =>
    intro it needle hk hI hplt hf
    exact absurd hI.1 (by omega)
  | succ fuel ih =>
    intro it needle hk hI hplt hf
    have hbytes := iter_io_bytes_eq b it hwf hI
    have hclen := content_length_eq b hwf
    obtain ⟨hidx, hgeo, hple, hio, hlt, hend⟩ := hI
    have hiopos : 0 < it.io_len := by omega
    unfold buffer_contains_at
    rw [if_neg (by omega)]
    by_cases hkle : needle.length ≤ it.io_len
    · rw [if_pos hkle]
      rw [decide_eq_true_eq]
      rw [hbytes, List.take_take, List.take_take]
      rw [show min needle.length it.io_len = needle.length from by omega]
      rw [show min needle.length
            (it.endPos.content_pos - it.cur.content_pos) = needle.length from by
        omega]
      exact eq_comm
    · rw [if_neg hkle]
      have hiolt : it.io_len < needle.length := by omega
      by_cases hpre : iter_io_bytes b it = needle.take it.io_len
      · rw [if_neg (not_not_intro hpre)]
        cases hnx : iter_next_page b it with
        | none =>
          have hcase := iter_next_none_cases b it hnx
          have hioE : it.io_len
              = it.endPos.content_pos - it.cur.content_pos := by
            rcases hcase with hc | hc
            · have hs := pageOffSum_succ b it.cur.page_idx hidx
              have htop : pageOffSum b (it.cur.page_idx + 1)
                  = pageOffSum b (buffer_count_pages b) := by
                rw [show it.cur.page_idx + 1 = buffer_count_pages b from by omega]
              omega
            · omega
          constructor
          · intro h
            simp at h
          · intro hR
            exfalso
            have hlen2 : (((b.content.drop it.cur.content_pos).take
                  (it.endPos.content_pos - it.cur.content_pos)).take
                    needle.length).length
                = it.endPos.content_pos - it.cur.content_pos := by
              rw [List.length_take, List.length_take, List.length_drop]
              omega
            have hcon := congrArg List.length hR
            rw [hlen2] at hcon
            omega
        | some it' =>
          dsimp only
          obtain ⟨hit', hcnt', hlt'⟩ := iter_next_cases b it it' hnx
          have hlen_next : 0 < page_get_content_len
              (b.getPage (it.cur.page_idx + 1)) :=
            hne _ (getPage_mem b _ hcnt')
          have hI' : IterOK b it' := by
            rw [hit']
            refine ⟨hcnt', ?_, ?_, ?_, ?_, ?_⟩
            · dsimp only
              rw [pageOffSum_succ b it.cur.page_idx hidx]
              omega
            · dsimp only
              omega
            · dsimp only
              rw [Nat.sub_zero]
            · dsimp only
              omega
            · dsimp only
              exact hend
          have hkd : needle.drop it.io_len ≠ [] := by
            intro hD
            have hc2 := congrArg List.length hD
            rw [List.length_drop] at hc2
            simp at hc2
            omega
          have ihres := ih it' (needle.drop it.io_len) hkd hI'
            (by rw [hit']; dsimp only; exact hlen_next)
            (by rw [hit']; dsimp only; omega)
          rw [ihres, hit']
          dsimp only
          rw [List.length_drop]
          rw [List.take_take, List.take_take]
          rw [take_split_iff needle (b.content.drop it.cur.content_pos)
            (min needle.length
              (it.endPos.content_pos - it.cur.content_pos)) it.io_len (by omega)]
          rw [List.drop_drop]
          rw [show min needle.length
                (it.endPos.content_pos - it.cur.content_pos) - it.io_len
              = min (needle.length - it.io_len)
                  (it.endPos.content_pos
                    - (it.cur.content_pos + it.io_len)) from by omega]
          have hB1 : needle.take it.io_len
              = (b.content.drop it.cur.content_pos).take it.io_len :=
            hpre.symm.trans hbytes
          constructor
          · intro h
            exact ⟨hB1, h⟩
          · intro h
            exact h.2
      · rw [if_pos hpre]
        constructor
        · intro h
          simp at h
        · intro hR
          exfalso
          apply hpre
          rw [List.take_take] at hR
          have h1 := (take_split_iff needle (b.content.drop it.cur.content_pos)
            (min needle.length (it.endPos.content_pos - it.cur.content_pos))
            it.io_len (by omega)).mp hR
          exact hbytes.trans h1.1.symm

theorem search_loop_spec (b : Buffer) (hwf : BufferWF b)
    (hne : ∀ p ∈ b.livePages, 0 < page_get_content_len p)
    (needle : List Nat) (hk : needle ≠ []) (B : Nat) :
    ∀ (fuel : Nat) (it : Iter),
      SearchOK b it →
      B ≤ it.cur.content_pos →
      it.cur.content_pos ≤ it.endPos.content_pos →
      (∀ i, B ≤ i → i < it.cur.content_pos →
        ¬ needle <+: ((b.content.take it.endPos.content_pos).drop i)) →
      it.endPos.content_pos + buffer_count_pages b + 1
        ≤ it.cur.content_pos + it.cur.page_idx + fuel →
      ((search_loop b needle fuel it = none →
          ∀ i, B ≤ i → ¬ needle <+: ((b.content.take it.endPos.content_pos).drop i)) ∧
       (∀ pos, search_loop b needle fuel it = some pos →
          B ≤ pos ∧
          (needle <+: ((b.content.take it.endPos.content_pos).drop pos)) ∧
          ∀ j, B ≤ j → j < pos →
            ¬ needle <+: ((b.content.take it.endPos.content_pos).drop j))) := by
  intro fuel
  induction fuel with
  | zero =>
    intro it hS hB hce hinv hf
    obtain ⟨hidx, -, -, -, -⟩ := hS
    omega
  | succ fuel ih =>
    intro it hS hB hce hinv hf
    obtain ⟨hidx, hgeo, hple, hio, hend⟩ := hS
    have hclen := content_length_eq b hwf
    unfold search_loop
    by_cases hguard : it.cur.content_pos < it.endPos.content_pos
    · rw [if_pos hguard]
      dsimp only
      have hI : IterOK b it := ⟨hidx, hgeo, hple, hio, hguard, hend⟩
      have hbytes := iter_io_bytes_eq b it hwf hI
      have hioblen := io_bytes_length b it hwf hI
      obtain ⟨hsle, hsmin, hscand⟩ :=
        search_iovec_spec (iter_io_bytes b it) needle hk
      set hit := buffer_search_iovec (iter_io_bytes b it) needle with hhit
      have hsle2 : hit ≤ it.io_len := by
        rw [← hioblen]
        exact hsle
      have hwin : ∀ j, it.cur.content_pos ≤ j → j < it.cur.content_pos + hit →
          ¬ needle <+: ((b.content.take it.endPos.content_pos).drop j) := by
        intro j h1 h2 hocc
        have hc := occ_to_cand b hwf it hI needle j h1 (by omega) hocc
        exact hsmin (j - it.cur.content_pos) (by omega) hc
      have hinv2 : ∀ j, B ≤ j → j < it.cur.content_pos + hit →
          ¬ needle <+: ((b.content.take it.endPos.content_pos).drop j) := by
        intro j hjB hj
        by_cases hjc : j < it.cur.content_pos
        · exact hinv j hjB hjc
        · exact hwin j (by omega) hj
      by_cases hhit_end : hit = it.io_len
      · rw [if_pos hhit_end]
        cases hnx : iter_next_page b it with
        | none =>
          have hioE : it.io_len
              = it.endPos.content_pos - it.cur.content_pos := by
            rcases iter_next_none_cases b it hnx with hc | hc
            · have hs := pageOffSum_succ b it.cur.page_idx hidx
              have htop : pageOffSum b (it.cur.page_idx + 1)
                  = pageOffSum b (buffer_count_pages b) := by
                rw [show it.cur.page_idx + 1 = buffer_count_pages b from by omega]
              omega
            · omega
          refine ⟨fun _ => ?_, fun pos hpos => absurd hpos (by simp)⟩
          intro i hiB
          by_cases hic : i < it.cur.content_pos + hit
          · exact hinv2 i hiB hic
          · intro hocc
            have hplen := hocc.length_le
            rw [List.length_drop, List.length_take] at hplen
            have hk1 : 0 < needle.length := List.length_pos.mpr hk
            omega
        | some it' =>
          dsimp only
          obtain ⟨hit'eq, hcnt', hlt'⟩ := iter_next_cases b it it' hnx
          subst hit'eq
          exact ih _
            ⟨by dsimp only; omega, by
              dsimp only
              rw [pageOffSum_succ b _ hidx]
              omega,
             by dsimp only; omega,
             by dsimp only; rw [Nat.sub_zero],
             by dsimp only; exact hend⟩
            (by dsimp only; omega)
            (by dsimp only; omega)
            (by
              dsimp only
              intro i hiB hi
              exact hinv2 i hiB (by omega))
            (by dsimp only; omega)
      · rw [if_neg hhit_end]
        have hhit_lt : hit < it.io_len := by omega
        rw [iter_advance_le b _ it hit (by omega) (by omega)]
        dsimp only
        have hI1 : IterOK b
            (⟨⟨it.cur.page_idx, it.cur.page_pos + hit,
                it.cur.content_pos + hit⟩,
              it.io_len - hit, it.endPos⟩ : Iter) := by
          refine ⟨hidx, ?_, ?_, ?_, ?_, ?_⟩ <;> dsimp only <;> omega
        have hplt1 : it.cur.page_pos + hit
            < page_get_content_len (b.getPage it.cur.page_idx) := by
          omega
        have hcont := contains_at_iff b hwf hne (buffer_count_pages b + 1)
          (⟨⟨it.cur.page_idx, it.cur.page_pos + hit,
              it.cur.content_pos + hit⟩,
            it.io_len - hit, it.endPos⟩ : Iter)
          needle hk hI1 hplt1 (by dsimp only; omega)
        by_cases hfound : buffer_contains_at b (buffer_count_pages b + 1)
            (⟨⟨it.cur.page_idx, it.cur.page_pos + hit,
                it.cur.content_pos + hit⟩,
              it.io_len - hit, it.endPos⟩ : Iter) needle = true
        · rw [if_pos hfound]
          refine ⟨fun h => absurd h (by simp), fun pos hpos => ?_⟩
          have hposval : pos = it.cur.content_pos + hit :=
            (Option.some.inj hpos).symm
          have hoc := hcont.mp hfound
          dsimp only at hoc
          refine ⟨by omega, ?_, ?_⟩
          · rw [hposval, List.prefix_iff_eq_take, List.drop_take]
            exact hoc
          · intro j hjB hj
            rw [hposval] at hj
            exact hinv2 j hjB hj
        · rw [if_neg hfound]
          have hnoc : ¬ needle <+:
              ((b.content.take it.endPos.content_pos).drop
                (it.cur.content_pos + hit)) := by
            intro hocc
            apply hfound
            apply hcont.mpr
            dsimp only
            rw [List.prefix_iff_eq_take, List.drop_take] at hocc
            exact hocc
          have hinv3 : ∀ j, B ≤ j → j < it.cur.content_pos + hit + 1 →
              ¬ needle <+:
                ((b.content.take it.endPos.content_pos).drop j) := by
            intro j hjB hj
            by_cases hjc : j < it.cur.content_pos + hit
            · exact hinv2 j hjB hjc
            · rw [show j = it.cur.content_pos + hit from by omega]
              exact hnoc
          rw [iter_advance_le b _ _ 1 (by dsimp only; omega) (by omega)]
          dsimp only
          exact ih
            (⟨⟨it.cur.page_idx, it.cur.page_pos + hit + 1,
                it.cur.content_pos + hit + 1⟩,
              it.io_len - hit - 1, it.endPos⟩ : Iter)
            ⟨hidx, by dsimp only; omega, by dsimp only; omega,
             by dsimp only; omega, hend⟩
            (by dsimp only; omega)
            (by dsimp only; omega)
            (by dsimp only; exact hinv3)
            (by dsimp only; omega)
    · rw [if_neg hguard]
      refine ⟨fun _ => ?_, fun pos hpos => absurd hpos (by simp)⟩
      intro i hiB
      by_cases hic : i < it.cur.content_pos
      · exact hinv i hiB hic
      · intro hocc
        have hplen := hocc.length_le
        rw [List.length_drop, List.length_take] at hplen
        have hk1 : 0 < needle.length := List.length_pos.mpr hk
        omega

theorem refFind_nil (needle : List Nat) (hk : needle ≠ []) :
    refFind [] needle = none := by
  rw [refFind_none_iff _ _ hk]
  intro i hp
  rw [List.drop_nil] at hp
  exact hk (List.prefix_nil.mp hp)

theorem range_bytes_zero (b : Buffer) (e : Nat) :
    range_bytes b 0 e = b.content.take (min e b.content_len) := by
  unfold range_bytes content_clip
  rw [Nat.zero_min, List.drop_zero, Nat.sub_zero]

/-- Claim C9: on a buffer whose live pages are all non-empty, searching
the content range [b, e) for a non-empty needle returns exactly the
reference result: the content offset of the earliest occurrence lying
entirely inside the range, or not-found when there is none; matches may
span page boundaries.  The Hungry Hungry Hippos example yields match
position 7. -/
theorem c9_search_matches_reference (b : Buffer) (hwf : BufferWF b)
    (hne : ∀ p ∈ b.livePages, 0 < page_get_content_len p)
    (needle : List Nat) (hk : needle ≠ []) (begin_at end_at : Nat) :
    bfy_buffer_search_range b begin_at end_at needle
      = (refFind (range_bytes b begin_at end_at) needle).map
          (fun i => min begin_at b.content_len + i) ∧
    bfy_buffer_search_all c9_hippos
      [72, 117, 110, 103, 114, 121, 32, 72, 117, 110, 103, 114, 121, 32,
        72, 105, 112, 112, 111, 115] = some 7 := by
  refine ⟨?_, by decide⟩
  have hBc : (buffer_get_pos b begin_at).content_pos
      = min begin_at b.content_len := get_pos_cpos b hwf begin_at
  have hEc : (buffer_get_pos b end_at).content_pos
      = min end_at b.content_len := get_pos_cpos b hwf end_at
  have hclen := content_length_eq b hwf
  have htoteq := content_len_eq_total b hwf
  have hrb : range_bytes b begin_at end_at
      = (b.content.drop (min begin_at b.content_len)).take
          (min end_at b.content_len - min begin_at b.content_len) := rfl
  unfold bfy_buffer_search_range buffer_search_range
  by_cases hEB : min end_at b.content_len ≤ min begin_at b.content_len
  · have hib : iter_begin b (buffer_get_pos b begin_at)
        (buffer_get_pos b end_at) = none := by
      unfold iter_begin
      rw [if_pos (by omega)]
    rw [hib, hrb]
    have hnil : (b.content.drop (min begin_at b.content_len)).take
        (min end_at b.content_len - min begin_at b.content_len) = [] := by
      rw [show min end_at b.content_len - min begin_at b.content_len = 0
        from by omega]
      rfl
    rw [hnil, refFind_nil needle hk]
    rfl
  · have hfacts : (buffer_get_pos b begin_at).page_idx < buffer_count_pages b ∧
        pageOffSum b (buffer_get_pos b begin_at).page_idx
            + (buffer_get_pos b begin_at).page_pos
          = min begin_at b.content_len ∧
        (buffer_get_pos b begin_at).page_pos
          ≤ page_get_content_len (b.getPage (buffer_get_pos b begin_at).page_idx) := by
      by_cases hb0 : begin_at = 0
      · subst hb0
        rw [get_pos_zero b]
        refine ⟨count_pos_of_wf hwf, ?_, ?_⟩
        · dsimp only
          rw [pageOffSum_zero]
          omega
        · dsimp only
          omega
      · have hblt : begin_at < b.content_len := by omega
        obtain ⟨f1, f2, f3, f4⟩ := get_pos_mid b hwf begin_at (by omega) hblt
        refine ⟨f1, ?_, by omega⟩
        rw [show min begin_at b.content_len = begin_at from by omega]
        exact f2
    obtain ⟨hidx0, hgeo0, hple0⟩ := hfacts
    have hib : iter_begin b (buffer_get_pos b begin_at) (buffer_get_pos b end_at)
        = some ⟨buffer_get_pos b begin_at,
            iter_impl_set_io b (buffer_get_pos b begin_at)
              (buffer_get_pos b end_at),
            buffer_get_pos b end_at⟩ := by
      unfold iter_begin
      rw [if_neg (by omega)]
    rw [hib]
    dsimp only
    obtain ⟨hnone, hsome⟩ := search_loop_spec b hwf hne needle hk
      (min begin_at b.content_len)
      (b.content_len + buffer_count_pages b + 2)
      ⟨buffer_get_pos b begin_at,
        iter_impl_set_io b (buffer_get_pos b begin_at) (buffer_get_pos b end_at),
        buffer_get_pos b end_at⟩
      ⟨hidx0,
       by dsimp only; rw [hBc]; exact hgeo0,
       by dsimp only; exact hple0,
       by unfold iter_impl_set_io; dsimp only,
       by dsimp only; omega⟩
      (by dsimp only; omega)
      (by dsimp only; omega)
      (by dsimp only; intro i hiB hi; omega)
      (by dsimp only; omega)
    dsimp only at hnone hsome
    rw [hEc] at hnone hsome
    have hshift : ∀ j, ((b.content.drop (min begin_at b.content_len)).take
          (min end_at b.content_len - min begin_at b.content_len)).drop j
        = (b.content.take (min end_at b.content_len)).drop
            (min begin_at b.content_len + j) := by
      intro j
      rw [List.drop_take, List.drop_take, List.drop_drop]
      congr 1
      omega
    rw [hrb]
    cases hres : search_loop b needle (b.content_len + buffer_count_pages b + 2)
        ⟨buffer_get_pos b begin_at,
          iter_impl_set_io b (buffer_get_pos b begin_at) (buffer_get_pos b end_at),
          buffer_get_pos b end_at⟩ with
    | none =>
      have hnn := hnone hres
      have hrf : refFind ((b.content.drop (min begin_at b.content_len)).take
          (min end_at b.content_len - min begin_at b.content_len)) needle
          = none := by
        rw [refFind_none_iff _ _ hk]
        intro j
        rw [hshift j]
        exact hnn (min begin_at b.content_len + j) (by omega)
      rw [hrf]
      rfl
    | some pos =>
      obtain ⟨hposB, hocc, hmin⟩ := hsome pos hres
      have hrf : refFind ((b.content.drop (min begin_at b.content_len)).take
          (min end_at b.content_len - min begin_at b.content_len)) needle
          = some (pos - min begin_at b.content_len) := by
        apply refFind_eq_of _ needle hk
        · rw [hshift]
          rw [show min begin_at b.content_len
              + (pos - min begin_at b.content_len) = pos from by omega]
          exact hocc
        · intro j hj
          rw [hshift j]
          exact hmin (min begin_at b.content_len + j) (by omega) (by omega)
      rw [hrf]
      show some pos
        = some (min begin_at b.content_len + (pos - min begin_at b.content_len))
      congr 1
      omega

/-! Part 12: unref-hook conservation (claim C4) -/


theorem unref_events_release (p : Page) :
    unref_events (release_page_events p) = release_page_events p := by
  unfold release_page_events
  cases p.unref_cb <;> rfl

theorem fold_size_mono (dr dc : Bool) :
    ∀ (ws : List Page) (r : Page),
      r.data.length ≤ (ws.foldl (scratch_step dr dc) r).data.length := by
  intro ws
  induction ws with
  | nil =>
    intro r
    exact Nat.le_refl _
  | cons w rest ih =>
    intro r
    rw [List.foldl_cons]
    refine Nat.le_trans ?_ (ih (scratch_step dr dc r w))
    unfold scratch_step
    by_cases h1 : 0 < page_get_content_len w
    · rw [if_pos h1]
    · rw [if_neg h1]
      by_cases h2 : dc = true ∧ page_is_recyclable w = true
          ∧ r.data.length < w.data.length
      · rw [if_pos h2]
        omega
      · rw [if_neg h2]

theorem fold_init_or_pos (dr dc : Bool) :
    ∀ (ws : List Page),
      ws.foldl (scratch_step dr dc) InitPage = InitPage ∨
      0 < (ws.foldl (scratch_step dr dc) InitPage).data.length := by
  intro ws
  induction ws with
  | nil => exact Or.inl rfl
  | cons w rest ih =>
    rw [List.foldl_cons]
    by_cases h1 : 0 < page_get_content_len w
    · rw [show scratch_step dr dc InitPage w = InitPage from by
        unfold scratch_step; rw [if_pos h1]]
      exact ih
    · by_cases h2 : dc = true ∧ page_is_recyclable w = true
          ∧ InitPage.data.length < w.data.length
      · rw [show scratch_step dr dc InitPage w = w from by
          unfold scratch_step; rw [if_neg h1, if_pos h2]]
        right
        have hm := fold_size_mono dr dc rest w
        have hw : 0 < w.data.length := by
          have h3 := h2.2.2
          simpa using h3
        omega
      · rw [show scratch_step dr dc InitPage w = InitPage from by
          unfold scratch_step; rw [if_neg h1, if_neg h2]]
        exact ih

theorem compact_events_eq (B : Buffer) (dr dc : Bool)
    (hpos : 0 < buffer_count_pages B) :
    (buffer_compact B dr dc).events
      = (compact_go dr dc B.livePages InitPage B.events).2.2.2 := by
  unfold buffer_compact
  rw [if_pos hpos]
  dsimp only
  cases hpg : B.pages with
  | none => rfl
  | some arr => rfl

theorem compact_go_fired (dc : Bool) :
    ∀ (ws : List Page) (r : Page) (ev : List BufEvent),
      ((unref_events (compact_go true dc ws r ev).2.2.2 : List BufEvent)
            : Multiset BufEvent)
          + ↑(release_page_events (compact_go true dc ws r ev).2.2.1)
          + ↑((((compact_go true dc ws r ev).2.1).map release_page_events).flatten)
        = (↑(unref_events ev) : Multiset BufEvent)
            + ↑(release_page_events r)
            + ↑((ws.map release_page_events).flatten) := by
  intro ws
  induction ws with
  | nil =>
    intro r ev
    rfl
  | cons w rest ih =>
    intro r ev
    unfold compact_go
    dsimp only
    by_cases h1 : 0 < page_get_content_len w
    · rw [if_pos h1]
      dsimp only
      have h2 := congrArg
        (fun m : Multiset BufEvent => m + ↑(release_page_events w)) (ih r ev)
      dsimp only at h2
      simp only [List.map_cons, List.flatten_cons, ← Multiset.coe_add] at h2 ⊢
      abel_nf at h2 ⊢
      exact h2
    · rw [if_neg h1]
      by_cases h2 : dc = true ∧ page_is_recyclable w = true
          ∧ r.data.length < w.data.length
      · rw [if_pos h2]
        dsimp only
        rw [if_pos (show (true : Bool) = true from rfl)]
        have h3 := ih w (ev ++ release_page_events r)
        rw [unref_events_append, unref_events_release] at h3
        simp only [List.map_cons, List.flatten_cons, ← Multiset.coe_add] at h3 ⊢
        abel_nf at h3 ⊢
        exact h3
      · rw [if_neg h2]
        by_cases h4 : (true : Bool) = true
        · rw [if_pos h4]
          dsimp only
          have h3 := ih r (ev ++ release_page_events w)
          rw [unref_events_append, unref_events_release] at h3
          simp only [List.map_cons, List.flatten_cons, ← Multiset.coe_add] at h3 ⊢
          abel_nf at h3 ⊢
          exact h3
        · exact absurd rfl h4

theorem compact_fired (B : Buffer) (dc : Bool) (hpos : 0 < buffer_count_pages B) :
    ((unref_events (buffer_compact B true dc).events : List BufEvent)
          : Multiset BufEvent)
        + ↑((((buffer_compact B true dc).livePages).map release_page_events).flatten)
      = (↑(unref_events B.events) : Multiset BufEvent)
        + ↑((B.livePages.map release_page_events).flatten) := by
  obtain ⟨hslen, hkept, hcand, hslots⟩ :=
    compact_go_parts true dc B.livePages InitPage B.events
  have hfired := compact_go_fired dc B.livePages InitPage B.events
  have hev := compact_events_eq B true dc hpos
  have hrinit : release_page_events InitPage = [] := rfl
  cases hpg : B.pages with
  | some arr =>
    obtain ⟨-, -, -, -, -, hover⟩ := compact_spec B true dc hpos
    obtain ⟨hlp, -⟩ := hover (by rw [hpg]; simp)
    rw [hev, hlp, ← hkept]
    by_cases hsz : 0 < (compact_go true dc B.livePages
        InitPage B.events).2.2.1.data.length
    · rw [if_pos hsz]
      rw [hrinit] at hfired
      simp only [List.map_append, List.flatten_append, List.map_cons,
        List.flatten_cons, List.map_nil, List.flatten_nil, List.append_nil]
      simp only [← Multiset.coe_add, Multiset.coe_nil] at hfired ⊢
      abel_nf at hfired ⊢
      exact hfired
    · rw [if_neg hsz]
      have hcinit : (compact_go true dc B.livePages
          InitPage B.events).2.2.1 = InitPage := by
        rcases fold_init_or_pos true dc B.livePages with h | h
        · rw [hcand]
          exact h
        · rw [← hcand] at h
          exact absurd h hsz
      rw [hcinit, hrinit] at hfired
      simp only [List.append_nil]
      simp only [← Multiset.coe_add, Multiset.coe_nil] at hfired ⊢
      abel_nf at hfired ⊢
      exact hfired
  | none =>
    have hlive : B.livePages = [B.page] := by
      unfold Buffer.livePages
      rw [hpg]
    have hlp : (buffer_compact B true dc).livePages
        = [(((compact_go true dc B.livePages InitPage B.events).2.1
              ++ (if 0 < (compact_go true dc B.livePages
                    InitPage B.events).2.2.1.data.length
                  then [(compact_go true dc B.livePages InitPage B.events).2.2.1]
                  else [])).headD
            ((compact_go true dc B.livePages InitPage B.events).1.headD InitPage))] := by
      unfold buffer_compact
      rw [if_pos hpos]
      dsimp only
      rw [hpg]
      dsimp only
      unfold Buffer.livePages
      dsimp only
    rw [hev, hlp]
    by_cases hc : 0 < page_get_content_len B.page
    · have hgo : compact_go true dc B.livePages InitPage B.events
          = ([B.page], [B.page], InitPage, B.events) := by
        rw [hlive]
        unfold compact_go
        rw [if_pos hc]
        rfl
      rw [hgo]
      dsimp only
      rw [if_neg (by decide : ¬ 0 < InitPage.data.length)]
      rw [List.append_nil]
      simp only [List.headD, List.map_cons, List.map_nil, List.flatten_cons,
        List.flatten_nil, List.append_nil]
      rw [hlive]
      simp only [List.map_cons, List.map_nil, List.flatten_cons,
        List.flatten_nil, List.append_nil]
    · by_cases h2 : dc = true ∧ page_is_recyclable B.page = true
          ∧ InitPage.data.length < B.page.data.length
      · have hgo : compact_go true dc B.livePages InitPage B.events
            = ([B.page], [], B.page,
               B.events ++ release_page_events InitPage) := by
          rw [hlive]
          unfold compact_go
          rw [if_neg hc, if_pos h2]
          dsimp only
          rw [if_pos (show (true : Bool) = true from rfl)]
          rfl
        rw [hgo]
        dsimp only
        rw [if_pos (by
          have h3 := h2.2.2
          simpa using h3)]
        simp only [List.nil_append, List.headD, List.map_cons, List.map_nil,
          List.flatten_cons, List.flatten_nil, List.append_nil]
        rw [hrinit, List.append_nil, hlive]
        simp only [List.map_cons, List.map_nil, List.flatten_cons,
          List.flatten_nil, List.append_nil]
      · have hgo : compact_go true dc B.livePages InitPage B.events
            = ([InitPage], [], InitPage,
               B.events ++ release_page_events B.page) := by
          rw [hlive]
          unfold compact_go
          rw [if_neg hc, if_neg h2]
          dsimp only
          rw [if_pos (show (true : Bool) = true from rfl)]
          rfl
        rw [hgo]
        dsimp only
        rw [if_neg (by decide : ¬ 0 < InitPage.data.length)]
        simp only [List.nil_append, List.headD, List.map_cons, List.map_nil,
          List.flatten_cons, List.flatten_nil, List.append_nil]
        rw [unref_events_append, unref_events_release, hrinit, hlive]
        simp only [List.map_cons, List.map_nil, List.flatten_cons,
          List.flatten_nil, List.append_nil]
        simp only [← Multiset.coe_add, Multiset.coe_nil]
        abel

theorem setPage_events (b : Buffer) (i : Nat) (p : Page) :
    (b.setPage i p).events = b.events := by
  unfold Buffer.setPage
  cases b.pages <;> rfl

theorem setPage_pages_iff (b : Buffer) (i : Nat) (p : Page) :
    (b.setPage i p).pages = none ↔ b.pages = none := by
  unfold Buffer.setPage
  cases hp : b.pages <;> simp

theorem drain_fire_loop (dc : Bool) :
    ∀ (fuel : Nat) (b : Buffer) (it : Iter) (nd : Nat),
      it.cur.page_pos = 0 →
      it.cur.page_idx < buffer_count_pages b →
      (((unref_events (drain_scan_loop true dc fuel b it nd).1.events
            : List BufEvent) : Multiset BufEvent)
          + ↑((((drain_scan_loop true dc fuel b it nd).1.livePages).map
                release_page_events).flatten)
        = (↑(unref_events b.events) : Multiset BufEvent)
          + ↑((b.livePages.map release_page_events).flatten)) ∧
      buffer_count_pages (drain_scan_loop true dc fuel b it nd).1
          = buffer_count_pages b ∧
      (drain_scan_loop true dc fuel b it nd).1.n_pages = b.n_pages ∧
      ((drain_scan_loop true dc fuel b it nd).1.pages = none ↔ b.pages = none) ∧
      (b.pages ≠ none → (drain_scan_loop true dc fuel b it nd).1.page = b.page) := by
  intro fuel
  induction fuel with
  | zero =>
    intro b it nd h1 h2
    exact ⟨rfl, rfl, rfl, Iff.rfl, fun _ => rfl⟩
  | succ fuel ih =>
    intro b it nd h1 h2
    unfold drain_scan_loop
    dsimp only
    have main : ∀ (B : Buffer) (nd2 : Nat),
        (((unref_events B.events : List BufEvent) : Multiset BufEvent)
            + ↑(((B.livePages).map release_page_events).flatten)
          = (↑(unref_events b.events) : Multiset BufEvent)
            + ↑((b.livePages.map release_page_events).flatten)) →
        buffer_count_pages B = buffer_count_pages b →
        B.n_pages = b.n_pages →
        (B.pages = none ↔ b.pages = none) →
        (b.pages ≠ none → B.page = b.page) →
        (((unref_events (match iter_next_page B it with
              | none => (B, nd2)
              | some it' => drain_scan_loop true dc fuel B it' nd2).1.events
            : List BufEvent) : Multiset BufEvent)
            + ↑((((match iter_next_page B it with
                | none => (B, nd2)
                | some it' =>
                    drain_scan_loop true dc fuel B it' nd2).1.livePages).map
                  release_page_events).flatten)
          = (↑(unref_events b.events) : Multiset BufEvent)
            + ↑((b.livePages.map release_page_events).flatten)) ∧
        buffer_count_pages (match iter_next_page B it with
            | none => (B, nd2)
            | some it' => drain_scan_loop true dc fuel B it' nd2).1
          = buffer_count_pages b ∧
        (match iter_next_page B it with
            | none => (B, nd2)
            | some it' => drain_scan_loop true dc fuel B it' nd2).1.n_pages
          = b.n_pages ∧
        ((match iter_next_page B it with
            | none => (B, nd2)
            | some it' => drain_scan_loop true dc fuel B it' nd2).1.pages = none
          ↔ b.pages = none) ∧
        (b.pages ≠ none → (match iter_next_page B it with
            | none => (B, nd2)
            | some it' => drain_scan_loop true dc fuel B it' nd2).1.page
          = b.page) := by
      intro B nd2 hEv hBcnt hBn hBp hBpg
      cases hnx : iter_next_page B it with
      | none =>
        exact ⟨hEv, hBcnt, hBn, hBp, hBpg⟩
      | some it' =>
        dsimp only
        obtain ⟨hit'eq, hcnt', hlt'⟩ := iter_next_cases B it it' hnx
        obtain ⟨r1, r2, r3, r4, r5⟩ := ih B it' nd2
          (by rw [hit'eq])
          (by rw [hit'eq]; dsimp only; omega)
        refine ⟨r1.trans hEv, r2.trans hBcnt, r3.trans hBn, r4.trans hBp, ?_⟩
        intro hnn
        rw [r5 (fun hcontra => hnn (hBp.mp hcontra)), hBpg hnn]
    by_cases hfull : page_get_content_len (b.getPage it.cur.page_idx) ≤ it.io_len
    · rw [if_pos hfull]
      by_cases hrec : dc = true
          ∧ page_is_recyclable (b.getPage it.cur.page_idx) = true
      · rw [if_pos hrec]
        dsimp only
        have hq : release_page_events
            ({ b.getPage it.cur.page_idx with read_pos := 0, write_pos := 0 })
            = release_page_events (b.getPage it.cur.page_idx) := rfl
        have hpb := relmap_split release_page_events b it.cur.page_idx h2
        have hpB := relmap_set_split release_page_events b it.cur.page_idx h2
          ({ b.getPage it.cur.page_idx with read_pos := 0, write_pos := 0 })
        refine main _ _ ?_ (count_setPage b _ _) (setPage_n_pages b _ _)
          (setPage_pages_iff b _ _) (fun hne => setPage_page_some b _ _ hne)
        rw [setPage_events, hpB, hpb, hq]
      · rw [if_neg hrec]
        rw [if_pos (show (true : Bool) = true from rfl)]
        dsimp only
        have hpb := relmap_split release_page_events b it.cur.page_idx h2
        have hpB := relmap_set_split release_page_events b it.cur.page_idx h2 InitPage
        refine main _ _ ?_ ?_ ?_ ?_ ?_
        · show ((unref_events (b.events
              ++ release_page_events (b.getPage it.cur.page_idx))
                : List BufEvent) : Multiset BufEvent)
              + ↑((((b.setPage it.cur.page_idx InitPage).livePages).map
                    release_page_events).flatten)
            = (↑(unref_events b.events) : Multiset BufEvent)
              + ↑((b.livePages.map release_page_events).flatten)
          rw [unref_events_append, unref_events_release, hpB, hpb]
          rw [show release_page_events InitPage = [] from rfl]
          simp only [← Multiset.coe_add, Multiset.coe_nil]
          abel
        · show buffer_count_pages (b.setPage it.cur.page_idx InitPage)
            = buffer_count_pages b
          exact count_setPage b _ _
        · show (b.setPage it.cur.page_idx InitPage).n_pages = b.n_pages
          exact setPage_n_pages b _ _
        · show (b.setPage it.cur.page_idx InitPage).pages = none ↔ b.pages = none
          exact setPage_pages_iff b _ _
        · intro hne
          show (b.setPage it.cur.page_idx InitPage).page = b.page
          exact setPage_page_some b _ _ hne
    · rw [if_neg hfull, if_pos h1]
      have hq : release_page_events
          ({ b.getPage it.cur.page_idx with
             read_pos := (b.getPage it.cur.page_idx).read_pos + it.io_len })
          = release_page_events (b.getPage it.cur.page_idx) := rfl
      have hpb := relmap_split release_page_events b it.cur.page_idx h2
      have hpB := relmap_set_split release_page_events b it.cur.page_idx h2
        ({ b.getPage it.cur.page_idx with
           read_pos := (b.getPage it.cur.page_idx).read_pos + it.io_len })
      refine main _ _ ?_ (count_setPage b _ _) (setPage_n_pages b _ _)
        (setPage_pages_iff b _ _) (fun hne => setPage_page_some b _ _ hne)
      rw [setPage_events, hpB, hpb, hq]

theorem drain_fired (b : Buffer) (hwf : BufferWF b) (n : Nat) :
    ((unref_events (bfy_buffer_drain b n).2.events : List BufEvent)
          : Multiset BufEvent)
        + ↑((((bfy_buffer_drain b n).2.livePages).map release_page_events).flatten)
      = (↑(unref_events b.events) : Multiset BufEvent)
        + ↑((b.livePages.map release_page_events).flatten) := by
  have hp0 : buffer_get_pos b 0 = ⟨0, 0, 0⟩ := get_pos_zero b
  have hform : (bfy_buffer_drain b n).2
      = buffer_record_content_removed
          (if (buffer_compact (drain_scan_stage b (buffer_get_pos b 0)
                  (buffer_get_pos b n) true true).1 true true).n_pages = 0
              ∧ (buffer_compact (drain_scan_stage b (buffer_get_pos b 0)
                  (buffer_get_pos b n) true true).1 true true).pages ≠ none
           then { buffer_compact (drain_scan_stage b (buffer_get_pos b 0)
                  (buffer_get_pos b n) true true).1 true true with pages := none }
           else buffer_compact (drain_scan_stage b (buffer_get_pos b 0)
                  (buffer_get_pos b n) true true).1 true true)
          (drain_scan_stage b (buffer_get_pos b 0)
            (buffer_get_pos b n) true true).2 := rfl
  rw [hform]
  have hscan : (((unref_events (drain_scan_stage b (buffer_get_pos b 0)
            (buffer_get_pos b n) true true).1.events : List BufEvent)
          : Multiset BufEvent)
        + ↑((((drain_scan_stage b (buffer_get_pos b 0)
              (buffer_get_pos b n) true true).1.livePages).map
              release_page_events).flatten)
      = (↑(unref_events b.events) : Multiset BufEvent)
        + ↑((b.livePages.map release_page_events).flatten)) ∧
      buffer_count_pages (drain_scan_stage b (buffer_get_pos b 0)
          (buffer_get_pos b n) true true).1 = buffer_count_pages b ∧
      ((drain_scan_stage b (buffer_get_pos b 0)
          (buffer_get_pos b n) true true).1.pages = none ↔ b.pages = none) ∧
      (b.pages ≠ none → (drain_scan_stage b (buffer_get_pos b 0)
          (buffer_get_pos b n) true true).1.page = b.page) := by
    unfold drain_scan_stage
    rw [hp0]
    by_cases hc0 : (buffer_get_pos b n).content_pos ≤ 0
    · have hib : iter_begin b ⟨0, 0, 0⟩ (buffer_get_pos b n) = none := by
        unfold iter_begin
        rw [if_pos (by dsimp only; omega)]
      rw [hib]
      exact ⟨rfl, rfl, Iff.rfl, fun _ => rfl⟩
    · have hib : iter_begin b ⟨0, 0, 0⟩ (buffer_get_pos b n)
          = some ⟨⟨0, 0, 0⟩,
              iter_impl_set_io b ⟨0, 0, 0⟩ (buffer_get_pos b n),
              buffer_get_pos b n⟩ := by
        unfold iter_begin
        rw [if_neg (by dsimp only; omega)]
      rw [hib]
      dsimp only
      obtain ⟨g1, g2, g3, g4, g5⟩ := drain_fire_loop true (buffer_count_pages b + 1)
        b ⟨⟨0, 0, 0⟩, iter_impl_set_io b ⟨0, 0, 0⟩ (buffer_get_pos b n),
            buffer_get_pos b n⟩ 0 rfl (count_pos_of_wf hwf)
      exact ⟨g1, g2, g4, g5⟩
  obtain ⟨hs1, hs2, hs4, hs5⟩ := hscan
  have hcpos : 0 < buffer_count_pages (drain_scan_stage b (buffer_get_pos b 0)
      (buffer_get_pos b n) true true).1 := by
    rw [hs2]
    exact count_pos_of_wf hwf
  have hcomp := compact_fired (drain_scan_stage b (buffer_get_pos b 0)
      (buffer_get_pos b n) true true).1 true hcpos
  obtain ⟨-, -, hciff, hcpage, -, -⟩ := compact_spec (drain_scan_stage b
      (buffer_get_pos b 0) (buffer_get_pos b n) true true).1 true true hcpos
  rw [unref_events_record_removed, record_removed_livePages]
  by_cases hsw : (buffer_compact (drain_scan_stage b (buffer_get_pos b 0)
        (buffer_get_pos b n) true true).1 true true).n_pages = 0
      ∧ (buffer_compact (drain_scan_stage b (buffer_get_pos b 0)
        (buffer_get_pos b n) true true).1 true true).pages ≠ none
  · rw [if_pos hsw]
    obtain ⟨arr, harr⟩ : ∃ arr, (buffer_compact (drain_scan_stage b
        (buffer_get_pos b 0) (buffer_get_pos b n) true true).1 true true).pages
          = some arr := by
      cases hcp : (buffer_compact (drain_scan_stage b (buffer_get_pos b 0)
          (buffer_get_pos b n) true true).1 true true).pages with
      | none => exact absurd hcp hsw.2
      | some a => exact ⟨a, rfl⟩
    have hCl : (buffer_compact (drain_scan_stage b (buffer_get_pos b 0)
        (buffer_get_pos b n) true true).1 true true).livePages = [] := by
      unfold Buffer.livePages
      rw [harr, hsw.1]
      rfl
    have hbpne : b.pages ≠ none := by
      intro hbn
      exact hsw.2 (hciff.mpr (hs4.mpr hbn))
    have hCpage : (buffer_compact (drain_scan_stage b (buffer_get_pos b 0)
        (buffer_get_pos b n) true true).1 true true).page = InitPage := by
      rw [hcpage (fun hcontra => hbpne (hs4.mp hcontra)), hs5 hbpne]
      exact hwf.2.2.2.1 (Option.ne_none_iff_isSome.mp hbpne)
    have hswl : ({ buffer_compact (drain_scan_stage b (buffer_get_pos b 0)
          (buffer_get_pos b n) true true).1 true true with pages := none }
            : Buffer).livePages
        = [(buffer_compact (drain_scan_stage b (buffer_get_pos b 0)
            (buffer_get_pos b n) true true).1 true true).page] := by
      unfold Buffer.livePages
      dsimp only
    show ((unref_events (buffer_compact (drain_scan_stage b (buffer_get_pos b 0)
          (buffer_get_pos b n) true true).1 true true).events : List BufEvent)
          : Multiset BufEvent)
        + _ = _
    rw [hswl, hCpage]
    rw [show (([InitPage].map release_page_events).flatten : List BufEvent) = []
      from rfl]
    rw [hCl] at hcomp
    rw [show ((([] : List Page).map release_page_events).flatten : List BufEvent)
        = [] from rfl] at hcomp
    exact hcomp.trans hs1
  · rw [if_neg hsw]
    exact hcomp.trans hs1

theorem c4_append_ref (A : Alloc) (bytes : List Nat) (cb arg : Nat) :
    (buffer_append_pages A bfy_buffer_init
        [⟨bytes, 0, bytes.length, false, true, some cb, arg⟩]).2
      = ⟨⟨bytes, 0, bytes.length, false, true, some cb, arg⟩, none, 0,
         bytes.length, false, 0, bytes.length, 0, 0, 0, []⟩ := by
  unfold buffer_append_pages buffer_insert_pages
  rw [if_neg (by simp), if_pos (⟨rfl, rfl, rfl⟩ :
    ([⟨bytes, 0, bytes.length, false, true, some cb, arg⟩] : List Page).length = 1
      ∧ bfy_buffer_init.pages = none ∧ bfy_buffer_init.page.data = [])]
  dsimp only [List.headD]
  unfold buffer_record_content_added buffer_check_changed_cb
  dsimp only
  rw [if_pos (show bfy_buffer_init.changed_muted = 0 from rfl),
    if_pos (show (!bfy_buffer_init.changed_cb) = true from rfl)]
  simp [bfy_buffer_init, page_get_content_len, Buffer.mk.injEq]

theorem c4_drain_trace (bytes : List Nat) (cb arg : Nat) (hb : bytes ≠ []) :
    buffer_drain_range
        (⟨⟨bytes, 0, bytes.length, false, true, some cb, arg⟩, none, 0,
          bytes.length, false, 0, bytes.length, 0, 0, 0, []⟩ : Buffer)
        ⟨0, 0, 0⟩ ⟨1, 0, bytes.length⟩ false false
      = (bytes.length,
         ⟨InitPage, none, 0, 0, false, 0, bytes.length, bytes.length, 0, 0, []⟩) := by
  have hL : 0 < bytes.length := List.length_pos.mpr hb
  unfold buffer_drain_range drain_scan_stage
  have hib : iter_begin
      (⟨⟨bytes, 0, bytes.length, false, true, some cb, arg⟩, none, 0,
        bytes.length, false, 0, bytes.length, 0, 0, 0, []⟩ : Buffer)
      ⟨0, 0, 0⟩ ⟨1, 0, bytes.length⟩
      = some ⟨⟨0, 0, 0⟩,
          iter_impl_set_io
            (⟨⟨bytes, 0, bytes.length, false, true, some cb, arg⟩, none, 0,
              bytes.length, false, 0, bytes.length, 0, 0, 0, []⟩ : Buffer)
            ⟨0, 0, 0⟩ ⟨1, 0, bytes.length⟩,
          ⟨1, 0, bytes.length⟩⟩ := by
    unfold iter_begin
    rw [if_neg (by dsimp only; omega)]
  rw [hib]
  have hio : iter_impl_set_io
      (⟨⟨bytes, 0, bytes.length, false, true, some cb, arg⟩, none, 0,
        bytes.length, false, 0, bytes.length, 0, 0, 0, []⟩ : Buffer)
      ⟨0, 0, 0⟩ ⟨1, 0, bytes.length⟩ = bytes.length := by
    unfold iter_impl_set_io Buffer.getPage Buffer.livePages page_get_content_len
    dsimp only
    simp only [List.getD_cons_zero]
    omega
  rw [hio]
  dsimp only
  unfold drain_scan_loop
  dsimp only
  unfold Buffer.getPage Buffer.livePages
  dsimp only
  simp only [List.getD_cons_zero]
  rw [if_pos (show page_get_content_len
      ⟨bytes, 0, bytes.length, false, true, some cb, arg⟩ ≤ bytes.length from by
    unfold page_get_content_len; dsimp only; omega)]
  rw [if_neg (show ¬ ((false : Bool) = true ∧ page_is_recyclable
      ⟨bytes, 0, bytes.length, false, true, some cb, arg⟩ = true) from by simp)]
  rw [if_neg (show ¬ ((false : Bool) = true) from by simp)]
  dsimp only
  unfold Buffer.setPage
  dsimp only
  have hnx : iter_next_page
      (⟨InitPage, none, 0, bytes.length, false, 0, bytes.length, 0, 0, 0, []⟩ : Buffer)
      ⟨⟨0, 0, 0⟩, bytes.length, ⟨1, 0, bytes.length⟩⟩ = none := by
    unfold iter_next_page
    rw [if_pos (show buffer_count_pages
        (⟨InitPage, none, 0, bytes.length, false, 0, bytes.length, 0, 0, 0, []⟩
          : Buffer) ≤ (0 : Nat) + 1 from by
      unfold buffer_count_pages Buffer.livePages
      dsimp only
      exact Nat.le_refl 1)]
  rw [hnx]
  dsimp only
  rw [show (0 + page_get_content_len
      ⟨bytes, 0, bytes.length, false, true, some cb, arg⟩) = bytes.length from by
    unfold page_get_content_len
    dsimp only
    omega]
  have hcomp : buffer_compact
      (⟨InitPage, none, 0, bytes.length, false, 0, bytes.length, 0, 0, 0, []⟩ : Buffer)
      false false
      = (⟨InitPage, none, 0, bytes.length, false, 0, bytes.length, 0, 0, 0, []⟩
          : Buffer) := rfl
  rw [hcomp]
  rw [if_neg (show ¬ ((⟨InitPage, none, 0, bytes.length, false, 0, bytes.length,
      0, 0, 0, []⟩ : Buffer).n_pages = 0
      ∧ (⟨InitPage, none, 0, bytes.length, false, 0, bytes.length,
          0, 0, 0, []⟩ : Buffer).pages ≠ none) from by simp)]
  unfold buffer_record_content_removed buffer_check_changed_cb
  dsimp only
  rw [if_pos (show (0 : Nat) = 0 from rfl),
    if_pos (show (!(false : Bool)) = true from rfl)]
  simp [Buffer.mk.injEq]

theorem c4_remove_trace (A : Alloc) (bytes : List Nat) (cb arg : Nat)
    (hb : bytes ≠ []) :
    bfy_buffer_remove_buffer A
        (⟨⟨bytes, 0, bytes.length, false, true, some cb, arg⟩, none, 0,
          bytes.length, false, 0, bytes.length, 0, 0, 0, []⟩ : Buffer)
        bytes.length bfy_buffer_init
      = (bytes.length,
         ⟨InitPage, none, 0, 0, false, 0, bytes.length, bytes.length, 0, 0, []⟩,
         ⟨⟨bytes, 0, bytes.length, false, true, some cb, arg⟩, none, 0,
          bytes.length, false, 0, bytes.length, 0, 0, 0, []⟩) := by
  have hL : 0 < bytes.length := List.length_pos.mpr hb
  have hendp : buffer_get_pos
      (⟨⟨bytes, 0, bytes.length, false, true, some cb, arg⟩, none, 0,
        bytes.length, false, 0, bytes.length, 0, 0, 0, []⟩ : Buffer)
      bytes.length = ⟨1, 0, bytes.length⟩ := by
    unfold buffer_get_pos
    rw [if_neg (by omega), if_pos (Nat.le_refl bytes.length)]
    rfl
  unfold bfy_buffer_remove_buffer
  rw [hendp]
  dsimp only
  rw [if_pos (⟨Nat.one_pos, hL⟩ : 0 < 1 ∧ 0 < bytes.length)]
  rw [show ((⟨⟨bytes, 0, bytes.length, false, true, some cb, arg⟩, none, 0,
      bytes.length, false, 0, bytes.length, 0, 0, 0, []⟩ : Buffer).livePages.take 1)
      = [⟨bytes, 0, bytes.length, false, true, some cb, arg⟩] from rfl]
  rw [c4_append_ref A bytes cb arg]
  rw [if_neg (show ¬ (0 < (0 : Nat)) from by omega)]
  rw [show buffer_get_pos
      (⟨⟨bytes, 0, bytes.length, false, true, some cb, arg⟩, none, 0,
        bytes.length, false, 0, bytes.length, 0, 0, 0, []⟩ : Buffer) 0
      = ⟨0, 0, 0⟩ from get_pos_zero _]
  rw [c4_drain_trace bytes cb arg hb]

theorem c4_transfer_eq (A : Alloc) (bytes : List Nat) (cb arg : Nat)
    (hb : bytes ≠ []) :
    bfy_buffer_add_buffer A bfy_buffer_init
        (bfy_buffer_add_reference A bfy_buffer_init bytes cb arg).2
      = (0,
         ⟨⟨bytes, 0, bytes.length, false, true, some cb, arg⟩, none, 0,
          bytes.length, false, 0, bytes.length, 0, 0, 0, []⟩,
         ⟨InitPage, none, 0, 0, false, 0, bytes.length, bytes.length, 0, 0, []⟩) := by
  have h1 : (bfy_buffer_add_reference A bfy_buffer_init bytes cb arg).2
      = ⟨⟨bytes, 0, bytes.length, false, true, some cb, arg⟩, none, 0,
         bytes.length, false, 0, bytes.length, 0, 0, 0, []⟩ :=
    c4_append_ref A bytes cb arg
  unfold bfy_buffer_add_buffer
  rw [h1]
  dsimp only
  rw [show bfy_buffer_get_content_len
      (⟨⟨bytes, 0, bytes.length, false, true, some cb, arg⟩, none, 0,
        bytes.length, false, 0, bytes.length, 0, 0, 0, []⟩ : Buffer)
      = bytes.length from rfl]
  rw [c4_remove_trace A bytes cb arg hb]
  rw [if_pos (show (bytes.length, (⟨InitPage, none, 0, 0, false, 0, bytes.length,
      bytes.length, 0, 0, []⟩ : Buffer),
      (⟨⟨bytes, 0, bytes.length, false, true, some cb, arg⟩, none, 0,
        bytes.length, false, 0, bytes.length, 0, 0, 0, []⟩ : Buffer)).1
      = bytes.length from rfl)]

theorem c4_src_after_destruct (bytes : List Nat) :
    unref_events (bfy_buffer_destruct
      (⟨InitPage, none, 0, 0, false, 0, bytes.length, bytes.length,
        0, 0, []⟩ : Buffer)).events = [] := by
  have hwf : BufferWF
      (⟨InitPage, none, 0, 0, false, 0, bytes.length, bytes.length,
        0, 0, []⟩ : Buffer) := by
    refine ⟨fun p hp => ?_, rfl, fun h => Bool.noConfusion h,
      fun h => Bool.noConfusion h, fun _ => Nat.zero_le 1⟩
    have hp2 : p ∈ [InitPage] := hp
    rw [List.mem_singleton] at hp2
    subst hp2
    exact ⟨Nat.le_refl 0, Nat.le_refl 0⟩
  rw [destruct_events _ hwf (Nat.zero_le SIZE_MAX)]
  rfl

theorem c4_tgt_after_destruct (bytes : List Nat) (cb arg : Nat)
    (hlen : bytes.length ≤ SIZE_MAX) :
    unref_events (bfy_buffer_destruct
      (⟨⟨bytes, 0, bytes.length, false, true, some cb, arg⟩, none, 0,
        bytes.length, false, 0, bytes.length, 0, 0, 0, []⟩ : Buffer)).events
      = [BufEvent.unref cb bytes bytes.length arg] := by
  have hwf : BufferWF
      (⟨⟨bytes, 0, bytes.length, false, true, some cb, arg⟩, none, 0,
        bytes.length, false, 0, bytes.length, 0, 0, 0, []⟩ : Buffer) := by
    refine ⟨fun p hp => ?_, rfl, fun h => Bool.noConfusion h,
      fun h => Bool.noConfusion h, fun _ => Nat.zero_le 1⟩
    have hp2 : p ∈ [⟨bytes, 0, bytes.length, false, true, some cb, arg⟩] := hp
    rw [List.mem_singleton] at hp2
    subst hp2
    exact ⟨Nat.zero_le _, Nat.le_refl _⟩
  rw [destruct_events _ hwf hlen]
  rfl

/-- Claim C4: the unref hook of a page fires exactly once, when the page
leaves buffer control.  First conjunct (destruct): the unref events
recorded by a destruct are exactly the prior unref events followed by one
release event per live page that carries a hook, in page order.  Second
conjunct (drain): a public drain conserves the multiset of fired unref
events plus still-pending per-page release events, so a drain fires a
hook exactly when it releases the page, and a hook fired during a drain
is no longer pending afterwards.  Third and fourth conjuncts (transfer):
for any nonempty bytes, a reference page added to a fresh source buffer
and moved to a fresh target buffer with add_buffer fires no hook when the
source is destructed, and fires its hook exactly once, with the original
data and length, when the target is destructed. -/
theorem c4_destruct_unref_exactly_once (b : Buffer) (hwf : BufferWF b)
    (hsz : b.content_len ≤ SIZE_MAX) (n : Nat)
    (A : Alloc) (bytes : List Nat) (cb arg : Nat)
    (hbytes : bytes ≠ []) (hblen : bytes.length ≤ SIZE_MAX) :
    (unref_events (bfy_buffer_destruct b).events
      = unref_events b.events ++ ((b.livePages.map release_page_events).flatten)) ∧
    (((unref_events (bfy_buffer_drain b n).2.events : List BufEvent)
          : Multiset BufEvent)
        + ↑((((bfy_buffer_drain b n).2.livePages).map release_page_events).flatten)
      = (↑(unref_events b.events) : Multiset BufEvent)
        + ↑((b.livePages.map release_page_events).flatten)) ∧
    (unref_events (bfy_buffer_destruct
        (bfy_buffer_add_buffer A bfy_buffer_init
          (bfy_buffer_add_reference A bfy_buffer_init bytes cb arg).2).2.2).events
      = []) ∧
    (unref_events (bfy_buffer_destruct
        (bfy_buffer_add_buffer A bfy_buffer_init
          (bfy_buffer_add_reference A bfy_buffer_init bytes cb arg).2).2.1).events
      = [BufEvent.unref cb bytes bytes.length arg]) := by
  refine ⟨destruct_events b hwf hsz, drain_fired b hwf n, ?_, ?_⟩
  · rw [c4_transfer_eq A bytes cb arg hbytes]
    exact c4_src_after_destruct bytes
  · rw [c4_transfer_eq A bytes cb arg hbytes]
    exact c4_tgt_after_destruct bytes cb arg hblen

/-- Witness for C3 at the concrete buffer c3_buf with n = 1. -/
theorem c3_drain_witness :
    BufferWF c3_buf ∧
    (bfy_buffer_drain c3_buf 1).1 = min 1 c3_buf.content_len :=
  ⟨by decide, (c3_drain_exact_prefix_and_compaction c3_buf 1 (by decide)).1⟩

/-- Witness for C4 at the concrete buffer c4_demo, with drain length 1 and
the transferred reference page [1, 2] with hook 9 and argument 4. -/
theorem c4_destruct_unref_witness :
    (BufferWF c4_demo ∧ c4_demo.content_len ≤ SIZE_MAX
      ∧ ([1, 2] : List Nat) ≠ [] ∧ ([1, 2] : List Nat).length ≤ SIZE_MAX) ∧
    unref_events (bfy_buffer_destruct c4_demo).events
      = unref_events c4_demo.events
          ++ ((c4_demo.livePages.map release_page_events).flatten) :=
  ⟨⟨by decide, by decide, by decide, by decide⟩,
   (c4_destruct_unref_exactly_once c4_demo (by decide) (by decide) 1
      allocAlways [1, 2] 9 4 (by decide) (by decide)).1⟩

/-- Witness for C5 at the concrete buffer c9_hippos over the range [2, 5)
with capacity 1. -/
theorem c5_peek_witness :
    (BufferWF c9_hippos ∧ c9_hippos.content_len ≤ SIZE_MAX) ∧
    (bfy_buffer_peek_all c9_hippos 0).2 = content_page_extent c9_hippos :=
  ⟨⟨by decide, by decide⟩,
   (c5_peek_count_and_tiling c9_hippos (by decide) (by decide) 2 5 1).2.1⟩

/-- Witness for C7 at the concrete buffer c7_buf. -/
theorem c7_short_read_witness :
    (BufferWF c7_buf ∧ c7_buf.content_len < 4) ∧
    (bfy_buffer_remove_ntoh_u32 c7_buf).2.1 = true :=
  ⟨⟨by decide, by decide⟩,
   (c7_short_read_error_yet_drains c7_buf (by decide) (by decide)).1⟩

/-- Witness for C9 at the Hungry Hungry Hippos buffer over the range
[2, 27). -/
theorem c9_search_witness :
    (BufferWF c9_hippos ∧
      (∀ p ∈ c9_hippos.livePages, 0 < page_get_content_len p) ∧
      ([72, 117, 110, 103, 114, 121, 32, 72, 117, 110, 103, 114, 121, 32,
        72, 105, 112, 112, 111, 115] : List Nat) ≠ []) ∧
    bfy_buffer_search_range c9_hippos 2 27
        [72, 117, 110, 103, 114, 121, 32, 72, 117, 110, 103, 114, 121, 32,
          72, 105, 112, 112, 111, 115]
      = (refFind (range_bytes c9_hippos 2 27)
          [72, 117, 110, 103, 114, 121, 32, 72, 117, 110, 103, 114, 121, 32,
            72, 105, 112, 112, 111, 115]).map
          (fun i => min 2 c9_hippos.content_len + i) :=
  ⟨⟨by decide, by decide, by decide⟩,
   (c9_search_matches_reference c9_hippos (by decide) (by decide)
      [72, 117, 110, 103, 114, 121, 32, 72, 117, 110, 103, 114, 121, 32,
        72, 105, 112, 112, 111, 115] (by decide) 2 27).1⟩
